import Mathlib

/-! # Kalman: parser and symbol table

A shallow embedding of `src/Syntax/parser.cpp` (the recursive-descent /
precedence-climbing parser) and `src/tracers/symbol_table.cpp` (the chained
symbol table), followed by theorems about them.

Conventions of the embedding.

* The parser's mutable members (`_position`) and the process-wide
  `DiagnosticBag` form an explicit `State` that every operation threads.
  The immutable members (`_tokens`, `_show_return`) form `Parser`.
* Code the parser calls but whose text is not among the sources
  (`SyntaxFacts::get_unary_precedence`, `SyntaxFacts::get_binary_precedence`,
  the `istringstream` conversions, the default-constructed `Position`) is a
  field of `Collaborators`, a parameter of every parser function.
* The parser's functions are mutually recursive and its loops are not
  bounded by the text of the code, so every function takes a `fuel : Nat`
  that decreases by one at each call and each loop iteration; `none` means
  the fuel ran out.
* `_position` is a natural number: the `int`/`unsigned int` conversions of
  `peek` do not wrap for buffers shorter than 2^31 tokens.
-/

namespace Kalman

/-! ## Tokens -/

/-- The kinds of token. The enumeration's declaration is not among the
sources; these are the members `parser.cpp` names, the four arithmetic
operator tokens that `helpers.cpp` names, and `Other code` for every further
member (the remaining operator tokens among them). -/
inductive SyntaxKind where
  | BadToken | WhitespaceToken | CommentToken | EndOfFileToken
  | LParenToken | RParenToken | LSquareToken | RSquareToken
  | LCurlyToken | RCurlyToken | CommaToken | SemicolonToken | EqualsToken
  | PlusToken | MinusToken | StarToken | SlashToken
  | IdentifierToken | IntegerToken | DoubleToken | StringToken
  | TrueKeyword | FalseKeyword
  | IfKeyword | ElifKeyword | ElseKeyword | WhileKeyword | ForKeyword
  | DefineFunctionKeyword | ReturnKeyword | BreakKeyword | ContinueKeyword
  | IntegerKeyword | DoubleKeyword | BooleanKeyword | ListKeyword
  | FunctionKeyword | StringKeyword
  | PrintFunction | InputFunction | SplitFunction | SizeFunction
  | TypeFunction | ToBoolFunction | ToIntFunction | ToDoubleFunction
  | ToStringFunction | SetIndexFunction
  | Other (code : Nat)
  deriving DecidableEq, Repr

/-- A source span: `Position(ln, col, start, end)`. -/
structure Position where
  ln : Int
  col : Int
  start : Int
  end_ : Int
  deriving DecidableEq, Repr

/-- A token: `SyntaxToken(kind, pos, text)`. -/
structure SyntaxToken where
  kind : SyntaxKind
  pos : Position
  text : String
  deriving DecidableEq, Repr

/-- One call of `DiagnosticBag::report_unexpected_token(found, expected, pos)`.
The two names are recorded as the kinds `kind_to_string` was applied to. -/
structure Diagnostic where
  found : SyntaxKind
  expected : SyntaxKind
  pos : Position
  deriving DecidableEq, Repr

/-! ## Values and syntax nodes -/

/-- The objects a literal node holds (`new Integer(x)`, `new Double(x)`,
`new String(text)`, `new Boolean(value)`); a null pointer is `none` at the
node. A `long double` read from text is a finite rational. -/
inductive Value where
  | Integer (x : Int)
  | Double (x : Rat)
  | String (text : String)
  | Boolean (value : Bool)
  deriving DecidableEq, Repr

/-- The nodes `parser.cpp` constructs, with the constructor arguments in the
order of the source. -/
inductive SyntaxNode where
  | Literal (value : Option Value) (pos : Position)
  | Unary (op_token : SyntaxToken) (operand : SyntaxNode) (pos : Position)
  | Binary (left : SyntaxNode) (op_token : SyntaxToken) (right : SyntaxNode) (pos : Position)
  | Index (to_access : SyntaxNode) (index : SyntaxNode) (pos : Position)
  | Sequence (nodes : List SyntaxNode) (pos : Position) (to_return : Bool)
  | VarDeclare (var_keyword : SyntaxToken) (identifier : SyntaxToken) (pos : Position)
  | VarAssign (identifier : SyntaxToken) (expression : SyntaxNode) (pos : Position)
  | VarAccess (identifier : SyntaxToken) (pos : Position)
  | FuncCall (identifier : SyntaxToken) (args : List SyntaxNode) (pos : Position)
  | FuncDefine (identifier : SyntaxToken) (arg_names : List SyntaxToken) (body : SyntaxNode)
      (pos : Position)
  | If (conditions : List SyntaxNode) (bodies : List SyntaxNode) (else_body : Option SyntaxNode)
      (pos : Position)
  | While (condition : SyntaxNode) (body : SyntaxNode) (pos : Position)
  | For (init : SyntaxNode) (condition : SyntaxNode) (update : SyntaxNode) (body : SyntaxNode)
      (pos : Position)
  | Return (expression : Option SyntaxNode)
  | Break
  | Continue
  | NoneExpression

/-- What the parser takes from code that is not among the sources. -/
structure Collaborators where
  /-- The table `SyntaxFacts::get_unary_precedence`; 0 means "not a unary operator". -/
  get_unary_precedence : SyntaxKind → Int
  /-- The table `SyntaxFacts::get_binary_precedence`; 0 means "not a binary operator". -/
  get_binary_precedence : SyntaxKind → Int
  /-- The extraction `is >> x` into a `long long`: `none` when it fails. -/
  read_long_long : String → Option Int
  /-- The extraction `is >> x` into a `long double`: `none` when it fails. -/
  read_long_double : String → Option Rat
  /-- The default-constructed `Position()`. -/
  null_position : Position
  /-- The default third argument of the `SequenceExpressionSyntax` constructor. -/
  sequence_default_flag : Bool

/-- Modelled from the spec: the default argument of `parse_expression`, declared
in the header `parser.h` that is not among the sources; the spec's
`parse_expression(min_precedence)` starts an expression at the minimum
precedence 0. -/
def default_precedence : Int := 0

/-- The position a node was constructed with (`get_pos`); the four nodes that
are constructed without one carry the default-constructed `Position()`. -/
def SyntaxNode.get_pos (E : Collaborators) : SyntaxNode → Position
  | .Literal _ pos => pos
  | .Unary _ _ pos => pos
  | .Binary _ _ _ pos => pos
  | .Index _ _ pos => pos
  | .Sequence _ pos _ => pos
  | .VarDeclare _ _ pos => pos
  | .VarAssign _ _ pos => pos
  | .VarAccess _ pos => pos
  | .FuncCall _ _ pos => pos
  | .FuncDefine _ _ _ pos => pos
  | .If _ _ _ pos => pos
  | .While _ _ pos => pos
  | .For _ _ _ _ pos => pos
  | .Return _ => E.null_position
  | .Break => E.null_position
  | .Continue => E.null_position
  | .NoneExpression => E.null_position

/-! ## Parser state and the cursor -/

/-- The immutable members of `Parser`: the filtered token buffer and the
`show_return` setting. -/
structure Parser where
  tokens : List SyntaxToken
  show_return : Bool

/-- The mutable state a parse threads: the cursor `_position` and the
process-wide diagnostic bag (oldest report first). -/
structure State where
  position : Nat
  diagnostics : List Diagnostic
  deriving DecidableEq, Repr

/-- The token an out-of-range read of the empty buffer stands for. The C++
indexes an empty vector there (undefined behaviour); the constructor never
builds an empty buffer. -/
def SyntaxToken.undefined : SyntaxToken :=
  ⟨SyntaxKind.BadToken, ⟨0, 0, 0, 0⟩, ""⟩

/-- `Parser::peek`: the token at `_position + offset`, clamped to the last
token of the buffer. -/
def Parser.peek (P : Parser) (st : State) (offset : Nat) : SyntaxToken :=
  let index := st.position + offset
  let index := if index ≥ P.tokens.length then P.tokens.length - 1 else index
  P.tokens.getD index SyntaxToken.undefined

/-- `Parser::current`. -/
def Parser.current (P : Parser) (st : State) : SyntaxToken :=
  P.peek st 0

/-- `Parser::look_ahead`. -/
def Parser.look_ahead (P : Parser) (st : State) : SyntaxToken :=
  P.peek st 1

/-- `Parser::next_token`: returns the current token and advances the cursor. -/
def Parser.next_token (P : Parser) (st : State) : SyntaxToken × State :=
  let curr := P.current st
  (curr, { st with position := st.position + 1 })

/-- `DiagnosticBag::report_unexpected_token`: appends one diagnostic. -/
def report_unexpected_token (found expected : SyntaxKind) (pos : Position) (st : State) : State :=
  { st with diagnostics := st.diagnostics ++ [⟨found, expected, pos⟩] }

/-- `Parser::match_token`. -/
def Parser.match_token (P : Parser) (kind : SyntaxKind) (st : State) : SyntaxToken × State :=
  if (P.current st).kind = kind then
    P.next_token st
  else
    let st := report_unexpected_token (P.current st).kind kind (P.current st).pos st
    (⟨kind, (P.current st).pos, ""⟩, st)

/-- The loop `do ... while (token.kind() != EndOfFileToken)` of the constructor
`Parser::Parser`. The lexer is not among the sources: `lexed` lists the tokens
that its successive calls `lexer.lex()` return and `tokens` is `_tokens` so
far. Each call's token is pushed unless its kind is `BadToken`,
`WhitespaceToken` or `CommentToken`, and the loop ends after the first
end-of-file token; `none` means that `lexed` ran out before one. -/
def Parser.read_tokens : List SyntaxToken → List SyntaxToken → Option (List SyntaxToken)
  | [], _ => none
  | token :: lexed, tokens =>
    let tokens :=
      match token.kind with
      | SyntaxKind.BadToken | SyntaxKind.WhitespaceToken | SyntaxKind.CommentToken => tokens
      | _ => tokens ++ [token]
    if token.kind ≠ SyntaxKind.EndOfFileToken then
      Parser.read_tokens lexed tokens
    else
      some tokens

/-- `Parser::Parser(text, show_return)`, on the tokens the lexer of `text`
returns: `_position` starts at 0 (the initial `State`). -/
def Parser.create (lexed : List SyntaxToken) (show_return : Bool) : Option Parser :=
  match Parser.read_tokens lexed [] with
  | none => none
  | some tokens => some ⟨tokens, show_return⟩

/-! ## The parser -/

/-- The span `Position(start.ln, start.col, start.start, current().get_pos().end)`
that most nodes are constructed with. -/
def Parser.span_to_current (P : Parser) (start : Position) (st : State) : Position :=
  ⟨start.ln, start.col, start.start, (P.current st).pos.end_⟩

/-- The loop of the function-definition case that reads the parameter names
after the first: `while (current().kind() == CommaToken)`. -/
def parse_arg_names_loop (P : Parser) :
    Nat → List SyntaxToken → State → Option (List SyntaxToken × State)
  | 0, _, _ => none
  | fuel + 1, arg_names, st =>
    if (P.current st).kind = SyntaxKind.CommaToken then
      let st := (P.next_token st).2
      let r := P.match_token SyntaxKind.IdentifierToken st
      parse_arg_names_loop P fuel (arg_names ++ [r.1]) r.2
    else
      some (arg_names, st)

mutual

/-- `Parser::parse_program(sub_program)`. -/
def parse_program (E : Collaborators) (P : Parser) :
    Nat → Bool → State → Option (SyntaxNode × State)
  | 0, _, _ => none
  | fuel + 1, sub_program, st =>
    let start := (P.current st).pos
    if sub_program then
      parse_program_sub_loop E P fuel start [] st
    else
      parse_program_top_loop E P fuel start [] st

/-- The loop `while (current().kind() != RCurlyToken)` of the sub-program
branch, with the two statements after it. In the `switch`, the case of the
stray closers has no `break` and runs on into the end-of-file case. -/
def parse_program_sub_loop (E : Collaborators) (P : Parser) :
    Nat → Position → List SyntaxNode → State → Option (SyntaxNode × State)
  | 0, _, _, _ => none
  | fuel + 1, start, program_seq, st =>
    if (P.current st).kind ≠ SyntaxKind.RCurlyToken then
      match parse_statement E P fuel st with
      | none => none
      | some (statement, st) =>
        let program_seq := program_seq ++ [statement]
        match (P.current st).kind with
        | SyntaxKind.RParenToken | SyntaxKind.RSquareToken | SyntaxKind.CommaToken =>
          let st := report_unexpected_token (P.current st).kind SyntaxKind.SemicolonToken
            (P.current st).pos st
          let st := (P.next_token st).2
          let st := (P.match_token SyntaxKind.RCurlyToken st).2
          some (SyntaxNode.Sequence program_seq (P.span_to_current start st) P.show_return, st)
        | SyntaxKind.EndOfFileToken =>
          let st := (P.match_token SyntaxKind.RCurlyToken st).2
          some (SyntaxNode.Sequence program_seq (P.span_to_current start st) P.show_return, st)
        | _ => parse_program_sub_loop E P fuel start program_seq st
    else
      let st := (P.next_token st).2
      some (SyntaxNode.Sequence program_seq (P.span_to_current start st) P.show_return, st)

/-- The loop `while (current().kind() != EndOfFileToken)` of the top-level
branch, with the `return` after it. -/
def parse_program_top_loop (E : Collaborators) (P : Parser) :
    Nat → Position → List SyntaxNode → State → Option (SyntaxNode × State)
  | 0, _, _, _ => none
  | fuel + 1, start, program_seq, st =>
    if (P.current st).kind ≠ SyntaxKind.EndOfFileToken then
      match parse_statement E P fuel st with
      | none => none
      | some (statement, st) =>
        let program_seq := program_seq ++ [statement]
        match (P.current st).kind with
        | SyntaxKind.RParenToken | SyntaxKind.RSquareToken | SyntaxKind.RCurlyToken
        | SyntaxKind.CommaToken =>
          let st := report_unexpected_token (P.current st).kind SyntaxKind.SemicolonToken
            (P.current st).pos st
          let st := (P.next_token st).2
          parse_program_top_loop E P fuel start program_seq st
        | _ => parse_program_top_loop E P fuel start program_seq st
    else
      some (SyntaxNode.Sequence program_seq (P.span_to_current start st) P.show_return, st)

/-- `Parser::parse_statement`. -/
def parse_statement (E : Collaborators) (P : Parser) :
    Nat → State → Option (SyntaxNode × State)
  | 0, _ => none
  | fuel + 1, st =>
    match (P.current st).kind with
    | SyntaxKind.LCurlyToken =>
      let st := (P.next_token st).2
      parse_program E P fuel true st
    | SyntaxKind.IfKeyword =>
      let start := (P.current st).pos
      let st := (P.next_token st).2
      let st := (P.match_token SyntaxKind.LParenToken st).2
      match parse_expression E P fuel default_precedence st with
      | none => none
      | some (condition, st) =>
        let st := (P.match_token SyntaxKind.RParenToken st).2
        match parse_statement E P fuel st with
        | none => none
        | some (body, st) =>
          match parse_elif_loop E P fuel [condition] [body] st with
          | none => none
          | some (conditions, bodies, st) =>
            if (P.current st).kind = SyntaxKind.ElseKeyword then
              let st := (P.next_token st).2
              match parse_statement E P fuel st with
              | none => none
              | some (else_body, st) =>
                some (SyntaxNode.If conditions bodies (some else_body)
                  (P.span_to_current start st), st)
            else
              some (SyntaxNode.If conditions bodies none (P.span_to_current start st), st)
    | SyntaxKind.WhileKeyword =>
      let start := (P.current st).pos
      let st := (P.next_token st).2
      let st := (P.match_token SyntaxKind.LParenToken st).2
      match parse_expression E P fuel default_precedence st with
      | none => none
      | some (condition, st) =>
        let st := (P.match_token SyntaxKind.RParenToken st).2
        match parse_statement E P fuel st with
        | none => none
        | some (body, st) =>
          some (SyntaxNode.While condition body (P.span_to_current start st), st)
    | SyntaxKind.ForKeyword =>
      let start := (P.current st).pos
      let st := (P.next_token st).2
      let st := (P.match_token SyntaxKind.LParenToken st).2
      match parse_expression E P fuel default_precedence st with
      | none => none
      | some (init, st) =>
        let st := (P.match_token SyntaxKind.SemicolonToken st).2
        match parse_expression E P fuel default_precedence st with
        | none => none
        | some (condition, st) =>
          let st := (P.match_token SyntaxKind.SemicolonToken st).2
          match parse_expression E P fuel default_precedence st with
          | none => none
          | some (update, st) =>
            let st := (P.match_token SyntaxKind.RParenToken st).2
            match parse_statement E P fuel st with
            | none => none
            | some (body, st) =>
              some (SyntaxNode.For init condition update body (P.span_to_current start st), st)
    | SyntaxKind.DefineFunctionKeyword =>
      let start := (P.current st).pos
      let st := (P.next_token st).2
      let r := P.match_token SyntaxKind.IdentifierToken st
      let identifier := r.1
      let st := (P.match_token SyntaxKind.LParenToken r.2).2
      let names :=
        if (P.current st).kind ≠ SyntaxKind.RParenToken then
          let r := P.match_token SyntaxKind.IdentifierToken st
          parse_arg_names_loop P fuel [r.1] r.2
        else
          some ([], st)
      match names with
      | none => none
      | some (arg_names, st) =>
        let st := (P.match_token SyntaxKind.RParenToken st).2
        match parse_statement E P fuel st with
        | none => none
        | some (body, st) =>
          some (SyntaxNode.FuncDefine identifier arg_names body (P.span_to_current start st), st)
    | SyntaxKind.ReturnKeyword =>
      let st := (P.next_token st).2
      if (P.current st).kind = SyntaxKind.SemicolonToken then
        let st := (P.next_token st).2
        some (SyntaxNode.Return none, st)
      else
        match parse_expression E P fuel default_precedence st with
        | none => none
        | some (expression, st) =>
          let st := (P.match_token SyntaxKind.SemicolonToken st).2
          some (SyntaxNode.Return (some expression), st)
    | SyntaxKind.BreakKeyword =>
      let st := (P.next_token st).2
      let st := (P.match_token SyntaxKind.SemicolonToken st).2
      some (SyntaxNode.Break, st)
    | SyntaxKind.ContinueKeyword =>
      let st := (P.next_token st).2
      let st := (P.match_token SyntaxKind.SemicolonToken st).2
      some (SyntaxNode.Continue, st)
    | SyntaxKind.SemicolonToken =>
      let st := (P.next_token st).2
      some (SyntaxNode.NoneExpression, st)
    | _ =>
      match parse_expression E P fuel default_precedence st with
      | none => none
      | some (expression, st) =>
        let st := (P.match_token SyntaxKind.SemicolonToken st).2
        some (expression, st)

/-- The loop `while (current().kind() == ElifKeyword)` of the `if` case. -/
def parse_elif_loop (E : Collaborators) (P : Parser) :
    Nat → List SyntaxNode → List SyntaxNode → State →
      Option (List SyntaxNode × List SyntaxNode × State)
  | 0, _, _, _ => none
  | fuel + 1, conditions, bodies, st =>
    if (P.current st).kind = SyntaxKind.ElifKeyword then
      let st := (P.next_token st).2
      let st := (P.match_token SyntaxKind.LParenToken st).2
      match parse_expression E P fuel default_precedence st with
      | none => none
      | some (condition, st) =>
        let st := (P.match_token SyntaxKind.RParenToken st).2
        match parse_statement E P fuel st with
        | none => none
        | some (body, st) =>
          parse_elif_loop E P fuel (conditions ++ [condition]) (bodies ++ [body]) st
    else
      some (conditions, bodies, st)

/-- `Parser::parse_expression(precedence)`. -/
def parse_expression (E : Collaborators) (P : Parser) :
    Nat → Int → State → Option (SyntaxNode × State)
  | 0, _, _ => none
  | fuel + 1, precedence, st =>
    let unary_precedence := E.get_unary_precedence (P.current st).kind
    if unary_precedence ≠ 0 ∧ unary_precedence ≥ precedence then
      let r := P.next_token st
      let op_token := r.1
      match parse_expression E P fuel unary_precedence r.2 with
      | none => none
      | some (expression, st) =>
        let left := SyntaxNode.Unary op_token expression
          ⟨op_token.pos.ln, op_token.pos.col, op_token.pos.start, (expression.get_pos E).end_⟩
        parse_binary_loop E P fuel precedence left st
    else
      match (P.current st).kind with
      | SyntaxKind.IntegerKeyword | SyntaxKind.DoubleKeyword | SyntaxKind.BooleanKeyword
      | SyntaxKind.ListKeyword | SyntaxKind.FunctionKeyword | SyntaxKind.StringKeyword =>
        let start := (P.current st).pos
        let r := P.next_token st
        let var_keyword := r.1
        let r := P.match_token SyntaxKind.IdentifierToken r.2
        let identifier := r.1
        let st := r.2
        let var_decl := SyntaxNode.VarDeclare var_keyword identifier (P.span_to_current start st)
        if (P.current st).kind = SyntaxKind.SemicolonToken then
          some (var_decl, st)
        else
          let st := (P.match_token SyntaxKind.EqualsToken st).2
          match parse_expression E P fuel precedence st with
          | none => none
          | some (expression, st) =>
            let var_ass := SyntaxNode.VarAssign identifier expression (P.span_to_current start st)
            some (SyntaxNode.Sequence [var_decl, var_ass] (P.span_to_current start st)
              E.sequence_default_flag, st)
      | SyntaxKind.IdentifierToken =>
        if (P.look_ahead st).kind = SyntaxKind.EqualsToken then
          let start := (P.current st).pos
          let r := P.next_token st
          let identifier := r.1
          let st := (P.next_token r.2).2
          match parse_expression E P fuel precedence st with
          | none => none
          | some (expression, st) =>
            some (SyntaxNode.VarAssign identifier expression (P.span_to_current start st), st)
        else
          match parse_molecule E P fuel st with
          | none => none
          | some (left, st) => parse_binary_loop E P fuel precedence left st
      | _ =>
        match parse_molecule E P fuel st with
        | none => none
        | some (left, st) => parse_binary_loop E P fuel precedence left st

/-- The loop `while (true)` of `parse_expression` that folds binary operators,
with the `return left` after it. -/
def parse_binary_loop (E : Collaborators) (P : Parser) :
    Nat → Int → SyntaxNode → State → Option (SyntaxNode × State)
  | 0, _, _, _ => none
  | fuel + 1, precedence, left, st =>
    let binary_precedence := E.get_binary_precedence (P.current st).kind
    if binary_precedence = 0 ∨ binary_precedence ≤ precedence then
      some (left, st)
    else
      let r := P.next_token st
      let op_token := r.1
      match parse_expression E P fuel binary_precedence r.2 with
      | none => none
      | some (right, st) =>
        let left_pos := left.get_pos E
        let right_pos := right.get_pos E
        let left := SyntaxNode.Binary left op_token right
          ⟨left_pos.ln, left_pos.col, left_pos.start, right_pos.end_⟩
        parse_binary_loop E P fuel precedence left st

/-- `Parser::parse_molecule`. -/
def parse_molecule (E : Collaborators) (P : Parser) :
    Nat → State → Option (SyntaxNode × State)
  | 0, _ => none
  | fuel + 1, st =>
    match parse_atom E P fuel st with
    | none => none
    | some (left, st) =>
      match (P.current st).kind with
      | SyntaxKind.LSquareToken => parse_index_loop E P fuel left st
      | _ => some (left, st)

/-- The loop `while (current().kind() == LSquareToken)` of `parse_molecule`. -/
def parse_index_loop (E : Collaborators) (P : Parser) :
    Nat → SyntaxNode → State → Option (SyntaxNode × State)
  | 0, _, _ => none
  | fuel + 1, left, st =>
    if (P.current st).kind = SyntaxKind.LSquareToken then
      let start := (P.current st).pos
      let st := (P.next_token st).2
      match parse_expression E P fuel default_precedence st with
      | none => none
      | some (right, st) =>
        let st := (P.match_token SyntaxKind.RSquareToken st).2
        parse_index_loop E P fuel (SyntaxNode.Index left right (P.span_to_current start st)) st
    else
      some (left, st)

/-- The loop `while (current().kind() == CommaToken)` that reads the further
elements of a list literal or the further arguments of a call. -/
def parse_comma_loop (E : Collaborators) (P : Parser) :
    Nat → List SyntaxNode → State → Option (List SyntaxNode × State)
  | 0, _, _ => none
  | fuel + 1, elements, st =>
    if (P.current st).kind = SyntaxKind.CommaToken then
      let st := (P.next_token st).2
      match parse_expression E P fuel default_precedence st with
      | none => none
      | some (expression, st) => parse_comma_loop E P fuel (elements ++ [expression]) st
    else
      some (elements, st)

/-- `Parser::parse_atom`. -/
def parse_atom (E : Collaborators) (P : Parser) :
    Nat → State → Option (SyntaxNode × State)
  | 0, _ => none
  | fuel + 1, st =>
    match (P.current st).kind with
    | SyntaxKind.IntegerToken =>
      let r := P.next_token st
      let literal_token := r.1
      match E.read_long_long literal_token.text with
      | some x => some (SyntaxNode.Literal (some (Value.Integer x)) literal_token.pos, r.2)
      | none => some (SyntaxNode.Literal none E.null_position, r.2)
    | SyntaxKind.StringToken =>
      let r := P.next_token st
      let literal_token := r.1
      some (SyntaxNode.Literal (some (Value.String literal_token.text)) literal_token.pos, r.2)
    | SyntaxKind.DoubleToken =>
      let r := P.next_token st
      let literal_token := r.1
      match E.read_long_double literal_token.text with
      | some x => some (SyntaxNode.Literal (some (Value.Double x)) literal_token.pos, r.2)
      | none => some (SyntaxNode.Literal none E.null_position, r.2)
    | SyntaxKind.TrueKeyword | SyntaxKind.FalseKeyword =>
      let r := P.next_token st
      let keyword := r.1
      let value := decide (keyword.kind = SyntaxKind.TrueKeyword)
      some (SyntaxNode.Literal (some (Value.Boolean value)) keyword.pos, r.2)
    | SyntaxKind.LParenToken =>
      let st := (P.next_token st).2
      match parse_expression E P fuel default_precedence st with
      | none => none
      | some (expression, st) =>
        let st := (P.match_token SyntaxKind.RParenToken st).2
        some (expression, st)
    | SyntaxKind.LSquareToken =>
      let start := (P.current st).pos
      let st := (P.next_token st).2
      if (P.current st).kind = SyntaxKind.RSquareToken then
        let st := (P.next_token st).2
        some (SyntaxNode.Sequence [] (P.span_to_current start st) true, st)
      else
        match parse_expression E P fuel default_precedence st with
        | none => none
        | some (expression, st) =>
          match parse_comma_loop E P fuel [expression] st with
          | none => none
          | some (elements, st) =>
            let st := (P.match_token SyntaxKind.RSquareToken st).2
            some (SyntaxNode.Sequence elements (P.span_to_current start st) true, st)
    | SyntaxKind.PrintFunction | SyntaxKind.InputFunction | SyntaxKind.SplitFunction
    | SyntaxKind.SizeFunction | SyntaxKind.TypeFunction | SyntaxKind.ToBoolFunction
    | SyntaxKind.ToIntFunction | SyntaxKind.ToDoubleFunction | SyntaxKind.ToStringFunction
    | SyntaxKind.SetIndexFunction =>
      let start := (P.current st).pos
      let r := P.next_token st
      let identifier := r.1
      let st := (P.match_token SyntaxKind.LParenToken r.2).2
      if (P.current st).kind = SyntaxKind.RParenToken then
        let st := (P.next_token st).2
        some (SyntaxNode.FuncCall identifier [] (P.span_to_current start st), st)
      else
        match parse_expression E P fuel default_precedence st with
        | none => none
        | some (expression, st) =>
          match parse_comma_loop E P fuel [expression] st with
          | none => none
          | some (args, st) =>
            let st := (P.match_token SyntaxKind.RParenToken st).2
            some (SyntaxNode.FuncCall identifier args (P.span_to_current start st), st)
    | _ =>
      let start := (P.current st).pos
      let r := P.match_token SyntaxKind.IdentifierToken st
      let identifier := r.1
      let st := r.2
      if (P.current st).kind = SyntaxKind.LParenToken then
        let st := (P.next_token st).2
        if (P.current st).kind = SyntaxKind.RParenToken then
          let st := (P.next_token st).2
          some (SyntaxNode.FuncCall identifier [] (P.span_to_current start st), st)
        else
          match parse_expression E P fuel default_precedence st with
          | none => none
          | some (expression, st) =>
            match parse_comma_loop E P fuel [expression] st with
            | none => none
            | some (args, st) =>
              let st := (P.match_token SyntaxKind.RParenToken st).2
              some (SyntaxNode.FuncCall identifier args (P.span_to_current start st), st)
      else
        some (SyntaxNode.VarAccess identifier (P.span_to_current start st), st)

end

/-- `Parser::parse`: the program, then `match_token(EndOfFileToken)`. -/
def parse (E : Collaborators) (P : Parser) (fuel : Nat) (st : State) :
    Option (SyntaxNode × State) :=
  match parse_program E P fuel false st with
  | none => none
  | some (program, st) =>
    let st := (P.match_token SyntaxKind.EndOfFileToken st).2
    some (program, st)

/-! ## Nodes named by the claims -/

/-- The kinds `parse_atom` turns into a literal node. -/
def is_literal_kind (k : SyntaxKind) : Prop :=
  k = SyntaxKind.IntegerToken ∨ k = SyntaxKind.StringToken ∨ k = SyntaxKind.DoubleToken ∨
    k = SyntaxKind.TrueKeyword ∨ k = SyntaxKind.FalseKeyword

instance (k : SyntaxKind) : Decidable (is_literal_kind k) := by
  unfold is_literal_kind; infer_instance

/-- `Literal(t)`: the node `parse_atom` builds from the literal token `t`. -/
def literal_node (E : Collaborators) (t : SyntaxToken) : SyntaxNode :=
  match t.kind with
  | SyntaxKind.IntegerToken =>
    match E.read_long_long t.text with
    | some x => SyntaxNode.Literal (some (Value.Integer x)) t.pos
    | none => SyntaxNode.Literal none E.null_position
  | SyntaxKind.StringToken => SyntaxNode.Literal (some (Value.String t.text)) t.pos
  | SyntaxKind.DoubleToken =>
    match E.read_long_double t.text with
    | some x => SyntaxNode.Literal (some (Value.Double x)) t.pos
    | none => SyntaxNode.Literal none E.null_position
  | _ => SyntaxNode.Literal (some (Value.Boolean (decide (t.kind = SyntaxKind.TrueKeyword)))) t.pos

/-- `Binary(op, left, right)` with the span `parse_expression` gives it. -/
def binary_node (E : Collaborators) (left : SyntaxNode) (op : SyntaxToken) (right : SyntaxNode) :
    SyntaxNode :=
  SyntaxNode.Binary left op right
    ⟨(left.get_pos E).ln, (left.get_pos E).col, (left.get_pos E).start, (right.get_pos E).end_⟩

/-- `Unary(op, operand)` with the span `parse_expression` gives it. -/
def unary_node (E : Collaborators) (op : SyntaxToken) (operand : SyntaxNode) : SyntaxNode :=
  SyntaxNode.Unary op operand
    ⟨op.pos.ln, op.pos.col, op.pos.start, (operand.get_pos E).end_⟩

/-! ## Notions used to state the claims about whole statements -/

/-- The token `peek` reads at index `i` of the buffer (the last token when `i`
is past the end). -/
def Parser.token_at (P : Parser) (i : Nat) : SyntaxToken :=
  P.peek ⟨i, []⟩ 0

/-- The cursor has not moved back and the diagnostic bag has not shrunk. -/
def State.extends (st st' : State) : Prop :=
  st.position ≤ st'.position ∧ st.diagnostics.length ≤ st'.diagnostics.length

/-- The cursor has not moved back, the diagnostic bag has not shrunk, and one of
the two has grown. -/
def State.advances (st st' : State) : Prop :=
  st.position ≤ st'.position ∧ st.diagnostics.length ≤ st'.diagnostics.length ∧
    (st.position < st'.position ∨ st.diagnostics.length < st'.diagnostics.length)

/-- The state moved `k` tokens forward, with the diagnostics `d0` recorded before
its own. -/
def State.shift (k : Nat) (d0 : List Diagnostic) (st : State) : State :=
  ⟨st.position + k, d0 ++ st.diagnostics⟩

/-- The result of a parsing function with its state shifted. -/
def shift_result {α : Type} (k : Nat) (d0 : List Diagnostic) (x : α × State) : α × State :=
  (x.1, x.2.shift k d0)

/-- The kinds that start a declaration in `parse_expression`. -/
def is_type_keyword (k : SyntaxKind) : Prop :=
  k = SyntaxKind.IntegerKeyword ∨ k = SyntaxKind.DoubleKeyword ∨ k = SyntaxKind.BooleanKeyword ∨
    k = SyntaxKind.ListKeyword ∨ k = SyntaxKind.FunctionKeyword ∨ k = SyntaxKind.StringKeyword

/-- `Continues E P1 P2 n`: the buffer of `P2` has the first `n` tokens of `P1`,
followed by a token that cannot continue an expression: it is no binary
operator and none of `[`, `(`, `,`, `=`; and the token of `P1` two places
before index `n` is no type keyword. -/
structure Continues (E : Collaborators) (P1 P2 : Parser) (n : Nat) : Prop where
  below : ∀ i, i < n → P2.token_at i = P1.token_at i
  not_binary : E.get_binary_precedence (P2.token_at n).kind = 0
  not_lsquare : (P2.token_at n).kind ≠ SyntaxKind.LSquareToken
  not_lparen : (P2.token_at n).kind ≠ SyntaxKind.LParenToken
  not_comma : (P2.token_at n).kind ≠ SyntaxKind.CommaToken
  not_equals : (P2.token_at n).kind ≠ SyntaxKind.EqualsToken
  no_declaration : ∀ q, q + 2 = n → ¬ is_type_keyword (P1.token_at q).kind

mutual
/-- The node with every source span replaced by the default span. -/
def SyntaxNode.shape : SyntaxNode → SyntaxNode
  | .Literal value _ => .Literal value ⟨0, 0, 0, 0⟩
  | .Unary op operand _ => .Unary op operand.shape ⟨0, 0, 0, 0⟩
  | .Binary left op right _ => .Binary left.shape op right.shape ⟨0, 0, 0, 0⟩
  | .Index a i _ => .Index a.shape i.shape ⟨0, 0, 0, 0⟩
  | .Sequence nodes _ flag => .Sequence (shape_list nodes) ⟨0, 0, 0, 0⟩ flag
  | .VarDeclare k i _ => .VarDeclare k i ⟨0, 0, 0, 0⟩
  | .VarAssign i e _ => .VarAssign i e.shape ⟨0, 0, 0, 0⟩
  | .VarAccess i _ => .VarAccess i ⟨0, 0, 0, 0⟩
  | .FuncCall i args _ => .FuncCall i (shape_list args) ⟨0, 0, 0, 0⟩
  | .FuncDefine i names body _ => .FuncDefine i names body.shape ⟨0, 0, 0, 0⟩
  | .If cs bs none _ => .If (shape_list cs) (shape_list bs) none ⟨0, 0, 0, 0⟩
  | .If cs bs (some e) _ => .If (shape_list cs) (shape_list bs) (some e.shape) ⟨0, 0, 0, 0⟩
  | .While c b _ => .While c.shape b.shape ⟨0, 0, 0, 0⟩
  | .For i c u b _ => .For i.shape c.shape u.shape b.shape ⟨0, 0, 0, 0⟩
  | .Return none => .Return none
  | .Return (some e) => .Return (some e.shape)
  | .Break => .Break
  | .Continue => .Continue
  | .NoneExpression => .NoneExpression
/-- The shapes of the nodes of a list. -/
def shape_list : List SyntaxNode → List SyntaxNode
  | [] => []
  | n :: ns => n.shape :: shape_list ns
end

/-- The kinds `parse_statement` has a case of its own for; a statement that
starts with any other kind is an expression statement. -/
def is_statement_start (k : SyntaxKind) : Prop :=
  k = SyntaxKind.LCurlyToken ∨ k = SyntaxKind.IfKeyword ∨ k = SyntaxKind.WhileKeyword ∨
    k = SyntaxKind.ForKeyword ∨ k = SyntaxKind.DefineFunctionKeyword ∨
    k = SyntaxKind.ReturnKeyword ∨ k = SyntaxKind.BreakKeyword ∨
    k = SyntaxKind.ContinueKeyword ∨ k = SyntaxKind.SemicolonToken

/-- The closers the top-level loop of `parse_program` skips after a statement. -/
def is_stray_closer (k : SyntaxKind) : Prop :=
  k = SyntaxKind.RParenToken ∨ k = SyntaxKind.RSquareToken ∨ k = SyntaxKind.RCurlyToken ∨
    k = SyntaxKind.CommaToken

/-- A token of this kind, met where a `;` is missing, does not start a statement
of its own: the parser takes it as the continuation of the expression before
it (a binary operator, `[`, `(`, `=`), or the top-level loop skips it (`)`,
`]`, `}`, `,`). -/
def joins_previous_statement (E : Collaborators) (k : SyntaxKind) : Prop :=
  E.get_binary_precedence k ≠ 0 ∨ k = SyntaxKind.LSquareToken ∨ k = SyntaxKind.LParenToken ∨
    k = SyntaxKind.EqualsToken ∨ is_stray_closer k

/-- The token sequence `e` (without its `;`) is a well-formed expression statement
with tree `n`: it starts with a token that `parse_statement` takes as the start
of an expression statement, and parsing `e ; EOF` alone returns the top-level
sequence whose only child is `n`, with every token consumed and no diagnostic. -/
def is_expression_statement (E : Collaborators) (show_return : Bool) (e : List SyntaxToken)
    (semi eof : SyntaxToken) (n : SyntaxNode) : Prop :=
  (∃ t rest, e = t :: rest ∧ ¬ is_statement_start t.kind) ∧
    ∃ fuel pos flag, parse E ⟨e ++ [semi, eof], show_return⟩ fuel ⟨0, []⟩ =
      some (SyntaxNode.Sequence [n] pos flag, ⟨e.length + 2, []⟩)

/-- The flag of a sequence node (`none` for every other node). -/
def SyntaxNode.sequence_flag : SyntaxNode → Option Bool
  | .Sequence _ _ flag => some flag
  | _ => none

/-- Whether the node is an `If` node. -/
def SyntaxNode.is_if : SyntaxNode → Bool
  | .If _ _ _ _ => true
  | _ => false

/-- `IndexSuffixes E P st suffixes st'`: from the state `st` the buffer holds
the index suffixes `[i1] ... [in]` and `st'` is the state after the last `]`.
Each suffix is a `[`, a well-formed expression (one that `parse_expression`
reads without recording a diagnostic) and a `]`; `suffixes` lists, for each
suffix, the tree of its expression and the span of its `Index` node, which
runs from the `[` to the end of the token after the `]`. -/
inductive IndexSuffixes (E : Collaborators) (P : Parser) :
    State → List (SyntaxNode × Position) → State → Prop
  | done (st : State) : IndexSuffixes E P st [] st
  | suffix (st : State) (fuel : Nat) (index : SyntaxNode) (s1 : State)
      (rest : List (SyntaxNode × Position)) (st' : State) :
      (P.current st).kind = SyntaxKind.LSquareToken →
      parse_expression E P fuel default_precedence ⟨st.position + 1, st.diagnostics⟩ =
        some (index, s1) →
      s1.diagnostics = st.diagnostics →
      (P.current s1).kind = SyntaxKind.RSquareToken →
      IndexSuffixes E P ⟨s1.position + 1, s1.diagnostics⟩ rest st' →
      IndexSuffixes E P st
        ((index, P.span_to_current (P.current st).pos ⟨s1.position + 1, s1.diagnostics⟩) :: rest)
        st'

/-- The left-nested `Index` nodes of a list of suffixes over the node `target`:
`Index(...Index(Index(target, i1), i2)..., in)`. -/
def index_nest (target : SyntaxNode) (suffixes : List (SyntaxNode × Position)) : SyntaxNode :=
  suffixes.foldl (fun left s => SyntaxNode.Index left s.1 s.2) target

/-- `ElifChain E P st branches st'`: from the state `st` the parser consumes the
`elif` keywords of one `if` statement and stops in `st'`, on a token that is
not `elif`. Each step consumes one `elif`, matches `(`, reads a condition,
matches `)` and reads a body; `branches` lists the condition and the body of
each step, in source order. -/
inductive ElifChain (E : Collaborators) (P : Parser) :
    State → List (SyntaxNode × SyntaxNode) → State → Prop
  | done (st : State) : (P.current st).kind ≠ SyntaxKind.ElifKeyword → ElifChain E P st [] st
  | branch (st : State) (fuel : Nat) (condition : SyntaxNode) (s1 : State) (body : SyntaxNode)
      (s2 : State) (rest : List (SyntaxNode × SyntaxNode)) (st' : State) :
      (P.current st).kind = SyntaxKind.ElifKeyword →
      parse_expression E P fuel default_precedence
        (P.match_token SyntaxKind.LParenToken (P.next_token st).2).2 = some (condition, s1) →
      parse_statement E P fuel (P.match_token SyntaxKind.RParenToken s1).2 = some (body, s2) →
      ElifChain E P s2 rest st' →
      ElifChain E P st ((condition, body) :: rest) st'

/-- The kinds on which the loop of a block does not go on to a further
statement: `}` ends the block, `)`, `]` and `,` are stray closers, and the end
of file ends the block with a diagnostic. -/
def ends_block_statement (k : SyntaxKind) : Prop :=
  k = SyntaxKind.RCurlyToken ∨ k = SyntaxKind.RParenToken ∨ k = SyntaxKind.RSquareToken ∨
    k = SyntaxKind.CommaToken ∨ k = SyntaxKind.EndOfFileToken

/-- `StatementRun E P st nodes st'`: from the state `st` the buffer holds one or
more well-formed statements, each starting on a token that lets the loop of a
block go on, and `st'` is the state after the last; `nodes` lists their
trees. A statement is well-formed when `parse_statement` reads it without
recording a diagnostic. -/
inductive StatementRun (E : Collaborators) (P : Parser) : State → List SyntaxNode → State → Prop
  | last (st : State) (fuel : Nat) (node : SyntaxNode) (st' : State) :
      ¬ ends_block_statement (P.current st).kind →
      parse_statement E P fuel st = some (node, st') →
      st'.diagnostics = st.diagnostics →
      StatementRun E P st [node] st'
  | next (st : State) (fuel : Nat) (node : SyntaxNode) (s1 : State) (rest : List SyntaxNode)
      (st' : State) :
      ¬ ends_block_statement (P.current st).kind →
      parse_statement E P fuel st = some (node, s1) →
      s1.diagnostics = st.diagnostics →
      StatementRun E P s1 rest st' →
      StatementRun E P st (node :: rest) st'

/-- The state after `n` calls of `next_token`. -/
def Parser.next_tokens (P : Parser) : Nat → State → State
  | 0, st => st
  | n + 1, st => Parser.next_tokens P n (P.next_token st).2

/-- The lexer's tokens up to and including the first end-of-file token: the
part of the lexer's output that the spec's description of the buffer keeps. -/
def through_end_of_file : List SyntaxToken → List SyntaxToken
  | [] => []
  | token :: lexed =>
    if token.kind = SyntaxKind.EndOfFileToken then [token]
    else token :: through_end_of_file lexed

/-- The kinds the constructor drops. -/
def is_dropped_kind (k : SyntaxKind) : Prop :=
  k = SyntaxKind.BadToken ∨ k = SyntaxKind.WhitespaceToken ∨ k = SyntaxKind.CommentToken

instance (k : SyntaxKind) : Decidable (is_dropped_kind k) := by
  unfold is_dropped_kind
  infer_instance

/-- The token buffer, in the words of the spec: the lexer's tokens up to and
including the first end-of-file token, with every `BadToken`,
`WhitespaceToken` and `CommentToken` removed and the others kept in order. -/
def filtered_through_end_of_file (lexed : List SyntaxToken) : List SyntaxToken :=
  (through_end_of_file lexed).filter (fun token => decide (¬ is_dropped_kind token.kind))

/-- `diagnostic_mark i x d` is 1 when the diagnostic bag `d` holds the record `x`
at index `i`, and 0 otherwise. A bag whose marks never drop keeps every
record in its place. -/
def diagnostic_mark (i : Nat) (x : Diagnostic) (d : List Diagnostic) : Nat :=
  if d[i]? = some x then 1 else 0

/-- What appending `e` to the bag `d` adds to the mark of `x` at index `i`. -/
def append_gain (i : Nat) (x : Diagnostic) (d e : List Diagnostic) : Nat :=
  diagnostic_mark i x (d ++ e) - diagnostic_mark i x d

/-! ## The symbol table -/

/-- A symbol table object: the local `symbols` map (a `std::map` from names to
values, as the partial function it represents) and the `parent` pointer
(`none` for `NULL`). -/
structure SymbolTable (V : Type) where
  symbols : String → Option V
  parent : Option Nat

/-- The symbol tables that are alive, by address. -/
abbrev Heap (V : Type) := Nat → Option (SymbolTable V)

/-- `SymbolTable::get_value` called on the table at address `this`. `Null`
stands for the object `new Null()`. The result is `none` when the fuel runs
out or a pointer does not point to a live table. -/
def SymbolTable.get_value {V : Type} (Null : V) (heap : Heap V) :
    Nat → Nat → String → Option V
  | 0, _, _ => none
  | fuel + 1, this, name =>
    match heap this with
    | none => none
    | some table =>
      match table.symbols name with
      | some value => some value
      | none =>
        match table.parent with
        | some parent => SymbolTable.get_value Null heap fuel parent name
        | none => some Null

/-- `SymbolTable::set_value` called on the table at address `this`:
`symbols[name] = val`. -/
def SymbolTable.set_value {V : Type} (heap : Heap V) (this : Nat) (name : String) (val : V) :
    Option (Heap V) :=
  match heap this with
  | none => none
  | some table =>
    some (Function.update heap this
      (some { table with symbols := Function.update table.symbols name (some val) }))

/-- `SymbolTable::remove_value` called on the table at address `this`. -/
def SymbolTable.remove_value {V : Type} (heap : Heap V) (this : Nat) (name : String) :
    Option (Heap V) :=
  match heap this with
  | none => none
  | some table =>
    if (table.symbols name).isSome then
      some (Function.update heap this
        (some { table with symbols := Function.update table.symbols name none }))
    else
      some heap

/-- `SymbolTable::get_parent`. -/
def SymbolTable.get_parent {V : Type} (heap : Heap V) (this : Nat) : Option (Option Nat) :=
  (heap this).map (fun table => table.parent)

/-- `IsChain heap a tables`: following the parent pointers from address `a`
visits exactly `tables`, the table at `a` first, and ends at a table without
parent. -/
inductive IsChain {V : Type} (heap : Heap V) : Nat → List (SymbolTable V) → Prop
  | root (a : Nat) (t : SymbolTable V) (ht : heap a = some t) (hp : t.parent = none) :
      IsChain heap a [t]
  | child (a b : Nat) (t : SymbolTable V) (ts : List (SymbolTable V)) (ht : heap a = some t)
      (hp : t.parent = some b) (htail : IsChain heap b ts) : IsChain heap a (t :: ts)

/-- Chained lookup, in the words of the spec: the value bound in the nearest
table of the chain that binds `name`, and the null value when none does. -/
def chained_lookup {V : Type} (Null : V) (tables : List (SymbolTable V)) (name : String) : V :=
  match tables.find? (fun t => (t.symbols name).isSome) with
  | some t => (t.symbols name).getD Null
  | none => Null

/-! ## Data for the closed examples -/

/-- Reads a non-empty string of decimal digits (the conversion of the examples). -/
def read_digits (s : String) : Option Int :=
  if s.data ≠ [] ∧ s.data.all Char.isDigit = true then
    some (Int.ofNat (s.data.foldl (fun n c => 10 * n + (c.toNat - 48)) 0))
  else
    none

/-- The collaborators of the examples: unary `+` and `-` bind at 6, binary
`*` and `/` at 5, binary `+` and `-` at 4, and no other token is an
operator. -/
def example_collaborators : Collaborators where
  get_unary_precedence := fun k =>
    match k with
    | SyntaxKind.PlusToken | SyntaxKind.MinusToken => 6
    | _ => 0
  get_binary_precedence := fun k =>
    match k with
    | SyntaxKind.StarToken | SyntaxKind.SlashToken => 5
    | SyntaxKind.PlusToken | SyntaxKind.MinusToken => 4
    | _ => 0
  read_long_long := read_digits
  read_long_double := fun _ => none
  null_position := ⟨0, 0, 0, 0⟩
  sequence_default_flag := false

/-- The token of the examples that starts at column `start` of line 1. -/
def example_token (kind : SyntaxKind) (start : Int) (text : String) : SyntaxToken :=
  ⟨kind, ⟨1, start, start, start + Int.ofNat text.length⟩, text⟩

/-- The buffer of the text `else`. -/
def stray_else_buffer : Parser :=
  ⟨[example_token SyntaxKind.ElseKeyword 0 "else", example_token SyntaxKind.EndOfFileToken 4 ""],
    false⟩

/-- The buffer of the text `1 + 2 * 3;`. -/
def precedence_buffer : Parser :=
  ⟨[example_token SyntaxKind.IntegerToken 0 "1", example_token SyntaxKind.PlusToken 2 "+",
    example_token SyntaxKind.IntegerToken 4 "2", example_token SyntaxKind.StarToken 6 "*",
    example_token SyntaxKind.IntegerToken 8 "3", example_token SyntaxKind.SemicolonToken 9 ";",
    example_token SyntaxKind.EndOfFileToken 10 ""], false⟩

/-- The buffer of the text `8 - 3 - 2;`. -/
def associativity_buffer : Parser :=
  ⟨[example_token SyntaxKind.IntegerToken 0 "8", example_token SyntaxKind.MinusToken 2 "-",
    example_token SyntaxKind.IntegerToken 4 "3", example_token SyntaxKind.MinusToken 6 "-",
    example_token SyntaxKind.IntegerToken 8 "2", example_token SyntaxKind.SemicolonToken 9 ";",
    example_token SyntaxKind.EndOfFileToken 10 ""], false⟩

/-- The buffer of the text `-2 + 3;`. -/
def unary_buffer : Parser :=
  ⟨[example_token SyntaxKind.MinusToken 0 "-", example_token SyntaxKind.IntegerToken 1 "2",
    example_token SyntaxKind.PlusToken 3 "+", example_token SyntaxKind.IntegerToken 5 "3",
    example_token SyntaxKind.SemicolonToken 6 ";",
    example_token SyntaxKind.EndOfFileToken 7 ""], false⟩

/-- The root table of the examples: it binds `x` to 1 and `y` to 2. -/
def example_root_table : SymbolTable Int :=
  ⟨fun name => if name = "x" then some 1 else if name = "y" then some 2 else none, none⟩

/-- The child table of the examples: it binds `x` to 5 and its parent is the
table at address 0. -/
def example_child_table : SymbolTable Int :=
  ⟨fun name => if name = "x" then some 5 else none, some 0⟩

/-- The heap of the examples: the root table at address 0, its child at
address 1. -/
def example_heap : Heap Int := fun a =>
  if a = 0 then some example_root_table
  else if a = 1 then some example_child_table
  else none

/-- The tokens of the statement `1 + 2` in the text `1 + 2  x = 3 ;`. -/
def sum_tokens : List SyntaxToken :=
  [example_token SyntaxKind.IntegerToken 0 "1", example_token SyntaxKind.PlusToken 2 "+",
    example_token SyntaxKind.IntegerToken 4 "2"]

/-- The tokens of the statement `x = 3` in the text `1 + 2  x = 3 ;`. -/
def assignment_tokens : List SyntaxToken :=
  [example_token SyntaxKind.IdentifierToken 7 "x", example_token SyntaxKind.EqualsToken 9 "=",
    example_token SyntaxKind.IntegerToken 11 "3"]

/-- The tokens of the statement `1` in the text `1  -2 ;`. -/
def one_tokens : List SyntaxToken :=
  [example_token SyntaxKind.IntegerToken 0 "1"]

/-- The tokens of the statement `-2` in the text `1  -2 ;`. -/
def minus_two_tokens : List SyntaxToken :=
  [example_token SyntaxKind.MinusToken 3 "-", example_token SyntaxKind.IntegerToken 4 "2"]

/-- The buffer of the text `1  -2 ;`. -/
def minus_buffer : Parser :=
  ⟨one_tokens ++ minus_two_tokens ++
    [example_token SyntaxKind.SemicolonToken 6 ";", example_token SyntaxKind.EndOfFileToken 7 ""],
    false⟩

/-- The tokens of the statement `x` in the text `x  y ;`. -/
def first_name_tokens : List SyntaxToken :=
  [example_token SyntaxKind.IdentifierToken 0 "x"]

/-- The tokens of the statement `y` in the text `x  y ;`. -/
def second_name_tokens : List SyntaxToken :=
  [example_token SyntaxKind.IdentifierToken 3 "y"]

/-- The buffer of the text `x  y ;`. -/
def names_buffer : Parser :=
  ⟨first_name_tokens ++ second_name_tokens ++
    [example_token SyntaxKind.SemicolonToken 5 ";", example_token SyntaxKind.EndOfFileToken 6 ""],
    false⟩

/-- The tokens of the statement `integer x` in the text `integer x  y = 1 ;`. -/
def declaration_tokens : List SyntaxToken :=
  [example_token SyntaxKind.IntegerKeyword 0 "integer",
    example_token SyntaxKind.IdentifierToken 8 "x"]

/-- The tokens of the statement `y = 1` in the text `integer x  y = 1 ;`. -/
def initialiser_tokens : List SyntaxToken :=
  [example_token SyntaxKind.IdentifierToken 11 "y", example_token SyntaxKind.EqualsToken 13 "=",
    example_token SyntaxKind.IntegerToken 15 "1"]

/-- The buffer of the text `integer x  y = 1 ;`. -/
def declaration_buffer : Parser :=
  ⟨declaration_tokens ++ initialiser_tokens ++
    [example_token SyntaxKind.SemicolonToken 16 ";",
      example_token SyntaxKind.EndOfFileToken 17 ""], false⟩

/-- The buffer of the text `{ a; ) b; }`. -/
def stray_in_block_buffer : Parser :=
  ⟨[example_token SyntaxKind.LCurlyToken 0 "\x7b", example_token SyntaxKind.IdentifierToken 2 "a",
    example_token SyntaxKind.SemicolonToken 3 ";", example_token SyntaxKind.RParenToken 5 ")",
    example_token SyntaxKind.IdentifierToken 7 "b", example_token SyntaxKind.SemicolonToken 8 ";",
    example_token SyntaxKind.RCurlyToken 10 "\x7d", example_token SyntaxKind.EndOfFileToken 11 ""],
    false⟩

/-- The buffer of the text `a; ) b;`. -/
def stray_at_top_buffer : Parser :=
  ⟨[example_token SyntaxKind.IdentifierToken 0 "a", example_token SyntaxKind.SemicolonToken 1 ";",
    example_token SyntaxKind.RParenToken 3 ")", example_token SyntaxKind.IdentifierToken 5 "b",
    example_token SyntaxKind.SemicolonToken 6 ";", example_token SyntaxKind.EndOfFileToken 7 ""],
    false⟩

/-- The buffer of the text `a[0];`. -/
def index_buffer : Parser :=
  ⟨[example_token SyntaxKind.IdentifierToken 0 "a", example_token SyntaxKind.LSquareToken 1 "[",
    example_token SyntaxKind.IntegerToken 2 "0", example_token SyntaxKind.RSquareToken 3 "]",
    example_token SyntaxKind.SemicolonToken 4 ";", example_token SyntaxKind.EndOfFileToken 5 ""],
    false⟩

/-- The buffer of the text `integer x = 1;`. -/
def initialised_buffer : Parser :=
  ⟨[example_token SyntaxKind.IntegerKeyword 0 "integer",
    example_token SyntaxKind.IdentifierToken 8 "x", example_token SyntaxKind.EqualsToken 10 "=",
    example_token SyntaxKind.IntegerToken 12 "1", example_token SyntaxKind.SemicolonToken 13 ";",
    example_token SyntaxKind.EndOfFileToken 14 ""], false⟩

/-- The buffer of the text `integer x;`. -/
def uninitialised_buffer : Parser :=
  ⟨[example_token SyntaxKind.IntegerKeyword 0 "integer",
    example_token SyntaxKind.IdentifierToken 8 "x", example_token SyntaxKind.SemicolonToken 9 ";",
    example_token SyntaxKind.EndOfFileToken 10 ""], false⟩

/-- The buffer of the text `{`. -/
def unclosed_empty_buffer : Parser :=
  ⟨[example_token SyntaxKind.LCurlyToken 0 "\x7b", example_token SyntaxKind.EndOfFileToken 1 ""],
    false⟩

/-- The buffer of the text `{ a; b;`. -/
def unclosed_buffer : Parser :=
  ⟨[example_token SyntaxKind.LCurlyToken 0 "\x7b", example_token SyntaxKind.IdentifierToken 2 "a",
    example_token SyntaxKind.SemicolonToken 3 ";", example_token SyntaxKind.IdentifierToken 5 "b",
    example_token SyntaxKind.SemicolonToken 6 ";", example_token SyntaxKind.EndOfFileToken 7 ""],
    false⟩

/-- The buffer of the text `if (a) b; elif (c) d; else e;`. -/
def elif_buffer : Parser :=
  ⟨[example_token SyntaxKind.IfKeyword 0 "if", example_token SyntaxKind.LParenToken 3 "(",
    example_token SyntaxKind.IdentifierToken 4 "a", example_token SyntaxKind.RParenToken 5 ")",
    example_token SyntaxKind.IdentifierToken 7 "b", example_token SyntaxKind.SemicolonToken 8 ";",
    example_token SyntaxKind.ElifKeyword 10 "elif", example_token SyntaxKind.LParenToken 15 "(",
    example_token SyntaxKind.IdentifierToken 16 "c", example_token SyntaxKind.RParenToken 17 ")",
    example_token SyntaxKind.IdentifierToken 19 "d",
    example_token SyntaxKind.SemicolonToken 20 ";",
    example_token SyntaxKind.ElseKeyword 22 "else",
    example_token SyntaxKind.IdentifierToken 27 "e",
    example_token SyntaxKind.SemicolonToken 28 ";",
    example_token SyntaxKind.EndOfFileToken 29 ""], false⟩

/-- The buffer of the text `a[0][1];`. -/
def two_index_buffer : Parser :=
  ⟨[example_token SyntaxKind.IdentifierToken 0 "a", example_token SyntaxKind.LSquareToken 1 "[",
    example_token SyntaxKind.IntegerToken 2 "0", example_token SyntaxKind.RSquareToken 3 "]",
    example_token SyntaxKind.LSquareToken 4 "[", example_token SyntaxKind.IntegerToken 5 "1",
    example_token SyntaxKind.RSquareToken 6 "]", example_token SyntaxKind.SemicolonToken 7 ";",
    example_token SyntaxKind.EndOfFileToken 8 ""], false⟩

/-- The collaborators of the examples, with the conversion to `long long`
failing outside the signed 64-bit range. -/
def bounded_collaborators : Collaborators :=
  { example_collaborators with
    read_long_long := fun s =>
      match read_digits s with
      | some x => if x < 2 ^ 63 then some x else none
      | none => none }

/-- The buffer of the text `9223372036854775808;`, one past the largest
`long long`. -/
def overflow_buffer : Parser :=
  ⟨[example_token SyntaxKind.IntegerToken 0 "9223372036854775808",
    example_token SyntaxKind.SemicolonToken 19 ";",
    example_token SyntaxKind.EndOfFileToken 20 ""], false⟩

/-- The buffer of the text `{ [ ] ; }`, with `show_return` set. -/
def tagged_buffer : Parser :=
  ⟨[example_token SyntaxKind.LCurlyToken 0 "\x7b", example_token SyntaxKind.LSquareToken 2 "[",
    example_token SyntaxKind.RSquareToken 4 "]", example_token SyntaxKind.SemicolonToken 6 ";",
    example_token SyntaxKind.RCurlyToken 8 "\x7d", example_token SyntaxKind.EndOfFileToken 9 ""],
    true⟩

/-- The lexer output of the text `a /*c*/ ;`: an identifier, whitespace, a
comment, whitespace, `;` and the end of file, followed by what the lexer
would return if it were called again. -/
def lexed_example : List SyntaxToken :=
  [example_token SyntaxKind.IdentifierToken 0 "a", example_token SyntaxKind.WhitespaceToken 1 " ",
    example_token SyntaxKind.CommentToken 2 "/*c*/",
    example_token SyntaxKind.WhitespaceToken 7 " ",
    example_token SyntaxKind.SemicolonToken 8 ";", example_token SyntaxKind.EndOfFileToken 9 "",
    example_token SyntaxKind.EndOfFileToken 9 ""]

/-- The buffer of the text `1 + 2 * 3 [ 0 ] ;`. -/
def indexed_operand_buffer : Parser :=
  ⟨[example_token SyntaxKind.IntegerToken 0 "1", example_token SyntaxKind.PlusToken 2 "+",
    example_token SyntaxKind.IntegerToken 4 "2", example_token SyntaxKind.StarToken 6 "*",
    example_token SyntaxKind.IntegerToken 8 "3", example_token SyntaxKind.LSquareToken 10 "[",
    example_token SyntaxKind.IntegerToken 12 "0", example_token SyntaxKind.RSquareToken 14 "]",
    example_token SyntaxKind.SemicolonToken 16 ";",
    example_token SyntaxKind.EndOfFileToken 17 ""], false⟩

/-! # Theorems -/

/-! ## The cursor -/

@[simp] theorem report_position (f e : SyntaxKind) (p : Position) (st : State) :
    (report_unexpected_token f e p st).position = st.position := rfl

@[simp] theorem peek_report (P : Parser) (f e : SyntaxKind) (p : Position) (st : State) (o : Nat) :
    P.peek (report_unexpected_token f e p st) o = P.peek st o := rfl

@[simp] theorem current_report (P : Parser) (f e : SyntaxKind) (p : Position) (st : State) :
    P.current (report_unexpected_token f e p st) = P.current st := rfl

theorem peek_eq_of_getElem? (P : Parser) (st : State) (o : Nat) (t : SyntaxToken)
    (h : P.tokens[st.position + o]? = some t) : P.peek st o = t := by
  have hlt : st.position + o < P.tokens.length := by
    rcases List.getElem?_eq_some.mp h with ⟨hlt, _⟩
    exact hlt
  unfold Parser.peek
  simp only [ge_iff_le, Nat.not_le.mpr hlt, if_false]
  rw [List.getD_eq_getElem?_getD, h]
  rfl

theorem current_eq_of_drop (P : Parser) (p i : Nat) (d : List Diagnostic) (l : List SyntaxToken)
    (t : SyntaxToken) (h : P.tokens.drop p = l) (hi : l[i]? = some t) :
    P.current ⟨p + i, d⟩ = t := by
  apply peek_eq_of_getElem?
  rw [← hi, ← h, List.getElem?_drop]
  rfl


/-! ## C1: a statement that consumes nothing -/

theorem parse_statement_else (E : Collaborators) (P : Parser)
    (hu : E.get_unary_precedence SyntaxKind.ElseKeyword = 0)
    (hb : E.get_binary_precedence SyntaxKind.ElseKeyword = 0)
    (fuel : Nat) (st : State) (hcur : (P.current st).kind = SyntaxKind.ElseKeyword) :
    parse_statement E P fuel st = none ∨
      ∃ n d, parse_statement E P fuel st = some (n, ⟨st.position, d⟩) := by
  rcases fuel with _ | _ | _ | _ | fuel
  · left; simp [parse_statement]
  · left; simp [parse_statement, hcur, parse_expression]
  · left; simp [parse_statement, hcur, parse_expression, hu, parse_molecule]
  · left; simp [parse_statement, hcur, parse_expression, hu, parse_molecule, parse_atom]
  · right
    simp [parse_statement, hcur, parse_expression, hu, parse_molecule, parse_atom,
      Parser.match_token, parse_binary_loop, hb]
    exact ⟨_, rfl⟩

theorem top_loop_else (E : Collaborators) (P : Parser)
    (hu : E.get_unary_precedence SyntaxKind.ElseKeyword = 0)
    (hb : E.get_binary_precedence SyntaxKind.ElseKeyword = 0)
    (fuel : Nat) : ∀ (start : Position) (seq : List SyntaxNode) (st : State),
    (P.current st).kind = SyntaxKind.ElseKeyword →
    parse_program_top_loop E P fuel start seq st = none := by
  induction fuel with
  | zero => intro start seq st _; simp [parse_program_top_loop]
  | succ fuel ih =>
    intro start seq st hcur
    rcases parse_statement_else E P hu hb fuel st hcur with h | ⟨n, d, h⟩
    · simp [parse_program_top_loop, hcur, h]
    · have hc : (P.current ⟨st.position, d⟩).kind = SyntaxKind.ElseKeyword := hcur
      simp [parse_program_top_loop, hcur, h, hc]
      exact ih _ _ _ hc


/-- C1, where the code departs from it: when the current token is a stray
`else` (a token that is no operator), the top-level loop of `parse_program`
parses a statement that consumes no token and comes back to the same token,
so `parse` returns with no amount of fuel: it does not terminate. -/
theorem parse_never_returns_on_stray_else (E : Collaborators) (P : Parser) (st : State)
    (hu : E.get_unary_precedence SyntaxKind.ElseKeyword = 0)
    (hb : E.get_binary_precedence SyntaxKind.ElseKeyword = 0)
    (hcur : (P.current st).kind = SyntaxKind.ElseKeyword) (fuel : Nat) :
    parse E P fuel st = none := by
  cases fuel with
  | zero => simp [parse, parse_program]
  | succ fuel =>
    simp [parse, parse_program, top_loop_else E P hu hb fuel _ _ st hcur]

/-- Witness of C1's theorem: the buffer of the text `else`, with 1000 units of fuel. -/
theorem parse_never_returns_on_stray_else_witness :
    parse example_collaborators stray_else_buffer 1000 ⟨0, []⟩ = none :=
  parse_never_returns_on_stray_else example_collaborators stray_else_buffer ⟨0, []⟩
    rfl rfl rfl 1000

/-! ## C2, C3, C4: precedence climbing on literals -/

theorem parse_atom_literal (E : Collaborators) (P : Parser) (fuel : Nat) (st : State)
    (h : is_literal_kind (P.current st).kind) :
    parse_atom E P (fuel + 1) st =
      some (literal_node E (P.current st), ⟨st.position + 1, st.diagnostics⟩) := by
  rcases h with h | h | h | h | h <;>
    simp only [parse_atom, literal_node, h, Parser.next_token] <;>
    first
      | rfl
      | (cases E.read_long_long (P.current st).text <;> rfl)
      | (cases E.read_long_double (P.current st).text <;> rfl)

theorem parse_binary_loop_stop (E : Collaborators) (P : Parser) (fuel : Nat) (precedence : Int)
    (left : SyntaxNode) (st : State)
    (h : E.get_binary_precedence (P.current st).kind = 0 ∨
      E.get_binary_precedence (P.current st).kind ≤ precedence) :
    parse_binary_loop E P (fuel + 1) precedence left st = some (left, st) := by
  simp only [parse_binary_loop, h, if_true]

theorem parse_binary_loop_step (E : Collaborators) (P : Parser) (fuel : Nat) (precedence : Int)
    (left : SyntaxNode) (st : State)
    (h0 : E.get_binary_precedence (P.current st).kind ≠ 0)
    (h1 : precedence < E.get_binary_precedence (P.current st).kind) :
    parse_binary_loop E P (fuel + 1) precedence left st =
      match parse_expression E P fuel (E.get_binary_precedence (P.current st).kind)
          ⟨st.position + 1, st.diagnostics⟩ with
      | none => none
      | some (right, st') =>
        parse_binary_loop E P fuel precedence (binary_node E left (P.current st) right) st' := by
  have h : ¬ (E.get_binary_precedence (P.current st).kind = 0 ∨
      E.get_binary_precedence (P.current st).kind ≤ precedence) := by
    intro h; rcases h with h | h
    · exact h0 h
    · omega
  simp only [parse_binary_loop, h, if_false, Parser.next_token, binary_node]

theorem parse_expression_literal (E : Collaborators) (P : Parser) (fuel : Nat) (precedence : Int)
    (st : State) (hlit : is_literal_kind (P.current st).kind)
    (hu : E.get_unary_precedence (P.current st).kind = 0)
    (hnext : (P.current ⟨st.position + 1, st.diagnostics⟩).kind ≠ SyntaxKind.LSquareToken) :
    parse_expression E P (fuel + 3) precedence st =
      parse_binary_loop E P (fuel + 2) precedence (literal_node E (P.current st))
        ⟨st.position + 1, st.diagnostics⟩ := by
  have hm : parse_molecule E P (fuel + 2) st =
      some (literal_node E (P.current st), ⟨st.position + 1, st.diagnostics⟩) := by
    rw [parse_molecule, parse_atom_literal E P fuel st hlit]
    simp only
  rw [parse_expression]
  simp only [hu, ne_eq, not_true_eq_false, false_and, if_false]
  rcases hlit with h | h | h | h | h <;> simp only [h, hm]



theorem parse_expression_unary (E : Collaborators) (P : Parser) (fuel : Nat) (precedence : Int)
    (st : State) (h0 : E.get_unary_precedence (P.current st).kind ≠ 0)
    (h1 : precedence ≤ E.get_unary_precedence (P.current st).kind) :
    parse_expression E P (fuel + 1) precedence st =
      match parse_expression E P fuel (E.get_unary_precedence (P.current st).kind)
          ⟨st.position + 1, st.diagnostics⟩ with
      | none => none
      | some (expression, st') =>
        parse_binary_loop E P fuel precedence
          (unary_node E (P.current st) expression) st' := by
  have h : E.get_unary_precedence (P.current st).kind ≠ 0 ∧
      E.get_unary_precedence (P.current st).kind ≥ precedence := ⟨h0, h1⟩
  rw [parse_expression]
  simp only [Parser.next_token, unary_node]
  rw [if_pos h]

/-- C2, as amended: when the tokens at the cursor are `a lo b hi c t` with `a`,
`b`, `c` literal tokens, `lo` and `hi` binary operators with
`0 < precedence lo < precedence hi`, and `t` a token that is neither a binary
operator nor `[`, `parse_expression(0)` returns
`Binary(lo, Literal(a), Binary(hi, Literal(b), Literal(c)))`, leaves the cursor
on `t` and records no diagnostic. The table is assumed to give no unary
precedence to a literal token and no binary precedence to `[`. -/
theorem parse_expression_precedence (E : Collaborators) (P : Parser) (p : Nat)
    (d : List Diagnostic) (a lo b hi c t : SyntaxToken) (rest : List SyntaxToken) (fuel : Nat)
    (hbuf : P.tokens.drop p = a :: lo :: b :: hi :: c :: t :: rest)
    (ha : is_literal_kind a.kind) (hb : is_literal_kind b.kind) (hc : is_literal_kind c.kind)
    (hlit : ∀ k, is_literal_kind k → E.get_unary_precedence k = 0)
    (hsq : E.get_binary_precedence SyntaxKind.LSquareToken = 0)
    (hlo : 0 < E.get_binary_precedence lo.kind)
    (hlt : E.get_binary_precedence lo.kind < E.get_binary_precedence hi.kind)
    (ht : E.get_binary_precedence t.kind = 0) (htsq : t.kind ≠ SyntaxKind.LSquareToken)
    (hfuel : 7 ≤ fuel) :
    parse_expression E P fuel 0 ⟨p, d⟩ =
      some (binary_node E (literal_node E a) lo
          (binary_node E (literal_node E b) hi (literal_node E c)), ⟨p + 5, d⟩) := by
  obtain ⟨n, rfl⟩ : ∃ n, fuel = n + 7 := ⟨fuel - 7, by omega⟩
  have c0 : P.current ⟨p, d⟩ = a := current_eq_of_drop P p 0 d _ a hbuf rfl
  have c1 : P.current ⟨p + 1, d⟩ = lo := current_eq_of_drop P p 1 d _ lo hbuf rfl
  have c2 : P.current ⟨p + 1 + 1, d⟩ = b := current_eq_of_drop P p 2 d _ b hbuf rfl
  have c3 : P.current ⟨p + 1 + 1 + 1, d⟩ = hi := current_eq_of_drop P p 3 d _ hi hbuf rfl
  have c4 : P.current ⟨p + 1 + 1 + 1 + 1, d⟩ = c := current_eq_of_drop P p 4 d _ c hbuf rfl
  have c5 : P.current ⟨p + 1 + 1 + 1 + 1 + 1, d⟩ = t := current_eq_of_drop P p 5 d _ t hbuf (by simp)
  have lo_sq : lo.kind ≠ SyntaxKind.LSquareToken := by
    intro h; rw [h, hsq] at hlo; exact absurd hlo (by decide)
  have hi_sq : hi.kind ≠ SyntaxKind.LSquareToken := by
    intro h; rw [h, hsq] at hlt; omega
  rw [parse_expression_literal E P (n + 4) 0 ⟨p, d⟩ (by rw [c0]; exact ha)
    (by rw [c0]; exact hlit _ ha) (by simp only [c1]; exact lo_sq)]
  simp only [c0]
  rw [parse_binary_loop_step E P (n + 5) 0 _ ⟨p + 1, d⟩ (by rw [c1]; omega) (by rw [c1]; exact hlo)]
  simp only [c1]
  rw [parse_expression_literal E P (n + 2) _ ⟨p + 1 + 1, d⟩ (by rw [c2]; exact hb)
    (by rw [c2]; exact hlit _ hb) (by simp only [c3]; exact hi_sq)]
  simp only [c2]
  rw [parse_binary_loop_step E P (n + 3) _ _ ⟨p + 1 + 1 + 1, d⟩ (by rw [c3]; omega)
    (by rw [c3]; exact hlt)]
  simp only [c3]
  rw [parse_expression_literal E P n _ ⟨p + 1 + 1 + 1 + 1, d⟩ (by rw [c4]; exact hc)
    (by rw [c4]; exact hlit _ hc) (by simp only [c5]; exact htsq)]
  simp only [c4]
  rw [parse_binary_loop_stop E P (n + 1) _ _ ⟨p + 1 + 1 + 1 + 1 + 1, d⟩ (by rw [c5]; exact Or.inl ht)]
  simp only
  rw [parse_binary_loop_stop E P (n + 2) _ _ ⟨p + 1 + 1 + 1 + 1 + 1, d⟩ (by rw [c5]; exact Or.inl ht)]
  simp only
  rw [parse_binary_loop_stop E P (n + 4) _ _ ⟨p + 1 + 1 + 1 + 1 + 1, d⟩ (by rw [c5]; exact Or.inl ht)]


theorem example_literals_not_unary (k : SyntaxKind) (h : is_literal_kind k) :
    example_collaborators.get_unary_precedence k = 0 := by
  rcases h with rfl | rfl | rfl | rfl | rfl <;> rfl

/-- Witness of C2's theorem: `1 + 2 * 3` parses to
`Binary(+, Literal(1), Binary(*, Literal(2), Literal(3)))`. -/
theorem parse_expression_precedence_witness :
    parse_expression example_collaborators precedence_buffer 7 0 ⟨0, []⟩ =
      some (SyntaxNode.Binary
          (SyntaxNode.Literal (some (Value.Integer 1)) ⟨1, 0, 0, 1⟩)
          (example_token SyntaxKind.PlusToken 2 "+")
          (SyntaxNode.Binary
            (SyntaxNode.Literal (some (Value.Integer 2)) ⟨1, 4, 4, 5⟩)
            (example_token SyntaxKind.StarToken 6 "*")
            (SyntaxNode.Literal (some (Value.Integer 3)) ⟨1, 8, 8, 9⟩)
            ⟨1, 4, 4, 9⟩)
          ⟨1, 0, 0, 9⟩, ⟨5, []⟩) :=
  (parse_expression_precedence example_collaborators precedence_buffer 0 []
    (example_token SyntaxKind.IntegerToken 0 "1") (example_token SyntaxKind.PlusToken 2 "+")
    (example_token SyntaxKind.IntegerToken 4 "2") (example_token SyntaxKind.StarToken 6 "*")
    (example_token SyntaxKind.IntegerToken 8 "3") (example_token SyntaxKind.SemicolonToken 9 ";")
    [example_token SyntaxKind.EndOfFileToken 10 ""] 7 rfl (Or.inl rfl) (Or.inl rfl) (Or.inl rfl)
    example_literals_not_unary rfl (by decide) (by decide) rfl (by decide) (le_refl 7)).trans rfl

/-- C3: when the tokens at the cursor are `a op1 b op2 c t` with `a`, `b`, `c`
literal tokens, `op1` and `op2` binary operators of the same positive
precedence (the same operator in particular), and `t` a token that is
neither a binary operator nor `[`, `parse_expression(0)` returns the
left-nested `Binary(op2, Binary(op1, Literal(a), Literal(b)), Literal(c))`
with no diagnostic, and not the right-nested tree. The table is assumed to
give no unary precedence to a literal token and no binary precedence to `[`. -/
theorem parse_expression_left_associative (E : Collaborators) (P : Parser) (p : Nat)
    (d : List Diagnostic) (a op1 b op2 c t : SyntaxToken) (rest : List SyntaxToken) (fuel : Nat)
    (hbuf : P.tokens.drop p = a :: op1 :: b :: op2 :: c :: t :: rest)
    (ha : is_literal_kind a.kind) (hb : is_literal_kind b.kind) (hc : is_literal_kind c.kind)
    (hlit : ∀ k, is_literal_kind k → E.get_unary_precedence k = 0)
    (hsq : E.get_binary_precedence SyntaxKind.LSquareToken = 0)
    (hop : 0 < E.get_binary_precedence op1.kind)
    (heq : E.get_binary_precedence op2.kind = E.get_binary_precedence op1.kind)
    (ht : E.get_binary_precedence t.kind = 0) (htsq : t.kind ≠ SyntaxKind.LSquareToken)
    (hfuel : 7 ≤ fuel) :
    parse_expression E P fuel 0 ⟨p, d⟩ =
        some (binary_node E (binary_node E (literal_node E a) op1 (literal_node E b)) op2
          (literal_node E c), ⟨p + 5, d⟩) ∧
      parse_expression E P fuel 0 ⟨p, d⟩ ≠
        some (binary_node E (literal_node E a) op1
          (binary_node E (literal_node E b) op2 (literal_node E c)), ⟨p + 5, d⟩) := by
  obtain ⟨n, rfl⟩ : ∃ n, fuel = n + 7 := ⟨fuel - 7, by omega⟩
  have c0 : P.current ⟨p, d⟩ = a := current_eq_of_drop P p 0 d _ a hbuf rfl
  have c1 : P.current ⟨p + 1, d⟩ = op1 := current_eq_of_drop P p 1 d _ op1 hbuf rfl
  have c2 : P.current ⟨p + 1 + 1, d⟩ = b := current_eq_of_drop P p 2 d _ b hbuf rfl
  have c3 : P.current ⟨p + 1 + 1 + 1, d⟩ = op2 := current_eq_of_drop P p 3 d _ op2 hbuf rfl
  have c4 : P.current ⟨p + 1 + 1 + 1 + 1, d⟩ = c := current_eq_of_drop P p 4 d _ c hbuf rfl
  have c5 : P.current ⟨p + 1 + 1 + 1 + 1 + 1, d⟩ = t :=
    current_eq_of_drop P p 5 d _ t hbuf (by simp)
  have op1_sq : op1.kind ≠ SyntaxKind.LSquareToken := by
    intro h; rw [h, hsq] at hop; exact absurd hop (by decide)
  have op2_sq : op2.kind ≠ SyntaxKind.LSquareToken := by
    intro h; rw [h, hsq] at heq; omega
  have key : parse_expression E P (n + 7) 0 ⟨p, d⟩ =
      some (binary_node E (binary_node E (literal_node E a) op1 (literal_node E b)) op2
        (literal_node E c), ⟨p + 5, d⟩) := by
    rw [parse_expression_literal E P (n + 4) 0 ⟨p, d⟩ (by rw [c0]; exact ha)
      (by rw [c0]; exact hlit _ ha) (by simp only [c1]; exact op1_sq)]
    simp only [c0]
    rw [parse_binary_loop_step E P (n + 5) 0 _ ⟨p + 1, d⟩ (by rw [c1]; omega)
      (by rw [c1]; exact hop)]
    simp only [c1]
    rw [parse_expression_literal E P (n + 2) _ ⟨p + 1 + 1, d⟩ (by rw [c2]; exact hb)
      (by rw [c2]; exact hlit _ hb) (by simp only [c3]; exact op2_sq)]
    simp only [c2]
    rw [parse_binary_loop_stop E P (n + 3) _ _ ⟨p + 1 + 1 + 1, d⟩
      (by rw [c3]; exact Or.inr (le_of_eq heq))]
    simp only
    rw [parse_binary_loop_step E P (n + 4) 0 _ ⟨p + 1 + 1 + 1, d⟩ (by rw [c3]; omega)
      (by rw [c3]; omega)]
    simp only [c3]
    rw [parse_expression_literal E P (n + 1) _ ⟨p + 1 + 1 + 1 + 1, d⟩ (by rw [c4]; exact hc)
      (by rw [c4]; exact hlit _ hc) (by simp only [c5]; exact htsq)]
    simp only [c4]
    rw [parse_binary_loop_stop E P (n + 2) _ _ ⟨p + 1 + 1 + 1 + 1 + 1, d⟩
      (by rw [c5]; exact Or.inl ht)]
    simp only
    rw [parse_binary_loop_stop E P (n + 3) _ _ ⟨p + 1 + 1 + 1 + 1 + 1, d⟩
      (by rw [c5]; exact Or.inl ht)]
  refine ⟨key, ?_⟩
  rw [key]
  intro h
  have h1 := (Prod.mk.inj (Option.some.inj h)).1
  simp only [binary_node, SyntaxNode.Binary.injEq] at h1
  have h2 := h1.1
  cases ha' : literal_node E a <;> rw [ha'] at h2 <;> cases h2

/-- Witness of C3's theorem: `8 - 3 - 2` parses to
`Binary(-, Binary(-, Literal(8), Literal(3)), Literal(2))`. -/
theorem parse_expression_left_associative_witness :
    parse_expression example_collaborators associativity_buffer 7 0 ⟨0, []⟩ =
      some (SyntaxNode.Binary
          (SyntaxNode.Binary
            (SyntaxNode.Literal (some (Value.Integer 8)) ⟨1, 0, 0, 1⟩)
            (example_token SyntaxKind.MinusToken 2 "-")
            (SyntaxNode.Literal (some (Value.Integer 3)) ⟨1, 4, 4, 5⟩)
            ⟨1, 0, 0, 5⟩)
          (example_token SyntaxKind.MinusToken 6 "-")
          (SyntaxNode.Literal (some (Value.Integer 2)) ⟨1, 8, 8, 9⟩)
          ⟨1, 0, 0, 9⟩, ⟨5, []⟩) :=
  (parse_expression_left_associative example_collaborators associativity_buffer 0 []
    (example_token SyntaxKind.IntegerToken 0 "8") (example_token SyntaxKind.MinusToken 2 "-")
    (example_token SyntaxKind.IntegerToken 4 "3") (example_token SyntaxKind.MinusToken 6 "-")
    (example_token SyntaxKind.IntegerToken 8 "2") (example_token SyntaxKind.SemicolonToken 9 ";")
    [example_token SyntaxKind.EndOfFileToken 10 ""] 7 rfl (Or.inl rfl) (Or.inl rfl) (Or.inl rfl)
    example_literals_not_unary rfl (by decide) rfl rfl (by decide) (le_refl 7)).1.trans rfl

/-- C4: when the tokens at the cursor are `u x b y t` with `u` a unary operator,
`b` a binary operator with `precedence u ≥ precedence b > 0`, `x` and `y`
literal tokens, and `t` a token that is neither a binary operator nor `[`,
`parse_expression(0)` returns `Binary(b, Unary(u, Literal(x)), Literal(y))`
with no diagnostic, and not `Unary(u, Binary(b, Literal(x), Literal(y)))`. The
table is assumed to give no unary precedence to a literal token and no binary
precedence to `[`. -/
theorem parse_expression_unary_binds_tighter (E : Collaborators) (P : Parser) (p : Nat)
    (d : List Diagnostic) (u x b y t : SyntaxToken) (rest : List SyntaxToken) (fuel : Nat)
    (hbuf : P.tokens.drop p = u :: x :: b :: y :: t :: rest)
    (hx : is_literal_kind x.kind) (hy : is_literal_kind y.kind)
    (hlit : ∀ k, is_literal_kind k → E.get_unary_precedence k = 0)
    (hsq : E.get_binary_precedence SyntaxKind.LSquareToken = 0)
    (hb : 0 < E.get_binary_precedence b.kind)
    (hu : E.get_binary_precedence b.kind ≤ E.get_unary_precedence u.kind)
    (ht : E.get_binary_precedence t.kind = 0) (htsq : t.kind ≠ SyntaxKind.LSquareToken)
    (hfuel : 6 ≤ fuel) :
    parse_expression E P fuel 0 ⟨p, d⟩ =
        some (binary_node E (unary_node E u (literal_node E x)) b (literal_node E y),
          ⟨p + 4, d⟩) ∧
      parse_expression E P fuel 0 ⟨p, d⟩ ≠
        some (unary_node E u (binary_node E (literal_node E x) b (literal_node E y)),
          ⟨p + 4, d⟩) := by
  obtain ⟨n, rfl⟩ : ∃ n, fuel = n + 6 := ⟨fuel - 6, by omega⟩
  have c0 : P.current ⟨p, d⟩ = u := current_eq_of_drop P p 0 d _ u hbuf rfl
  have c1 : P.current ⟨p + 1, d⟩ = x := current_eq_of_drop P p 1 d _ x hbuf rfl
  have c2 : P.current ⟨p + 1 + 1, d⟩ = b := current_eq_of_drop P p 2 d _ b hbuf rfl
  have c3 : P.current ⟨p + 1 + 1 + 1, d⟩ = y := current_eq_of_drop P p 3 d _ y hbuf rfl
  have c4 : P.current ⟨p + 1 + 1 + 1 + 1, d⟩ = t := current_eq_of_drop P p 4 d _ t hbuf (by simp)
  have b_sq : b.kind ≠ SyntaxKind.LSquareToken := by
    intro h; rw [h, hsq] at hb; exact absurd hb (by decide)
  have key : parse_expression E P (n + 6) 0 ⟨p, d⟩ =
      some (binary_node E (unary_node E u (literal_node E x)) b (literal_node E y),
        ⟨p + 4, d⟩) := by
    rw [parse_expression_unary E P (n + 5) 0 ⟨p, d⟩ (by rw [c0]; omega) (by rw [c0]; omega)]
    simp only [c0]
    rw [parse_expression_literal E P (n + 2) _ ⟨p + 1, d⟩ (by rw [c1]; exact hx)
      (by rw [c1]; exact hlit _ hx) (by simp only [c2]; exact b_sq)]
    simp only [c1]
    rw [parse_binary_loop_stop E P (n + 3) _ _ ⟨p + 1 + 1, d⟩ (by rw [c2]; exact Or.inr hu)]
    simp only
    rw [parse_binary_loop_step E P (n + 4) 0 _ ⟨p + 1 + 1, d⟩ (by rw [c2]; omega)
      (by rw [c2]; exact hb)]
    simp only [c2]
    rw [parse_expression_literal E P (n + 1) _ ⟨p + 1 + 1 + 1, d⟩ (by rw [c3]; exact hy)
      (by rw [c3]; exact hlit _ hy) (by simp only [c4]; exact htsq)]
    simp only [c3]
    rw [parse_binary_loop_stop E P (n + 2) _ _ ⟨p + 1 + 1 + 1 + 1, d⟩
      (by rw [c4]; exact Or.inl ht)]
    simp only
    rw [parse_binary_loop_stop E P (n + 3) _ _ ⟨p + 1 + 1 + 1 + 1, d⟩
      (by rw [c4]; exact Or.inl ht)]
  refine ⟨key, ?_⟩
  rw [key]
  intro h
  have h1 := (Prod.mk.inj (Option.some.inj h)).1
  simp only [binary_node, unary_node] at h1
  cases h1

/-- Witness of C4's theorem: `-2 + 3` parses to
`Binary(+, Unary(-, Literal(2)), Literal(3))`. -/
theorem parse_expression_unary_binds_tighter_witness :
    parse_expression example_collaborators unary_buffer 6 0 ⟨0, []⟩ =
      some (SyntaxNode.Binary
          (SyntaxNode.Unary (example_token SyntaxKind.MinusToken 0 "-")
            (SyntaxNode.Literal (some (Value.Integer 2)) ⟨1, 1, 1, 2⟩) ⟨1, 0, 0, 2⟩)
          (example_token SyntaxKind.PlusToken 3 "+")
          (SyntaxNode.Literal (some (Value.Integer 3)) ⟨1, 5, 5, 6⟩)
          ⟨1, 0, 0, 6⟩, ⟨4, []⟩) :=
  (parse_expression_unary_binds_tighter example_collaborators unary_buffer 0 []
    (example_token SyntaxKind.MinusToken 0 "-") (example_token SyntaxKind.IntegerToken 1 "2")
    (example_token SyntaxKind.PlusToken 3 "+") (example_token SyntaxKind.IntegerToken 5 "3")
    (example_token SyntaxKind.SemicolonToken 6 ";")
    [example_token SyntaxKind.EndOfFileToken 7 ""] 6 rfl (Or.inl rfl) (Or.inl rfl)
    example_literals_not_unary rfl (by decide) (by decide) rfl (by decide) (le_refl 6)).1.trans rfl

/-! ## C5 to C8: the symbol table -/

theorem IsChain.unique {V : Type} {heap : Heap V} {a : Nat} {l₁ : List (SymbolTable V)}
    (h₁ : IsChain heap a l₁) : ∀ {l₂ : List (SymbolTable V)}, IsChain heap a l₂ → l₁ = l₂ := by
  induction h₁ with
  | root a t ht hp =>
    intro l₂ h₂
    cases h₂ with
    | root _ t' ht' _ => rw [ht] at ht'; cases ht'; rfl
    | child _ b t' ts ht' hp' _ => rw [ht] at ht'; cases ht'; rw [hp] at hp'; cases hp'
  | child a b t ts ht hp _ ih =>
    intro l₂ h₂
    cases h₂ with
    | root _ t' ht' hp' => rw [ht] at ht'; cases ht'; rw [hp] at hp'; cases hp'
    | child _ b' t' ts' ht' hp' htail' =>
      rw [ht] at ht'; cases ht'; rw [hp] at hp'; cases hp'
      rw [ih htail']

theorem get_value_chain {V : Type} (Null : V) (heap : Heap V) (name : String) {a : Nat}
    {tables : List (SymbolTable V)} (h : IsChain heap a tables) :
    ∀ fuel, tables.length ≤ fuel →
      SymbolTable.get_value Null heap fuel a name = some (chained_lookup Null tables name) := by
  induction h with
  | root a t ht hp =>
    intro fuel hfuel
    obtain ⟨n, rfl⟩ : ∃ n, fuel = n + 1 := ⟨fuel - 1, by simp at hfuel; omega⟩
    simp only [SymbolTable.get_value, ht, hp, chained_lookup, List.find?]
    cases hs : t.symbols name <;> simp [hs]
  | child a b t ts ht hp _ ih =>
    intro fuel hfuel
    obtain ⟨n, rfl⟩ : ∃ n, fuel = n + 1 := ⟨fuel - 1, by simp at hfuel; omega⟩
    simp only [SymbolTable.get_value, ht, hp, chained_lookup, List.find?]
    cases hs : t.symbols name
    · simp only [Option.isSome_none]
      rw [ih n (by simp at hfuel; omega)]
      rfl
    · simp [hs]

/-- Updating the table at `c` keeps every finite chain that is shorter than the
chain of `c` itself: such a chain cannot pass through `c`. -/
theorem IsChain.update_of_short {V : Type} {heap : Heap V} {c : Nat} {cs : List (SymbolTable V)}
    (hc : IsChain heap c cs) (t' : SymbolTable V) {b : Nat} {ts : List (SymbolTable V)}
    (h : IsChain heap b ts) (hlen : ts.length < cs.length) :
    IsChain (Function.update heap c (some t')) b ts := by
  induction h with
  | root a t ht hp =>
    have hne : a ≠ c := by
      rintro rfl
      have := hc.unique (IsChain.root a t ht hp)
      rw [this] at hlen; exact absurd hlen (lt_irrefl _)
    exact IsChain.root a t (by rw [Function.update_noteq hne]; exact ht) hp
  | child a b t ts ht hp htail ih =>
    have hne : a ≠ c := by
      rintro rfl
      have := hc.unique (IsChain.child a b t ts ht hp htail)
      rw [this] at hlen; exact absurd hlen (lt_irrefl _)
    exact IsChain.child a b t ts (by rw [Function.update_noteq hne]; exact ht) hp
      (ih (by simp at hlen ⊢; omega))


/-- Writing the table at `c` leaves every lookup that starts at a chain shorter
than the chain of `c` as it was. -/
theorem get_value_update_of_short {V : Type} (Null : V) {heap : Heap V} {c : Nat}
    {cs : List (SymbolTable V)} (hc : IsChain heap c cs) (t' : SymbolTable V) {b : Nat}
    {ts : List (SymbolTable V)} (h : IsChain heap b ts) (hlen : ts.length < cs.length)
    (name : String) :
    ∀ fuel, SymbolTable.get_value Null (Function.update heap c (some t')) fuel b name =
      SymbolTable.get_value Null heap fuel b name := by
  induction h with
  | root a t ht hp =>
    have hne : a ≠ c := by
      rintro rfl
      have := hc.unique (IsChain.root a t ht hp)
      rw [this] at hlen; exact absurd hlen (lt_irrefl _)
    intro fuel
    cases fuel with
    | zero => rfl
    | succ n => simp only [SymbolTable.get_value, Function.update_noteq hne, ht, hp]
  | child a b t ts ht hp htail ih =>
    have hne : a ≠ c := by
      rintro rfl
      have := hc.unique (IsChain.child a b t ts ht hp htail)
      rw [this] at hlen; exact absurd hlen (lt_irrefl _)
    intro fuel
    cases fuel with
    | zero => rfl
    | succ n =>
      simp only [SymbolTable.get_value, Function.update_noteq hne, ht, hp]
      rw [ih (by simp at hlen ⊢; omega) n]

/-- C5: on a finite chain of tables starting at the receiver, `get_value`
returns (with fuel for the length of the chain, so it terminates and does not
fail) the value bound in the nearest table of the chain that binds the name,
and the null value when no table of the chain binds it. -/
theorem get_value_eq_chained_lookup {V : Type} (Null : V) (heap : Heap V) (this : Nat)
    (tables : List (SymbolTable V)) (name : String) (fuel : Nat)
    (hchain : IsChain heap this tables) (hfuel : tables.length ≤ fuel) :
    SymbolTable.get_value Null heap fuel this name =
      some (chained_lookup Null tables name) :=
  get_value_chain Null heap name hchain fuel hfuel

theorem set_value_eq {V : Type} (heap : Heap V) (c : Nat) (t : SymbolTable V) (n : String)
    (v : V) (hc : heap c = some t) :
    SymbolTable.set_value heap c n v =
      some (Function.update heap c
        (some { t with symbols := Function.update t.symbols n (some v) })) := by
  simp only [SymbolTable.set_value, hc]

/-- C6: `set_value` on a child table `c` whose parent chain `ps` starts at `p`
writes the table at `c` only: every other address holds what it held, the
chain of `p` consists of the same tables, every lookup that starts at `p`
gives what it gave (for the written name too), and the parent link of `c` is
unchanged. -/
theorem set_value_writes_local_table_only {V : Type} (Null : V) (heap : Heap V) (c p : Nat)
    (t : SymbolTable V) (ps : List (SymbolTable V)) (n : String) (v : V)
    (hc : heap c = some t) (hp : t.parent = some p) (hchain : IsChain heap p ps) :
    ∃ heap', SymbolTable.set_value heap c n v = some heap' ∧
      (∀ a, a ≠ c → heap' a = heap a) ∧
      IsChain heap' p ps ∧
      (∀ fuel m, SymbolTable.get_value Null heap' fuel p m =
        SymbolTable.get_value Null heap fuel p m) ∧
      SymbolTable.get_parent heap' c = SymbolTable.get_parent heap c := by
  have hcc : IsChain heap c (t :: ps) := IsChain.child c p t ps hc hp hchain
  refine ⟨_, set_value_eq heap c t n v hc, ?_, ?_, ?_, ?_⟩
  · intro a ha
    exact Function.update_noteq ha _ _
  · exact IsChain.update_of_short hcc _ hchain (by simp)
  · intro fuel m
    exact get_value_update_of_short Null hcc _ hchain (by simp) m fuel
  · simp [SymbolTable.get_parent, hc]

/-- Witness of C5's theorem: a child table at address 1 that binds `x`, with a
root table at address 0 that binds `y`. -/
theorem get_value_eq_chained_lookup_witness :
    SymbolTable.get_value (0 : Int) example_heap 2 1 "y" =
      some (chained_lookup (0 : Int) [example_child_table, example_root_table] "y") :=
  get_value_eq_chained_lookup (0 : Int) example_heap 1 [example_child_table, example_root_table]
    "y" 2
    (IsChain.child 1 0 example_child_table [example_root_table] rfl rfl
      (IsChain.root 0 example_root_table rfl rfl))
    (le_refl 2)

/-- Witness of C6's theorem: writing `y` in the child table of the example. -/
theorem set_value_writes_local_table_only_witness :
    ∃ heap', SymbolTable.set_value example_heap 1 "y" (7 : Int) = some heap' ∧
      (∀ a, a ≠ 1 → heap' a = example_heap a) ∧
      IsChain heap' 0 [example_root_table] ∧
      (∀ fuel m, SymbolTable.get_value (0 : Int) heap' fuel 0 m =
        SymbolTable.get_value (0 : Int) example_heap fuel 0 m) ∧
      SymbolTable.get_parent heap' 1 = SymbolTable.get_parent example_heap 1 :=
  set_value_writes_local_table_only (0 : Int) example_heap 1 0 example_child_table
    [example_root_table] "y" 7 rfl rfl (IsChain.root 0 example_root_table rfl rfl)

/-- C7: after `set_value(n, v)` on a live table, `get_value(n)` on it returns `v`,
whether `n` was bound locally, in an ancestor or nowhere, and for every other
name `m` the lookup `get_value(m)` gives what it gave before, with every
amount of fuel. -/
theorem set_value_get_value {V : Type} (Null : V) (heap : Heap V) (c : Nat)
    (t : SymbolTable V) (n : String) (v : V) (hc : heap c = some t) :
    ∃ heap', SymbolTable.set_value heap c n v = some heap' ∧
      (∀ fuel, SymbolTable.get_value Null heap' (fuel + 1) c n = some v) ∧
      (∀ m, m ≠ n → ∀ fuel a, SymbolTable.get_value Null heap' fuel a m =
        SymbolTable.get_value Null heap fuel a m) := by
  refine ⟨_, set_value_eq heap c t n v hc, ?_, ?_⟩
  · intro fuel
    simp [SymbolTable.get_value]
  · intro m hm fuel
    induction fuel with
    | zero => intro a; rfl
    | succ k ih =>
      intro a
      by_cases ha : a = c
      · subst ha
        simp only [SymbolTable.get_value, Function.update_same, hc,
          Function.update_noteq hm, ih]
      · simp only [SymbolTable.get_value, Function.update_noteq ha, ih]

/-- Witness of C7's theorem: writing `y` in the child table of the example. -/
theorem set_value_get_value_witness :
    ∃ heap', SymbolTable.set_value example_heap 1 "y" (7 : Int) = some heap' ∧
      (∀ fuel, SymbolTable.get_value (0 : Int) heap' (fuel + 1) 1 "y" = some 7) ∧
      (∀ m, m ≠ "y" → ∀ fuel a, SymbolTable.get_value (0 : Int) heap' fuel a m =
        SymbolTable.get_value (0 : Int) example_heap fuel a m) :=
  set_value_get_value (0 : Int) example_heap 1 example_child_table "y" 7 rfl

theorem remove_value_eq {V : Type} (heap : Heap V) (c : Nat) (t : SymbolTable V) (n : String)
    (hc : heap c = some t) :
    SymbolTable.remove_value heap c n =
      some (if (t.symbols n).isSome then
        Function.update heap c (some { t with symbols := Function.update t.symbols n none })
      else heap) := by
  simp only [SymbolTable.remove_value, hc]
  split <;> rfl

/-- C8: `remove_value(n)` on a live table `t` at `c`, whose parent chain (empty
when `t` has no parent) is finite, leaves a table at `c` that does not bind
`n`, binds every other name as before and has the same parent; every other
address holds what it held; when `n` was not bound locally the heap is
exactly as it was; and `get_value(n)` on the table then returns what
`get_value(n)` returns on the parent, and the null value when there is no
parent. -/
theorem remove_value_deletes_local_binding {V : Type} (Null : V) (heap : Heap V) (c : Nat)
    (t : SymbolTable V) (ps : List (SymbolTable V)) (n : String)
    (hchain : IsChain heap c (t :: ps)) :
    ∃ heap' t', SymbolTable.remove_value heap c n = some heap' ∧ heap' c = some t' ∧
      t'.symbols n = none ∧ (∀ m, m ≠ n → t'.symbols m = t.symbols m) ∧
      t'.parent = t.parent ∧
      (∀ a, a ≠ c → heap' a = heap a) ∧
      (t.symbols n = none → heap' = heap) ∧
      (∀ p, t.parent = some p → ∀ fuel,
        SymbolTable.get_value Null heap' (fuel + 1) c n =
          SymbolTable.get_value Null heap fuel p n) ∧
      (t.parent = none → ∀ fuel,
        SymbolTable.get_value Null heap' (fuel + 1) c n = some Null) := by
  have hc : heap c = some t := by
    cases hchain with
    | root _ _ ht _ => exact ht
    | child _ _ _ _ ht _ _ => exact ht
  rw [remove_value_eq heap c t n hc]
  by_cases hb : (t.symbols n).isSome = true
  · rw [if_pos hb]
    refine ⟨_, _, rfl, Function.update_same _ _ _, Function.update_same _ _ _, ?_, rfl, ?_, ?_,
      ?_, ?_⟩
    · intro m hm; exact Function.update_noteq hm _ _
    · intro a ha; exact Function.update_noteq ha _ _
    · intro hnone; rw [hnone] at hb; cases hb
    · intro p hp fuel
      have hps : IsChain heap p ps := by
        cases hchain with
        | root _ _ _ hp' => rw [hp] at hp'; cases hp'
        | child _ b _ _ _ hp' htail => rw [hp] at hp'; cases hp'; exact htail
      simp only [SymbolTable.get_value, Function.update_same, hp]
      exact get_value_update_of_short Null hchain _ hps (by simp) n fuel
    · intro hp fuel
      simp only [SymbolTable.get_value, Function.update_same, hp]
  · rw [if_neg hb]
    have hnone : t.symbols n = none := by
      cases h : t.symbols n with
      | none => rfl
      | some x => rw [h] at hb; exact absurd rfl hb
    refine ⟨_, t, rfl, hc, hnone, fun _ _ => rfl, rfl, fun _ _ => rfl, fun _ => rfl, ?_, ?_⟩
    · intro p hp fuel
      simp only [SymbolTable.get_value, hc, hnone, hp]
    · intro hp fuel
      simp only [SymbolTable.get_value, hc, hnone, hp]

/-- Witness of C8's theorem: removing `x` from the child table of the example. -/
theorem remove_value_deletes_local_binding_witness :
    ∃ heap' t', SymbolTable.remove_value example_heap 1 "x" = some heap' ∧ heap' 1 = some t' ∧
      t'.symbols "x" = none ∧ (∀ m, m ≠ "x" → t'.symbols m = example_child_table.symbols m) ∧
      t'.parent = example_child_table.parent ∧
      (∀ a, a ≠ 1 → heap' a = example_heap a) ∧
      (example_child_table.symbols "x" = none → heap' = example_heap) ∧
      (∀ p, example_child_table.parent = some p → ∀ fuel,
        SymbolTable.get_value (0 : Int) heap' (fuel + 1) 1 "x" =
          SymbolTable.get_value (0 : Int) example_heap fuel p "x") ∧
      (example_child_table.parent = none → ∀ fuel,
        SymbolTable.get_value (0 : Int) heap' (fuel + 1) 1 "x" = some 0) :=
  remove_value_deletes_local_binding (0 : Int) example_heap 1 example_child_table
    [example_root_table] "x"
    (IsChain.child 1 0 example_child_table [example_root_table] rfl rfl
      (IsChain.root 0 example_root_table rfl rfl))

/-! ## C9: match_token -/

/-- C9: when the current token's kind differs from `k`, `match_token(k)` appends
exactly one diagnostic (found: the current kind, expected: `k`, at the current
token's position), leaves the cursor where it was and returns a token of kind
`k` with empty text; when the current token's kind is `k`, it appends no
diagnostic, returns the current token and advances the cursor by one. -/
theorem match_token_spec (P : Parser) (k : SyntaxKind) (st : State) :
    ((P.current st).kind ≠ k →
      (P.match_token k st).2.diagnostics =
          st.diagnostics ++ [⟨(P.current st).kind, k, (P.current st).pos⟩] ∧
        (P.match_token k st).2.position = st.position ∧
        (P.match_token k st).1.kind = k ∧ (P.match_token k st).1.text = "") ∧
    ((P.current st).kind = k →
      (P.match_token k st).2.diagnostics = st.diagnostics ∧
        (P.match_token k st).1 = P.current st ∧
        (P.match_token k st).2.position = st.position + 1) := by
  constructor
  · intro h
    simp [Parser.match_token, h, report_unexpected_token]
  · intro h
    simp [Parser.match_token, h, Parser.next_token]

/-! ## The expression parser: progress, fuel, position independence -/

@[simp] theorem next_token_snd (P : Parser) (st : State) :
    (P.next_token st).2 = ⟨st.position + 1, st.diagnostics⟩ := rfl

@[simp] theorem next_token_fst (P : Parser) (st : State) :
    (P.next_token st).1 = P.current st := rfl

theorem match_token_position (P : Parser) (k : SyntaxKind) (st : State) :
    (P.match_token k st).2.position =
      st.position + (if (P.current st).kind = k then 1 else 0) := by
  unfold Parser.match_token
  split <;> simp

theorem match_token_diagnostics_length (P : Parser) (k : SyntaxKind) (st : State) :
    (P.match_token k st).2.diagnostics.length =
      st.diagnostics.length + (if (P.current st).kind = k then 0 else 1) := by
  unfold Parser.match_token
  split <;> simp [report_unexpected_token]

theorem expression_level_progress (E : Collaborators) (P : Parser) (fuel : Nat) :
    (∀ prec st r st', parse_expression E P fuel prec st = some (r, st') →
      State.advances st st') ∧
    (∀ prec left st r st', parse_binary_loop E P fuel prec left st = some (r, st') →
      State.extends st st') ∧
    (∀ st r st', parse_molecule E P fuel st = some (r, st') → State.advances st st') ∧
    (∀ left st r st', parse_index_loop E P fuel left st = some (r, st') →
      State.extends st st') ∧
    (∀ l st r st', parse_comma_loop E P fuel l st = some (r, st') → State.extends st st') ∧
    (∀ st r st', parse_atom E P fuel st = some (r, st') → State.advances st st') := by
  unfold State.advances State.extends
  induction fuel with
  | zero =>
    simp [parse_expression, parse_binary_loop, parse_molecule, parse_index_loop,
      parse_comma_loop, parse_atom]
  | succ fuel ih =>
    obtain ⟨ih_expr, ih_bin, ih_mol, ih_idx, ih_comma, ih_atom⟩ := ih
    refine ⟨?_, ?_, ?_, ?_, ?_, ?_⟩
    · intro prec st r st' h
      simp only [parse_expression] at h
      repeat' split at h
      all_goals (try have h1 := ih_expr _ _ _ _ ‹parse_expression E P fuel _ _ = some _›)
      all_goals (try have h2 := ih_mol _ _ _ ‹parse_molecule E P fuel _ = some _›)
      all_goals (try have h3 := ih_bin _ _ _ _ _ ‹parse_binary_loop E P fuel _ _ _ = some _›)
      all_goals (try simp only [Option.some.injEq, Prod.mk.injEq, reduceCtorEq] at h)
      all_goals (try (obtain ⟨-, rfl⟩ := h))
      all_goals (try
        simp only [next_token_snd, match_token_position, match_token_diagnostics_length] at *)
      all_goals omega
    · intro prec left st r st' h
      simp only [parse_binary_loop] at h
      repeat' split at h
      all_goals (try have h1 := ih_expr _ _ _ _ ‹parse_expression E P fuel _ _ = some _›)
      all_goals (try have h3 := ih_bin _ _ _ _ _ ‹parse_binary_loop E P fuel _ _ _ = some _›)
      all_goals (try simp only [Option.some.injEq, Prod.mk.injEq, reduceCtorEq] at h)
      all_goals (try (obtain ⟨-, rfl⟩ := h))
      all_goals (try
        simp only [next_token_snd, match_token_position, match_token_diagnostics_length] at *)
      all_goals omega
    · intro st r st' h
      simp only [parse_molecule] at h
      repeat' split at h
      all_goals (try have h1 := ih_atom _ _ _ ‹parse_atom E P fuel _ = some _›)
      all_goals (try have h3 := ih_idx _ _ _ _ ‹parse_index_loop E P fuel _ _ = some _›)
      all_goals (try simp only [Option.some.injEq, Prod.mk.injEq, reduceCtorEq] at h)
      all_goals (try (obtain ⟨-, rfl⟩ := h))
      all_goals (try
        simp only [next_token_snd, match_token_position, match_token_diagnostics_length] at *)
      all_goals omega
    · intro left st r st' h
      simp only [parse_index_loop] at h
      repeat' split at h
      all_goals (try have h1 := ih_expr _ _ _ _ ‹parse_expression E P fuel _ _ = some _›)
      all_goals (try have h3 := ih_idx _ _ _ _ ‹parse_index_loop E P fuel _ _ = some _›)
      all_goals (try simp only [Option.some.injEq, Prod.mk.injEq, reduceCtorEq] at h)
      all_goals (try (obtain ⟨-, rfl⟩ := h))
      all_goals (try
        simp only [next_token_snd, match_token_position, match_token_diagnostics_length] at *)
      all_goals omega
    · intro l st r st' h
      simp only [parse_comma_loop] at h
      repeat' split at h
      all_goals (try have h1 := ih_expr _ _ _ _ ‹parse_expression E P fuel _ _ = some _›)
      all_goals (try have h3 := ih_comma _ _ _ _ ‹parse_comma_loop E P fuel _ _ = some _›)
      all_goals (try simp only [Option.some.injEq, Prod.mk.injEq, reduceCtorEq] at h)
      all_goals (try (obtain ⟨-, rfl⟩ := h))
      all_goals (try
        simp only [next_token_snd, match_token_position, match_token_diagnostics_length] at *)
      all_goals omega
    · intro st r st' h
      simp only [parse_atom] at h
      repeat' split at h
      all_goals (try have h1 := ih_expr _ _ _ _ ‹parse_expression E P fuel _ _ = some _›)
      all_goals (try have h2 := ih_comma _ _ _ _ ‹parse_comma_loop E P fuel _ _ = some _›)
      all_goals (try simp only [Option.some.injEq, Prod.mk.injEq, reduceCtorEq] at h)
      all_goals (try (obtain ⟨-, rfl⟩ := h))
      all_goals (try
        simp only [next_token_snd, match_token_position, match_token_diagnostics_length] at *)
      all_goals (first | omega | (split_ifs at * <;> omega))


theorem expression_level_fuel_succ (E : Collaborators) (P : Parser) (fuel : Nat) :
    (∀ prec st x, parse_expression E P fuel prec st = some x →
      parse_expression E P (fuel + 1) prec st = some x) ∧
    (∀ prec left st x, parse_binary_loop E P fuel prec left st = some x →
      parse_binary_loop E P (fuel + 1) prec left st = some x) ∧
    (∀ st x, parse_molecule E P fuel st = some x → parse_molecule E P (fuel + 1) st = some x) ∧
    (∀ left st x, parse_index_loop E P fuel left st = some x →
      parse_index_loop E P (fuel + 1) left st = some x) ∧
    (∀ l st x, parse_comma_loop E P fuel l st = some x →
      parse_comma_loop E P (fuel + 1) l st = some x) ∧
    (∀ st x, parse_atom E P fuel st = some x → parse_atom E P (fuel + 1) st = some x) := by
  induction fuel with
  | zero =>
    simp [parse_expression, parse_binary_loop, parse_molecule, parse_index_loop,
      parse_comma_loop, parse_atom]
  | succ fuel ih =>
    obtain ⟨ih_expr, ih_bin, ih_mol, ih_idx, ih_comma, ih_atom⟩ := ih
    refine ⟨?_, ?_, ?_, ?_, ?_, ?_⟩
    · intro prec st x h
      rw [parse_expression]
      simp only [parse_expression] at h
      repeat' split at h
      all_goals (try have h1 := ih_expr _ _ _ ‹parse_expression E P fuel _ _ = some _›)
      all_goals (try have h2 := ih_mol _ _ ‹parse_molecule E P fuel _ = some _›)
      all_goals (try have h3 := ih_bin _ _ _ _ ‹parse_binary_loop E P fuel _ _ _ = some _›)
      all_goals (try cases h)
      all_goals (try simp_all only [ne_eq, not_false_eq_true, and_self, and_true, if_true,
        if_false, not_true_eq_false, ge_iff_le])
    · intro prec left st x h
      rw [parse_binary_loop]
      simp only [parse_binary_loop] at h
      repeat' split at h
      all_goals (try have h1 := ih_expr _ _ _ ‹parse_expression E P fuel _ _ = some _›)
      all_goals (try have h2 := ih_bin _ _ _ _ ‹parse_binary_loop E P fuel _ _ _ = some _›)
      all_goals (try cases h)
      all_goals (try simp_all only [ne_eq, not_false_eq_true, and_self, and_true, if_true,
        if_false, not_true_eq_false, ge_iff_le])
    · intro st x h
      rw [parse_molecule]
      simp only [parse_molecule] at h
      repeat' split at h
      all_goals (try have h1 := ih_atom _ _ ‹parse_atom E P fuel _ = some _›)
      all_goals (try have h2 := ih_idx _ _ _ ‹parse_index_loop E P fuel _ _ = some _›)
      all_goals (try cases h)
      all_goals (try simp_all only [ne_eq, not_false_eq_true, and_self, and_true, if_true,
        if_false, not_true_eq_false, ge_iff_le])
    · intro left st x h
      rw [parse_index_loop]
      simp only [parse_index_loop] at h
      repeat' split at h
      all_goals (try have h1 := ih_expr _ _ _ ‹parse_expression E P fuel _ _ = some _›)
      all_goals (try have h2 := ih_idx _ _ _ ‹parse_index_loop E P fuel _ _ = some _›)
      all_goals (try cases h)
      all_goals (try simp_all only [ne_eq, not_false_eq_true, and_self, and_true, if_true,
        if_false, not_true_eq_false, ge_iff_le])
    · intro l st x h
      rw [parse_comma_loop]
      simp only [parse_comma_loop] at h
      repeat' split at h
      all_goals (try have h1 := ih_expr _ _ _ ‹parse_expression E P fuel _ _ = some _›)
      all_goals (try have h2 := ih_comma _ _ _ ‹parse_comma_loop E P fuel _ _ = some _›)
      all_goals (try cases h)
      all_goals (try simp_all only [ne_eq, not_false_eq_true, and_self, and_true, if_true,
        if_false, not_true_eq_false, ge_iff_le])
    · intro st x h
      rw [parse_atom]
      simp only [parse_atom] at h
      repeat' split at h
      all_goals (try have h1 := ih_expr _ _ _ ‹parse_expression E P fuel _ _ = some _›)
      all_goals (try have h2 := ih_comma _ _ _ ‹parse_comma_loop E P fuel _ _ = some _›)
      all_goals (try cases h)
      all_goals (try simp_all only [ne_eq, not_false_eq_true, and_self, and_true, if_true,
        if_false, not_true_eq_false, ge_iff_le])


theorem peek_eq_token_at (P : Parser) (st : State) (o : Nat) :
    P.peek st o = P.token_at (st.position + o) := by
  simp [Parser.peek, Parser.token_at]

theorem current_eq_token_at (P : Parser) (st : State) :
    P.current st = P.token_at st.position := peek_eq_token_at P st 0

theorem look_ahead_eq_token_at (P : Parser) (st : State) :
    P.look_ahead st = P.token_at (st.position + 1) := peek_eq_token_at P st 1

theorem current_shift (P1 P2 : Parser) (k : Nat) (d0 : List Diagnostic)
    (hP : ∀ i, P2.token_at (i + k) = P1.token_at i) (st : State) :
    P2.current (st.shift k d0) = P1.current st := by
  rw [current_eq_token_at, current_eq_token_at]; exact hP _

theorem look_ahead_shift (P1 P2 : Parser) (k : Nat) (d0 : List Diagnostic)
    (hP : ∀ i, P2.token_at (i + k) = P1.token_at i) (st : State) :
    P2.look_ahead (st.shift k d0) = P1.look_ahead st := by
  rw [look_ahead_eq_token_at, look_ahead_eq_token_at, ← hP (st.position + 1)]
  simp only [State.shift]
  congr 1; omega

theorem next_token_shift (P1 P2 : Parser) (k : Nat) (d0 : List Diagnostic)
    (hP : ∀ i, P2.token_at (i + k) = P1.token_at i) (st : State) :
    P2.next_token (st.shift k d0) = shift_result k d0 (P1.next_token st) := by
  have hc := current_shift P1 P2 k d0 hP st
  simp only [State.shift] at hc
  simp only [Parser.next_token, shift_result, State.shift, Nat.add_right_comm, hc]

theorem match_token_shift (P1 P2 : Parser) (k : Nat) (d0 : List Diagnostic)
    (hP : ∀ i, P2.token_at (i + k) = P1.token_at i) (kind : SyntaxKind) (st : State) :
    P2.match_token kind (st.shift k d0) = shift_result k d0 (P1.match_token kind st) := by
  unfold Parser.match_token
  rw [current_shift P1 P2 k d0 hP]
  split
  · exact next_token_shift P1 P2 k d0 hP st
  · simp only [shift_result, State.shift, report_unexpected_token, current_eq_token_at, hP,
      List.append_assoc]

theorem span_to_current_shift (P1 P2 : Parser) (k : Nat) (d0 : List Diagnostic)
    (hP : ∀ i, P2.token_at (i + k) = P1.token_at i) (start : Position) (st : State) :
    P2.span_to_current start (st.shift k d0) = P1.span_to_current start st := by
  simp only [Parser.span_to_current, current_shift P1 P2 k d0 hP]

@[simp] theorem shift_result_fst {α : Type} (k : Nat) (d0 : List Diagnostic) (x : α × State) :
    (shift_result k d0 x).1 = x.1 := rfl
@[simp] theorem shift_result_snd {α : Type} (k : Nat) (d0 : List Diagnostic) (x : α × State) :
    (shift_result k d0 x).2 = x.2.shift k d0 := rfl

theorem expression_level_shift (E : Collaborators) (P1 P2 : Parser) (k : Nat)
    (d0 : List Diagnostic) (hP : ∀ i, P2.token_at (i + k) = P1.token_at i) (fuel : Nat) :
    (∀ prec st x, parse_expression E P1 fuel prec st = some x →
      parse_expression E P2 fuel prec (st.shift k d0) = some (shift_result k d0 x)) ∧
    (∀ prec left st x, parse_binary_loop E P1 fuel prec left st = some x →
      parse_binary_loop E P2 fuel prec left (st.shift k d0) = some (shift_result k d0 x)) ∧
    (∀ st x, parse_molecule E P1 fuel st = some x →
      parse_molecule E P2 fuel (st.shift k d0) = some (shift_result k d0 x)) ∧
    (∀ left st x, parse_index_loop E P1 fuel left st = some x →
      parse_index_loop E P2 fuel left (st.shift k d0) = some (shift_result k d0 x)) ∧
    (∀ l st x, parse_comma_loop E P1 fuel l st = some x →
      parse_comma_loop E P2 fuel l (st.shift k d0) = some (shift_result k d0 x)) ∧
    (∀ st x, parse_atom E P1 fuel st = some x →
      parse_atom E P2 fuel (st.shift k d0) = some (shift_result k d0 x)) := by
  induction fuel with
  | zero =>
    simp [parse_expression, parse_binary_loop, parse_molecule, parse_index_loop,
      parse_comma_loop, parse_atom]
  | succ fuel ih =>
    obtain ⟨ih_expr, ih_bin, ih_mol, ih_idx, ih_comma, ih_atom⟩ := ih
    have c := current_shift P1 P2 k d0 hP
    have l := look_ahead_shift P1 P2 k d0 hP
    have nx := next_token_shift P1 P2 k d0 hP
    have mt := match_token_shift P1 P2 k d0 hP
    have sp := span_to_current_shift P1 P2 k d0 hP
    refine ⟨?_, ?_, ?_, ?_, ?_, ?_⟩
    · intro prec st x h
      rw [parse_expression]
      simp only [parse_expression] at h
      repeat' split at h
      all_goals (try have h1 := ih_expr _ _ _ ‹parse_expression E P1 fuel _ _ = some _›)
      all_goals (try have h2 := ih_mol _ _ ‹parse_molecule E P1 fuel _ = some _›)
      all_goals (try have h3 := ih_bin _ _ _ _ ‹parse_binary_loop E P1 fuel _ _ _ = some _›)
      all_goals (try cases h)
      all_goals (try simp_all only [ne_eq, not_false_eq_true, and_self, and_true, if_true,
        if_false, not_true_eq_false, ge_iff_le, shift_result_fst, shift_result_snd])
      all_goals (try rfl)
    · intro prec left st x h
      rw [parse_binary_loop]
      simp only [parse_binary_loop] at h
      repeat' split at h
      all_goals (try have h1 := ih_expr _ _ _ ‹parse_expression E P1 fuel _ _ = some _›)
      all_goals (try have h3 := ih_bin _ _ _ _ ‹parse_binary_loop E P1 fuel _ _ _ = some _›)
      all_goals (try cases h)
      all_goals (try simp_all only [ne_eq, not_false_eq_true, and_self, and_true, if_true,
        if_false, not_true_eq_false, ge_iff_le, shift_result_fst, shift_result_snd])
      all_goals (try rfl)
    · intro st x h
      rw [parse_molecule]
      simp only [parse_molecule] at h
      repeat' split at h
      all_goals (try have h1 := ih_atom _ _ ‹parse_atom E P1 fuel _ = some _›)
      all_goals (try have h3 := ih_idx _ _ _ ‹parse_index_loop E P1 fuel _ _ = some _›)
      all_goals (try cases h)
      all_goals (try simp_all only [ne_eq, not_false_eq_true, and_self, and_true, if_true,
        if_false, not_true_eq_false, ge_iff_le, shift_result_fst, shift_result_snd])
      all_goals (try rfl)
    · intro left st x h
      rw [parse_index_loop]
      simp only [parse_index_loop] at h
      repeat' split at h
      all_goals (try have h1 := ih_expr _ _ _ ‹parse_expression E P1 fuel _ _ = some _›)
      all_goals (try have h3 := ih_idx _ _ _ ‹parse_index_loop E P1 fuel _ _ = some _›)
      all_goals (try cases h)
      all_goals (try simp_all only [ne_eq, not_false_eq_true, and_self, and_true, if_true,
        if_false, not_true_eq_false, ge_iff_le, shift_result_fst, shift_result_snd])
      all_goals (try rfl)
    · intro l0 st x h
      rw [parse_comma_loop]
      simp only [parse_comma_loop] at h
      repeat' split at h
      all_goals (try have h1 := ih_expr _ _ _ ‹parse_expression E P1 fuel _ _ = some _›)
      all_goals (try have h3 := ih_comma _ _ _ ‹parse_comma_loop E P1 fuel _ _ = some _›)
      all_goals (try cases h)
      all_goals (try simp_all only [ne_eq, not_false_eq_true, and_self, and_true, if_true,
        if_false, not_true_eq_false, ge_iff_le, shift_result_fst, shift_result_snd])
      all_goals (try rfl)
    · intro st x h
      rw [parse_atom]
      simp only [parse_atom] at h
      repeat' split at h
      all_goals (try have h1 := ih_expr _ _ _ ‹parse_expression E P1 fuel _ _ = some _›)
      all_goals (try have h3 := ih_comma _ _ _ ‹parse_comma_loop E P1 fuel _ _ = some _›)
      all_goals (try cases h)
      all_goals (try simp_all only [ne_eq, not_false_eq_true, and_self, and_true, if_true,
        if_false, not_true_eq_false, ge_iff_le, shift_result_fst, shift_result_snd])
      all_goals (try rfl)


theorem shape_list_append (l₁ l₂ : List SyntaxNode) :
    shape_list (l₁ ++ l₂) = shape_list l₁ ++ shape_list l₂ := by
  induction l₁ with
  | nil => simp [shape_list]
  | cons a l ih => simp [shape_list, ih]


/-! ## The expression parser: the same tokens, another continuation -/

theorem Continues.current {E : Collaborators} {P1 P2 : Parser} {n : Nat}
    (hC : Continues E P1 P2 n) (s : State) (h : s.position < n) :
    P2.current s = P1.current s := by
  rw [current_eq_token_at, current_eq_token_at]; exact hC.below _ h

theorem Continues.look_ahead {E : Collaborators} {P1 P2 : Parser} {n : Nat}
    (hC : Continues E P1 P2 n) (s : State) (h : s.position + 1 < n) :
    P2.look_ahead s = P1.look_ahead s := by
  rw [look_ahead_eq_token_at, look_ahead_eq_token_at]; exact hC.below _ h

theorem Continues.match_token {E : Collaborators} {P1 P2 : Parser} {n : Nat}
    (hC : Continues E P1 P2 n) (k : SyntaxKind) (s : State) (h : s.position < n) :
    P2.match_token k s = P1.match_token k s := by
  unfold Parser.match_token Parser.next_token
  simp only [report_unexpected_token, current_eq_token_at, hC.below _ h]

theorem Continues.next_token {E : Collaborators} {P1 P2 : Parser} {n : Nat}
    (hC : Continues E P1 P2 n) (s : State) (h : s.position < n) :
    P2.next_token s = P1.next_token s := by
  unfold Parser.next_token
  rw [hC.current s h]

theorem Continues.span {E : Collaborators} {P1 P2 : Parser} {n : Nat}
    (hC : Continues E P1 P2 n) (start : Position) (s : State) (h : s.position < n) :
    P2.span_to_current start s = P1.span_to_current start s := by
  unfold Parser.span_to_current
  rw [hC.current s h]

/-- A test `current().kind() == K` that fails in `P1` at or before index `n` fails
in `P2`, when the token of `P2` at `n` is not of kind `K`. -/
theorem Continues.test_ne {E : Collaborators} {P1 P2 : Parser} {n : Nat}
    (hC : Continues E P1 P2 n) (K : SyntaxKind) (hK : (P2.token_at n).kind ≠ K) (s : State)
    (hs : s.position ≤ n) (hA : (P1.current s).kind ≠ K) : (P2.current s).kind ≠ K := by
  rcases Nat.lt_or_ge s.position n with hlt | hge
  · rw [hC.current s hlt]; exact hA
  · have : s.position = n := by omega
    rw [current_eq_token_at, this]; exact hK

/-- A `match_token` that records no diagnostic has matched. -/
theorem match_token_of_no_diagnostic (P : Parser) (k : SyntaxKind) (s : State)
    (h : (P.match_token k s).2.diagnostics.length ≤ s.diagnostics.length) :
    (P.current s).kind = k ∧ P.match_token k s = (P.current s, ⟨s.position + 1, s.diagnostics⟩) := by
  by_cases hk : (P.current s).kind = k
  · refine ⟨hk, ?_⟩
    simp only [Parser.match_token, if_pos hk, Parser.next_token]
  · rw [match_token_diagnostics_length, if_neg hk] at h
    omega


theorem index_loop_consumes (E : Collaborators) (P : Parser) (fuel : Nat) (left : SyntaxNode)
    (s : State) (r : SyntaxNode) (s' : State)
    (h : parse_index_loop E P fuel left s = some (r, s'))
    (hk : (P.current s).kind = SyntaxKind.LSquareToken) : s.position < s'.position := by
  cases fuel with
  | zero => simp [parse_index_loop] at h
  | succ fuel =>
    have mg := expression_level_progress E P fuel
    rw [parse_index_loop, if_pos hk] at h
    simp only [next_token_snd] at h
    cases he : parse_expression E P fuel default_precedence ⟨s.position + 1, s.diagnostics⟩ with
    | none => rw [he] at h; cases h
    | some x =>
      obtain ⟨e, s2⟩ := x
      rw [he] at h
      simp only at h
      have m1 := mg.1 _ _ _ _ he
      have m2 := mg.2.2.2.1 _ _ _ _ h
      have m3 := match_token_position P SyntaxKind.RSquareToken s2
      simp only [State.advances, State.extends] at m1 m2
      omega

/-- The simulation, for the three loops. -/
theorem prefix_loops (E : Collaborators) (P1 P2 : Parser) (n : Nat)
    (hC : Continues E P1 P2 n) (fuel : Nat)
    (ih_expr : ∀ prec st rA st', parse_expression E P1 fuel prec st = some (rA, st') →
      st'.position ≤ n → st'.diagnostics.length = st.diagnostics.length →
      ∃ rB, parse_expression E P2 fuel prec st = some (rB, st') ∧ rB.shape = rA.shape)
    (ih_bin : ∀ prec leftA leftB st rA st', leftB.shape = leftA.shape →
      parse_binary_loop E P1 fuel prec leftA st = some (rA, st') →
      st'.position ≤ n → st'.diagnostics.length = st.diagnostics.length →
      ∃ rB, parse_binary_loop E P2 fuel prec leftB st = some (rB, st') ∧ rB.shape = rA.shape)
    (ih_idx : ∀ leftA leftB st rA st', leftB.shape = leftA.shape →
      parse_index_loop E P1 fuel leftA st = some (rA, st') →
      st'.position ≤ n → st'.diagnostics.length = st.diagnostics.length →
      ∃ rB, parse_index_loop E P2 fuel leftB st = some (rB, st') ∧ rB.shape = rA.shape)
    (ih_comma : ∀ lA lB st rA st', shape_list lB = shape_list lA →
      parse_comma_loop E P1 fuel lA st = some (rA, st') →
      st'.position ≤ n → st'.diagnostics.length = st.diagnostics.length →
      ∃ rB, parse_comma_loop E P2 fuel lB st = some (rB, st') ∧
        shape_list rB = shape_list rA) :
    (∀ prec leftA leftB st rA st', leftB.shape = leftA.shape →
      parse_binary_loop E P1 (fuel + 1) prec leftA st = some (rA, st') →
      st'.position ≤ n → st'.diagnostics.length = st.diagnostics.length →
      ∃ rB, parse_binary_loop E P2 (fuel + 1) prec leftB st = some (rB, st') ∧
        rB.shape = rA.shape) ∧
    (∀ leftA leftB st rA st', leftB.shape = leftA.shape →
      parse_index_loop E P1 (fuel + 1) leftA st = some (rA, st') →
      st'.position ≤ n → st'.diagnostics.length = st.diagnostics.length →
      ∃ rB, parse_index_loop E P2 (fuel + 1) leftB st = some (rB, st') ∧
        rB.shape = rA.shape) ∧
    (∀ lA lB st rA st', shape_list lB = shape_list lA →
      parse_comma_loop E P1 (fuel + 1) lA st = some (rA, st') →
      st'.position ≤ n → st'.diagnostics.length = st.diagnostics.length →
      ∃ rB, parse_comma_loop E P2 (fuel + 1) lB st = some (rB, st') ∧
        shape_list rB = shape_list rA) := by
  have mg := expression_level_progress E P1 fuel
  simp only [State.advances, State.extends] at mg
  obtain ⟨mg_expr, mg_bin, mg_mol, mg_idx, mg_comma, mg_atom⟩ := mg
  refine ⟨?_, ?_, ?_⟩
  · -- the binary loop
    intro prec leftA leftB st rA st' hl h hpos hdiag
    rw [parse_binary_loop] at h ⊢
    by_cases hc : E.get_binary_precedence (P1.current st).kind = 0 ∨
        E.get_binary_precedence (P1.current st).kind ≤ prec
    · rw [if_pos hc] at h
      cases h
      have hcB : E.get_binary_precedence (P2.current st).kind = 0 ∨
          E.get_binary_precedence (P2.current st).kind ≤ prec := by
        rcases Nat.lt_or_ge st.position n with hlt | hge
        · rw [hC.current st hlt]; exact hc
        · have : st.position = n := by omega
          left; rw [current_eq_token_at, this]; exact hC.not_binary
      rw [if_pos hcB]
      exact ⟨leftB, rfl, hl⟩
    · rw [if_neg hc] at h
      simp only [next_token_snd, next_token_fst] at h ⊢
      cases he : parse_expression E P1 fuel (E.get_binary_precedence (P1.current st).kind)
          ⟨st.position + 1, st.diagnostics⟩ with
      | none => rw [he] at h; cases h
      | some x =>
        obtain ⟨e, s2⟩ := x
        rw [he] at h
        simp only at h
        have m1 := mg_expr _ _ _ _ he
        have m2 := mg_bin _ _ _ _ _ h
        simp only at m1
        have hlt : st.position < n := by omega
        rw [hC.current st hlt, if_neg hc]
        obtain ⟨eB, hB, hsh⟩ := ih_expr _ _ _ _ he (by omega) (by simp only; omega)
        rw [hB]
        simp only
        exact ih_bin _ _ _ _ _ _ (by simp only [SyntaxNode.shape, hl, hsh]) h hpos (by omega)
  · -- the index loop
    intro leftA leftB st rA st' hl h hpos hdiag
    rw [parse_index_loop] at h ⊢
    by_cases hc : (P1.current st).kind = SyntaxKind.LSquareToken
    · rw [if_pos hc] at h
      simp only [next_token_snd] at h ⊢
      cases he : parse_expression E P1 fuel default_precedence
          ⟨st.position + 1, st.diagnostics⟩ with
      | none => rw [he] at h; cases h
      | some x =>
        obtain ⟨e, s2⟩ := x
        rw [he] at h
        simp only at h
        have m1 := mg_expr _ _ _ _ he
        have m2 := mg_idx _ _ _ _ h
        have m3 := match_token_position P1 SyntaxKind.RSquareToken s2
        have m4 := match_token_diagnostics_length P1 SyntaxKind.RSquareToken s2
        simp only at m1
        have hlt : st.position < n := by omega
        obtain ⟨hk, hm⟩ := match_token_of_no_diagnostic P1 SyntaxKind.RSquareToken s2 (by omega)
        rw [hm] at m2 h
        simp only at m2 h
        have hlt2 : s2.position < n := by omega
        rw [hC.current st hlt, if_pos hc]
        obtain ⟨eB, hB, hsh⟩ := ih_expr _ _ _ _ he (by omega) (by simp only; omega)
        rw [hB]
        simp only
        rw [hC.match_token _ s2 hlt2, hm]
        simp only
        exact ih_idx _ _ _ _ _ (by simp only [SyntaxNode.shape, hl, hsh]) h hpos
          (by simp only; omega)
    · rw [if_neg hc] at h
      cases h
      rw [if_neg (hC.test_ne _ hC.not_lsquare st hpos hc)]
      exact ⟨leftB, rfl, hl⟩
  · -- the comma loop
    intro lA lB st rA st' hl h hpos hdiag
    rw [parse_comma_loop] at h ⊢
    by_cases hc : (P1.current st).kind = SyntaxKind.CommaToken
    · rw [if_pos hc] at h
      simp only [next_token_snd] at h ⊢
      cases he : parse_expression E P1 fuel default_precedence
          ⟨st.position + 1, st.diagnostics⟩ with
      | none => rw [he] at h; cases h
      | some x =>
        obtain ⟨e, s2⟩ := x
        rw [he] at h
        simp only at h
        have m1 := mg_expr _ _ _ _ he
        have m2 := mg_comma _ _ _ _ h
        simp only at m1
        have hlt : st.position < n := by omega
        rw [hC.current st hlt, if_pos hc]
        obtain ⟨eB, hB, hsh⟩ := ih_expr _ _ _ _ he (by omega) (by simp only; omega)
        rw [hB]
        simp only
        exact ih_comma _ _ _ _ _
          (by simp only [shape_list_append, shape_list, hl, hsh]) h hpos (by omega)
    · rw [if_neg hc] at h
      cases h
      rw [if_neg (hC.test_ne _ hC.not_comma st hpos hc)]
      exact ⟨lB, rfl, hl⟩


theorem prefix_molecule (E : Collaborators) (P1 P2 : Parser) (n : Nat)
    (hC : Continues E P1 P2 n) (fuel : Nat)
    (ih_idx : ∀ leftA leftB st rA st', leftB.shape = leftA.shape →
      parse_index_loop E P1 fuel leftA st = some (rA, st') →
      st'.position ≤ n → st'.diagnostics.length = st.diagnostics.length →
      ∃ rB, parse_index_loop E P2 fuel leftB st = some (rB, st') ∧ rB.shape = rA.shape)
    (ih_atom : ∀ st rA st', parse_atom E P1 fuel st = some (rA, st') →
      st'.position ≤ n → st'.diagnostics.length = st.diagnostics.length →
      ∃ rB, parse_atom E P2 fuel st = some (rB, st') ∧ rB.shape = rA.shape) :
    ∀ st rA st', parse_molecule E P1 (fuel + 1) st = some (rA, st') →
      st'.position ≤ n → st'.diagnostics.length = st.diagnostics.length →
      ∃ rB, parse_molecule E P2 (fuel + 1) st = some (rB, st') ∧ rB.shape = rA.shape := by
  have mg := expression_level_progress E P1 fuel
  simp only [State.advances, State.extends] at mg
  obtain ⟨mg_expr, mg_bin, mg_mol, mg_idx, mg_comma, mg_atom⟩ := mg
  intro st rA st' h hpos hdiag
  rw [parse_molecule] at h ⊢
  cases ha : parse_atom E P1 fuel st with
  | none => rw [ha] at h; cases h
  | some x =>
    obtain ⟨leftA, s1⟩ := x
    rw [ha] at h
    simp only at h
    have m1 := mg_atom _ _ _ ha
    split at h
    · rename_i hk
      have m2 := mg_idx _ _ _ _ h
      have m3 := index_loop_consumes E P1 fuel leftA s1 rA st' h hk
      obtain ⟨leftB, hB, hsh⟩ := ih_atom _ _ _ ha (by omega) (by omega)
      rw [hB]
      simp only
      rw [hC.current s1 (by omega), hk]
      simp only
      exact ih_idx _ _ _ _ _ hsh h hpos (by omega)
    · rename_i hk
      simp only [Option.some.injEq, Prod.mk.injEq] at h
      obtain ⟨rfl, rfl⟩ := h
      obtain ⟨leftB, hB, hsh⟩ := ih_atom _ _ _ ha hpos hdiag
      rw [hB]
      simp only
      have hkB : (P2.current s1).kind ≠ SyntaxKind.LSquareToken :=
        hC.test_ne _ hC.not_lsquare s1 hpos (fun hh => hk hh)
      refine ⟨leftB, ?_, hsh⟩
      split
      · rename_i hh; exact absurd hh hkB
      · rfl

theorem prefix_atom (E : Collaborators) (P1 P2 : Parser) (n : Nat)
    (hC : Continues E P1 P2 n) (fuel : Nat)
    (ih_expr : ∀ prec st rA st', parse_expression E P1 fuel prec st = some (rA, st') →
      st'.position ≤ n → st'.diagnostics.length = st.diagnostics.length →
      ∃ rB, parse_expression E P2 fuel prec st = some (rB, st') ∧ rB.shape = rA.shape)
    (ih_comma : ∀ lA lB st rA st', shape_list lB = shape_list lA →
      parse_comma_loop E P1 fuel lA st = some (rA, st') →
      st'.position ≤ n → st'.diagnostics.length = st.diagnostics.length →
      ∃ rB, parse_comma_loop E P2 fuel lB st = some (rB, st') ∧
        shape_list rB = shape_list rA) :
    ∀ st rA st', parse_atom E P1 (fuel + 1) st = some (rA, st') →
      st'.position ≤ n → st'.diagnostics.length = st.diagnostics.length →
      ∃ rB, parse_atom E P2 (fuel + 1) st = some (rB, st') ∧ rB.shape = rA.shape := by
  have mg := expression_level_progress E P1 fuel
  simp only [State.advances, State.extends] at mg
  obtain ⟨mg_expr, mg_bin, mg_mol, mg_idx, mg_comma, mg_atom⟩ := mg
  intro st rA st' h hpos hdiag
  have mA := (expression_level_progress E P1 (fuel + 1)).2.2.2.2.2 _ _ _ h
  simp only [State.advances] at mA
  have hlt : st.position < n := by omega
  clear mA
  rw [parse_atom]
  simp only [parse_atom] at h
  simp only [hC.current st hlt, hC.next_token st hlt, hC.match_token _ st hlt]
  split at h
  case h_1 => exact ⟨rA, h, rfl⟩
  case h_2 => exact ⟨rA, h, rfl⟩
  case h_3 => exact ⟨rA, h, rfl⟩
  case h_4 => exact ⟨rA, h, rfl⟩
  case h_5 => exact ⟨rA, h, rfl⟩
  case h_6 =>
    -- LParenToken
    split at h
    · cases h
    · rename_i e s2 he
      simp only [Option.some.injEq, Prod.mk.injEq] at h
      obtain ⟨rfl, rfl⟩ := h
      have m1 := mg_expr _ _ _ _ he
      have m3 := match_token_position P1 SyntaxKind.RParenToken s2
      have m4 := match_token_diagnostics_length P1 SyntaxKind.RParenToken s2
      simp only [next_token_snd] at m1
      obtain ⟨hk2, hm⟩ := match_token_of_no_diagnostic P1 SyntaxKind.RParenToken s2 (by omega)
      rw [hm] at hpos hdiag ⊢
      simp only at hpos hdiag
      obtain ⟨eB, hB, hsh⟩ := ih_expr _ _ _ _ he (by omega) (by simp only [next_token_snd]; omega)
      rw [hB]
      simp only
      rw [hC.match_token _ s2 (by omega), hm]
      exact ⟨eB, rfl, hsh⟩
  case h_7 =>
    -- LSquareToken
    simp only [next_token_snd] at h ⊢
    split at h
    · rename_i hk2
      simp only [Option.some.injEq, Prod.mk.injEq] at h
      obtain ⟨rfl, rfl⟩ := h
      simp only at hpos hdiag
      rw [hC.current _ (by simp only; omega), if_pos hk2]
      exact ⟨_, rfl, by simp only [SyntaxNode.shape]⟩
    · rename_i hk2
      split at h
      · cases h
      · rename_i e s2 he
        split at h
        · cases h
        · rename_i elements s3 hcm
          simp only [Option.some.injEq, Prod.mk.injEq] at h
          obtain ⟨rfl, rfl⟩ := h
          have m1 := mg_expr _ _ _ _ he
          have m2 := mg_comma _ _ _ _ hcm
          have m3 := match_token_position P1 SyntaxKind.RSquareToken s3
          have m4 := match_token_diagnostics_length P1 SyntaxKind.RSquareToken s3
          simp only at m1
          obtain ⟨hk3, hm⟩ :=
            match_token_of_no_diagnostic P1 SyntaxKind.RSquareToken s3 (by omega)
          rw [hm] at hpos hdiag ⊢
          simp only at hpos hdiag
          rw [hC.current _ (by simp only; omega), if_neg hk2]
          obtain ⟨eB, hB, hsh⟩ := ih_expr _ _ _ _ he (by omega) (by simp only; omega)
          rw [hB]
          simp only
          obtain ⟨lB, hlB, hshl⟩ := ih_comma [e] [eB] _ _ _
            (by simp only [shape_list, hsh]) hcm (by omega) (by omega)
          rw [hlB]
          simp only
          rw [hC.match_token _ s3 (by omega), hm]
          exact ⟨_, rfl, by simp only [SyntaxNode.shape, hshl]⟩
  case h_18 =>
    -- an identifier: a call or a variable
    have d1 := match_token_position P1 SyntaxKind.IdentifierToken st
    have d2 := match_token_diagnostics_length P1 SyntaxKind.IdentifierToken st
    simp only [next_token_snd] at h ⊢
    split at h
    · rename_i hk1
      split at h
      · rename_i hk2
        simp only [Option.some.injEq, Prod.mk.injEq] at h
        obtain ⟨rfl, rfl⟩ := h
        simp only at hpos hdiag
        obtain ⟨hki, hmi⟩ :=
          match_token_of_no_diagnostic P1 SyntaxKind.IdentifierToken st (by omega)
        clear d1 d2
        rw [hmi] at hk1 hk2 hpos hdiag ⊢
        simp only at hk1 hk2 hpos hdiag ⊢
        rw [hC.current _ (by simp only; omega), if_pos hk1,
          hC.current _ (by simp only; omega), if_pos hk2]
        exact ⟨_, rfl, by simp only [SyntaxNode.shape, shape_list]⟩
      · rename_i hk2
        split at h
        · cases h
        · rename_i e s2 he
          split at h
          · cases h
          · rename_i args s3 hcm
            simp only [Option.some.injEq, Prod.mk.injEq] at h
            obtain ⟨rfl, rfl⟩ := h
            have m1 := mg_expr _ _ _ _ he
            have m2 := mg_comma _ _ _ _ hcm
            have m3 := match_token_position P1 SyntaxKind.RParenToken s3
            have m4 := match_token_diagnostics_length P1 SyntaxKind.RParenToken s3
            simp only at m1
            obtain ⟨hk3, hm⟩ :=
              match_token_of_no_diagnostic P1 SyntaxKind.RParenToken s3 (by omega)
            obtain ⟨hki, hmi⟩ :=
              match_token_of_no_diagnostic P1 SyntaxKind.IdentifierToken st (by omega)
            clear d1 d2
            rw [hm] at hpos hdiag ⊢
            rw [hmi] at hk1 hk2 he m1 ⊢
            simp only at hpos hdiag hk1 hk2 he m1 ⊢
            rw [hC.current _ (by simp only; omega), if_pos hk1,
              hC.current _ (by simp only; omega), if_neg hk2]
            obtain ⟨eB, hB, hsh⟩ := ih_expr _ _ _ _ he (by omega) (by simp only; omega)
            rw [hB]
            simp only
            obtain ⟨lB, hlB, hshl⟩ := ih_comma [e] [eB] _ _ _
              (by simp only [shape_list, hsh]) hcm (by omega) (by omega)
            rw [hlB]
            simp only
            rw [hC.match_token _ s3 (by omega), hm]
            exact ⟨_, rfl, by simp only [SyntaxNode.shape, hshl]⟩
    · rename_i hk1
      simp only [Option.some.injEq, Prod.mk.injEq] at h
      obtain ⟨rfl, rfl⟩ := h
      obtain ⟨hki, hmi⟩ :=
        match_token_of_no_diagnostic P1 SyntaxKind.IdentifierToken st (by omega)
      clear d1 d2
      rw [hmi] at hpos hdiag hk1 ⊢
      simp only at hpos hdiag hk1 ⊢
      rw [if_neg (hC.test_ne _ hC.not_lparen _ hpos hk1)]
      exact ⟨_, rfl, by simp only [SyntaxNode.shape]⟩
  all_goals
    have d1 := match_token_position P1 SyntaxKind.LParenToken (P1.next_token st).2
    have d2 := match_token_diagnostics_length P1 SyntaxKind.LParenToken (P1.next_token st).2
    simp only [next_token_snd] at h d1 d2 ⊢
    split at h
    · rename_i hk2
      simp only [Option.some.injEq, Prod.mk.injEq] at h
      obtain ⟨rfl, rfl⟩ := h
      simp only at hpos hdiag
      obtain ⟨hkl, hml⟩ := match_token_of_no_diagnostic P1 SyntaxKind.LParenToken
        ⟨st.position + 1, st.diagnostics⟩ (by dsimp only; omega)
      clear d1 d2
      rw [hml] at hk2 hpos hdiag
      simp only at hk2 hpos hdiag
      rw [hC.match_token _ _ (by simp only; omega), hml]
      simp only
      rw [hC.current _ (by simp only; omega), if_pos hk2]
      exact ⟨_, rfl, by simp only [SyntaxNode.shape, shape_list]⟩
    · rename_i hk2
      split at h
      · cases h
      · rename_i e s2 he
        split at h
        · cases h
        · rename_i args s3 hcm
          simp only [Option.some.injEq, Prod.mk.injEq] at h
          obtain ⟨rfl, rfl⟩ := h
          have m1 := mg_expr _ _ _ _ he
          have m2 := mg_comma _ _ _ _ hcm
          have m3 := match_token_position P1 SyntaxKind.RParenToken s3
          have m4 := match_token_diagnostics_length P1 SyntaxKind.RParenToken s3
          obtain ⟨hk3, hm⟩ :=
            match_token_of_no_diagnostic P1 SyntaxKind.RParenToken s3 (by omega)
          obtain ⟨hkl, hml⟩ := match_token_of_no_diagnostic P1 SyntaxKind.LParenToken
            ⟨st.position + 1, st.diagnostics⟩ (by dsimp only; omega)
          clear d1 d2
          rw [hm] at hpos hdiag ⊢
          rw [hml] at hk2 he m1
          simp only at hpos hdiag hk2 he m1
          rw [hC.match_token _ _ (by simp only; omega), hml]
          simp only
          rw [hC.current _ (by simp only; omega), if_neg hk2]
          obtain ⟨eB, hB, hsh⟩ := ih_expr _ _ _ _ he (by omega) (by simp only; omega)
          rw [hB]
          simp only
          obtain ⟨lB, hlB, hshl⟩ := ih_comma [e] [eB] _ _ _
            (by simp only [shape_list, hsh]) hcm (by omega) (by omega)
          rw [hlB]
          simp only
          rw [hC.match_token _ s3 (by omega), hm]
          exact ⟨_, rfl, by simp only [SyntaxNode.shape, hshl]⟩

theorem prefix_expression (E : Collaborators) (P1 P2 : Parser) (n : Nat)
    (hC : Continues E P1 P2 n) (fuel : Nat)
    (ih_expr : ∀ prec st rA st', parse_expression E P1 fuel prec st = some (rA, st') →
      st'.position ≤ n → st'.diagnostics.length = st.diagnostics.length →
      ∃ rB, parse_expression E P2 fuel prec st = some (rB, st') ∧ rB.shape = rA.shape)
    (ih_bin : ∀ prec leftA leftB st rA st', leftB.shape = leftA.shape →
      parse_binary_loop E P1 fuel prec leftA st = some (rA, st') →
      st'.position ≤ n → st'.diagnostics.length = st.diagnostics.length →
      ∃ rB, parse_binary_loop E P2 fuel prec leftB st = some (rB, st') ∧ rB.shape = rA.shape)
    (ih_mol : ∀ st rA st', parse_molecule E P1 fuel st = some (rA, st') →
      st'.position ≤ n → st'.diagnostics.length = st.diagnostics.length →
      ∃ rB, parse_molecule E P2 fuel st = some (rB, st') ∧ rB.shape = rA.shape) :
    ∀ prec st rA st', parse_expression E P1 (fuel + 1) prec st = some (rA, st') →
      st'.position ≤ n → st'.diagnostics.length = st.diagnostics.length →
      ∃ rB, parse_expression E P2 (fuel + 1) prec st = some (rB, st') ∧
        rB.shape = rA.shape := by
  have mg := expression_level_progress E P1 fuel
  simp only [State.advances, State.extends] at mg
  obtain ⟨mg_expr, mg_bin, mg_mol, mg_idx, mg_comma, mg_atom⟩ := mg
  intro prec st rA st' h hpos hdiag
  have mA := (expression_level_progress E P1 (fuel + 1)).1 _ _ _ _ h
  simp only [State.advances] at mA
  have hlt : st.position < n := by omega
  clear mA
  rw [parse_expression]
  simp only [parse_expression] at h
  simp only [hC.current st hlt, hC.next_token st hlt]
  split at h
  · -- a unary operator
    rename_i hu
    rw [if_pos hu]
    simp only [next_token_snd, next_token_fst] at h ⊢
    split at h
    · cases h
    · rename_i e s2 he
      have m1 := mg_expr _ _ _ _ he
      have m2 := mg_bin _ _ _ _ _ h
      simp only at m1
      obtain ⟨eB, hB, hsh⟩ := ih_expr _ _ _ _ he (by omega) (by simp only; omega)
      rw [hB]
      simp only
      exact ih_bin _ _ _ _ _ _ (by simp only [SyntaxNode.shape, hsh]) h hpos (by omega)
  · rename_i hu
    rw [if_neg hu]
    split at h
    case h_7 =>
      -- an identifier: an assignment or a molecule
      split at h
      · rename_i hla
        simp only [next_token_snd, next_token_fst] at h ⊢
        split at h
        · cases h
        · rename_i e s2 he
          simp only [Option.some.injEq, Prod.mk.injEq] at h
          obtain ⟨rfl, rfl⟩ := h
          have m1 := mg_expr _ _ _ _ he
          simp only at m1
          rw [hC.look_ahead st (by omega), if_pos hla]
          obtain ⟨eB, hB, hsh⟩ := ih_expr _ _ _ _ he hpos (by simp only; omega)
          rw [hB]
          exact ⟨_, rfl, by simp only [SyntaxNode.shape, hsh]⟩
      · rename_i hla
        have hlaB : (P2.look_ahead st).kind ≠ SyntaxKind.EqualsToken := by
          rcases Nat.lt_or_ge (st.position + 1) n with h1 | h1
          · rw [hC.look_ahead st h1]; exact hla
          · have : st.position + 1 = n := by omega
            rw [look_ahead_eq_token_at, this]; exact hC.not_equals
        rw [if_neg hlaB]
        split at h
        · cases h
        · rename_i left s1 hmol
          have m1 := mg_mol _ _ _ hmol
          have m2 := mg_bin _ _ _ _ _ h
          obtain ⟨leftB, hB, hsh⟩ := ih_mol _ _ _ hmol (by omega) (by omega)
          rw [hB]
          simp only
          exact ih_bin _ _ _ _ _ _ hsh h hpos (by omega)
    case h_8 =>
      split at h
      · cases h
      · rename_i left s1 hmol
        have m1 := mg_mol _ _ _ hmol
        have m2 := mg_bin _ _ _ _ _ h
        obtain ⟨leftB, hB, hsh⟩ := ih_mol _ _ _ hmol (by omega) (by omega)
        rw [hB]
        simp only
        exact ih_bin _ _ _ _ _ _ hsh h hpos (by omega)
    all_goals
      rename_i hk
      have d1 := match_token_position P1 SyntaxKind.IdentifierToken (P1.next_token st).2
      have d2 := match_token_diagnostics_length P1 SyntaxKind.IdentifierToken (P1.next_token st).2
      simp only [next_token_snd, next_token_fst] at h d1 d2 ⊢
      split at h
      · rename_i hk2
        simp only [Option.some.injEq, Prod.mk.injEq] at h
        obtain ⟨rfl, rfl⟩ := h
        obtain ⟨hki, hmi⟩ := match_token_of_no_diagnostic P1 SyntaxKind.IdentifierToken
          ⟨st.position + 1, st.diagnostics⟩ (by dsimp only; omega)
        clear d1 d2
        rw [hmi] at hk2 hpos hdiag
        simp only at hk2 hpos hdiag
        have hne : st.position + 1 + 1 ≠ n := fun hq =>
          hC.no_declaration st.position (by omega)
            (by rw [← current_eq_token_at, hk]; simp [is_type_keyword])
        rw [hC.match_token _ _ (by simp only; omega), hmi]
        simp only
        rw [hC.current _ (by simp only; omega), if_pos hk2]
        exact ⟨_, rfl, by simp only [SyntaxNode.shape]⟩
      · rename_i hk2
        split at h
        · cases h
        · rename_i e s2 he
          simp only [Option.some.injEq, Prod.mk.injEq] at h
          obtain ⟨rfl, rfl⟩ := h
          have m1 := mg_expr _ _ _ _ he
          have e1 := match_token_position P1 SyntaxKind.EqualsToken
            (P1.match_token SyntaxKind.IdentifierToken ⟨st.position + 1, st.diagnostics⟩).2
          have e2 := match_token_diagnostics_length P1 SyntaxKind.EqualsToken
            (P1.match_token SyntaxKind.IdentifierToken ⟨st.position + 1, st.diagnostics⟩).2
          obtain ⟨hki, hmi⟩ := match_token_of_no_diagnostic P1 SyntaxKind.IdentifierToken
            ⟨st.position + 1, st.diagnostics⟩ (by dsimp only; omega)
          clear d1 d2
          rw [hmi] at hk2 he m1 e1 e2
          simp only at hk2 he m1 e1 e2
          obtain ⟨hke, hme⟩ := match_token_of_no_diagnostic P1 SyntaxKind.EqualsToken
            ⟨st.position + 1 + 1, st.diagnostics⟩ (by dsimp only; omega)
          clear e1 e2
          rw [hme] at he m1
          simp only at he m1
          rw [hC.match_token _ _ (by simp only; omega), hmi]
          simp only
          rw [hC.current _ (by simp only; omega), if_neg hk2,
            hC.match_token _ _ (by simp only; omega), hme]
          simp only
          obtain ⟨eB, hB, hsh⟩ := ih_expr _ _ _ _ he hpos (by simp only; omega)
          rw [hB]
          exact ⟨_, rfl, by simp only [SyntaxNode.shape, shape_list, hsh]⟩

/-- The simulation: a run of an expression-level function on `P1` that ends at or
before index `n` and records no diagnostic is matched, from the same state, by
a run on `P2` that ends in the same state with a tree of the same shape. -/
theorem expression_level_simulation (E : Collaborators) (P1 P2 : Parser) (n : Nat)
    (hC : Continues E P1 P2 n) (fuel : Nat) :
    (∀ prec st rA st', parse_expression E P1 fuel prec st = some (rA, st') →
      st'.position ≤ n → st'.diagnostics.length = st.diagnostics.length →
      ∃ rB, parse_expression E P2 fuel prec st = some (rB, st') ∧ rB.shape = rA.shape) ∧
    (∀ prec leftA leftB st rA st', leftB.shape = leftA.shape →
      parse_binary_loop E P1 fuel prec leftA st = some (rA, st') →
      st'.position ≤ n → st'.diagnostics.length = st.diagnostics.length →
      ∃ rB, parse_binary_loop E P2 fuel prec leftB st = some (rB, st') ∧
        rB.shape = rA.shape) ∧
    (∀ st rA st', parse_molecule E P1 fuel st = some (rA, st') →
      st'.position ≤ n → st'.diagnostics.length = st.diagnostics.length →
      ∃ rB, parse_molecule E P2 fuel st = some (rB, st') ∧ rB.shape = rA.shape) ∧
    (∀ leftA leftB st rA st', leftB.shape = leftA.shape →
      parse_index_loop E P1 fuel leftA st = some (rA, st') →
      st'.position ≤ n → st'.diagnostics.length = st.diagnostics.length →
      ∃ rB, parse_index_loop E P2 fuel leftB st = some (rB, st') ∧ rB.shape = rA.shape) ∧
    (∀ lA lB st rA st', shape_list lB = shape_list lA →
      parse_comma_loop E P1 fuel lA st = some (rA, st') →
      st'.position ≤ n → st'.diagnostics.length = st.diagnostics.length →
      ∃ rB, parse_comma_loop E P2 fuel lB st = some (rB, st') ∧
        shape_list rB = shape_list rA) ∧
    (∀ st rA st', parse_atom E P1 fuel st = some (rA, st') →
      st'.position ≤ n → st'.diagnostics.length = st.diagnostics.length →
      ∃ rB, parse_atom E P2 fuel st = some (rB, st') ∧ rB.shape = rA.shape) := by
  induction fuel with
  | zero =>
    simp [parse_expression, parse_binary_loop, parse_molecule, parse_index_loop,
      parse_comma_loop, parse_atom]
  | succ fuel ih =>
    obtain ⟨ih_expr, ih_bin, ih_mol, ih_idx, ih_comma, ih_atom⟩ := ih
    obtain ⟨l_bin, l_idx, l_comma⟩ :=
      prefix_loops E P1 P2 n hC fuel ih_expr ih_bin ih_idx ih_comma
    exact ⟨prefix_expression E P1 P2 n hC fuel ih_expr ih_bin ih_mol, l_bin,
      prefix_molecule E P1 P2 n hC fuel ih_idx ih_atom, l_idx, l_comma,
      prefix_atom E P1 P2 n hC fuel ih_expr ih_comma⟩


/-! ## C10: a missing semicolon -/

theorem token_at_of_getElem? (P : Parser) (i : Nat) (t : SyntaxToken)
    (h : P.tokens[i]? = some t) : P.token_at i = t := by
  unfold Parser.token_at
  exact peek_eq_of_getElem? P ⟨i, []⟩ 0 t h

theorem parse_expression_fuel_mono (E : Collaborators) (P : Parser) (fuel fuel' : Nat)
    (hle : fuel ≤ fuel') (prec : Int) (st : State) (x : SyntaxNode × State)
    (h : parse_expression E P fuel prec st = some x) :
    parse_expression E P fuel' prec st = some x := by
  induction hle with
  | refl => exact h
  | step _ ih => exact (expression_level_fuel_succ E P _).1 _ _ _ ih

theorem parse_statement_expression (E : Collaborators) (P : Parser) (fuel : Nat) (st : State)
    (h : ¬ is_statement_start (P.current st).kind) :
    parse_statement E P (fuel + 1) st =
      match parse_expression E P fuel default_precedence st with
      | none => none
      | some (expression, st) =>
        some (expression, (P.match_token SyntaxKind.SemicolonToken st).2) := by
  rw [parse_statement]
  split <;> first
    | (exfalso; apply h; unfold is_statement_start; simp [*])
    | rfl

theorem top_loop_end (E : Collaborators) (P : Parser) (fuel : Nat) (start : Position)
    (seq : List SyntaxNode) (st : State)
    (h : (P.current st).kind = SyntaxKind.EndOfFileToken) :
    parse_program_top_loop E P (fuel + 1) start seq st =
      some (SyntaxNode.Sequence seq (P.span_to_current start st) P.show_return, st) := by
  rw [parse_program_top_loop]
  simp [h]

theorem top_loop_step (E : Collaborators) (P : Parser) (fuel : Nat) (start : Position)
    (seq : List SyntaxNode) (st : State) (statement : SyntaxNode) (s1 : State)
    (h : (P.current st).kind ≠ SyntaxKind.EndOfFileToken)
    (hs : parse_statement E P fuel st = some (statement, s1))
    (hc : ¬ is_stray_closer (P.current s1).kind) :
    parse_program_top_loop E P (fuel + 1) start seq st =
      parse_program_top_loop E P fuel start (seq ++ [statement]) s1 := by
  rw [parse_program_top_loop]
  simp only [h, ne_eq, not_false_eq_true, if_true, hs]
  split <;> first
    | (exfalso; apply hc; unfold is_stray_closer; simp [*])
    | rfl

theorem top_loop_skip (E : Collaborators) (P : Parser) (fuel : Nat) (start : Position)
    (seq : List SyntaxNode) (st : State) (statement : SyntaxNode) (s1 : State)
    (h : (P.current st).kind ≠ SyntaxKind.EndOfFileToken)
    (hs : parse_statement E P fuel st = some (statement, s1))
    (hc : is_stray_closer (P.current s1).kind) :
    parse_program_top_loop E P (fuel + 1) start seq st =
      parse_program_top_loop E P fuel start (seq ++ [statement])
        ⟨s1.position + 1, s1.diagnostics ++
          [⟨(P.current s1).kind, SyntaxKind.SemicolonToken, (P.current s1).pos⟩]⟩ := by
  rw [parse_program_top_loop]
  simp only [h, ne_eq, not_false_eq_true, if_true, hs]
  rcases hc with hc | hc | hc | hc <;> simp only [hc] <;> rfl

/-- The top-level loop returns a sequence that starts with the statements read
before it. -/
theorem top_loop_children (E : Collaborators) (P : Parser) (fuel : Nat) :
    ∀ (start : Position) (seq : List SyntaxNode) (st : State) (node : SyntaxNode) (st' : State),
    parse_program_top_loop E P fuel start seq st = some (node, st') →
    ∃ more pos flag, node = SyntaxNode.Sequence (seq ++ more) pos flag := by
  induction fuel with
  | zero => intro start seq st node st' h; simp [parse_program_top_loop] at h
  | succ fuel ih =>
    intro start seq st node st' h
    by_cases hk : (P.current st).kind = SyntaxKind.EndOfFileToken
    · rw [top_loop_end E P fuel start seq st hk] at h
      simp only [Option.some.injEq, Prod.mk.injEq] at h
      exact ⟨[], _, _, by rw [← h.1, List.append_nil]⟩
    · cases hs : parse_statement E P fuel st with
      | none =>
        rw [parse_program_top_loop] at h
        simp [hk, hs] at h
      | some x =>
        obtain ⟨statement, s1⟩ := x
        by_cases hc : is_stray_closer (P.current s1).kind
        · rw [top_loop_skip E P fuel start seq st statement s1 hk hs hc] at h
          obtain ⟨more, pos, flag, hn⟩ := ih _ _ _ _ _ h
          exact ⟨statement :: more, pos, flag, by rw [hn, List.append_assoc]; rfl⟩
        · rw [top_loop_step E P fuel start seq st statement s1 hk hs hc] at h
          obtain ⟨more, pos, flag, hn⟩ := ih _ _ _ _ _ h
          exact ⟨statement :: more, pos, flag, by rw [hn, List.append_assoc]; rfl⟩

/-- When the top-level loop returns exactly the statements read before it, it
has stopped at once, on an end-of-file token. -/
theorem top_loop_no_more (E : Collaborators) (P : Parser) (fuel : Nat) (start : Position)
    (seq : List SyntaxNode) (st : State) (pos : Position) (flag : Bool) (st' : State)
    (h : parse_program_top_loop E P fuel start seq st =
      some (SyntaxNode.Sequence seq pos flag, st')) :
    st' = st ∧ (P.current st).kind = SyntaxKind.EndOfFileToken := by
  cases fuel with
  | zero => simp [parse_program_top_loop] at h
  | succ fuel =>
    by_cases hk : (P.current st).kind = SyntaxKind.EndOfFileToken
    · rw [top_loop_end E P fuel start seq st hk] at h
      simp only [Option.some.injEq, Prod.mk.injEq] at h
      exact ⟨h.2.symm, hk⟩
    · exfalso
      cases hs : parse_statement E P fuel st with
      | none =>
        rw [parse_program_top_loop] at h
        simp [hk, hs] at h
      | some x =>
        obtain ⟨statement, s1⟩ := x
        have key : ∀ s, parse_program_top_loop E P fuel start (seq ++ [statement]) s =
            some (SyntaxNode.Sequence seq pos flag, st') → False := by
          intro s hh
          obtain ⟨more, pos', flag', hn⟩ := top_loop_children E P fuel _ _ _ _ _ hh
          have hlen := congrArg (fun x => match x with
            | SyntaxNode.Sequence l _ _ => l.length
            | _ => 0) hn
          simp only [List.length_append, List.length_cons, List.length_nil] at hlen
          omega
        by_cases hc : is_stray_closer (P.current s1).kind
        · rw [top_loop_skip E P fuel start seq st statement s1 hk hs hc] at h
          exact key _ h
        · rw [top_loop_step E P fuel start seq st statement s1 hk hs hc] at h
          exact key _ h

/-- What a parse of `e ; EOF` that yields one child says about the expression
parser: it returns that child at the `;`, with no diagnostic. -/
theorem expression_statement_parse (E : Collaborators) (show_return : Bool)
    (e : List SyntaxToken) (semi eof : SyntaxToken) (n : SyntaxNode)
    (h : is_expression_statement E show_return e semi eof n) :
    ∃ t rest, e = t :: rest ∧ ¬ is_statement_start t.kind ∧
      t.kind ≠ SyntaxKind.EndOfFileToken ∧
      ∃ fuel, parse_expression E ⟨e ++ [semi, eof], show_return⟩ fuel default_precedence
        ⟨0, []⟩ = some (n, ⟨e.length, []⟩) := by
  obtain ⟨⟨t, rest, he, hstart⟩, fuel, pos, flag, hp⟩ := h
  refine ⟨t, rest, he, hstart, ?_⟩
  generalize hP : (⟨e ++ [semi, eof], show_return⟩ : Parser) = P at hp ⊢
  have hcur : P.current ⟨0, []⟩ = t := by
    apply peek_eq_of_getElem?
    rw [← hP, he]
    simp
  unfold parse at hp
  cases fuel with
  | zero => simp [parse_program] at hp
  | succ fuel =>
    rw [parse_program] at hp
    simp only [Bool.false_eq_true, if_false] at hp
    cases hl : parse_program_top_loop E P fuel (P.current ⟨0, []⟩).pos [] ⟨0, []⟩ with
    | none => rw [hl] at hp; cases hp
    | some x =>
      obtain ⟨program, s⟩ := x
      rw [hl] at hp
      simp only [Option.some.injEq, Prod.mk.injEq] at hp
      obtain ⟨rfl, hfin⟩ := hp
      have f1 := match_token_diagnostics_length P SyntaxKind.EndOfFileToken s
      have f2 := match_token_position P SyntaxKind.EndOfFileToken s
      rw [hfin] at f1 f2
      simp only [List.length_nil] at f1 f2
      cases fuel with
      | zero => simp [parse_program_top_loop] at hl
      | succ fuel =>
        by_cases hk : (P.current ⟨0, []⟩).kind = SyntaxKind.EndOfFileToken
        · rw [top_loop_end E P fuel _ _ _ hk] at hl
          simp at hl
        · cases hs : parse_statement E P fuel ⟨0, []⟩ with
          | none =>
            rw [parse_program_top_loop] at hl
            simp [hk, hs] at hl
          | some x =>
            obtain ⟨statement, s1⟩ := x
            have key : ∀ s1', parse_program_top_loop E P fuel (P.current ⟨0, []⟩).pos
                ([] ++ [statement]) s1' = some (SyntaxNode.Sequence [n] pos flag, s) →
                statement = n ∧ s = s1' ∧ (P.current s1').kind = SyntaxKind.EndOfFileToken := by
              intro s1' hh
              obtain ⟨more, pos', flag', hn⟩ := top_loop_children E P fuel _ _ _ _ _ hh
              simp only [List.nil_append, List.singleton_append, SyntaxNode.Sequence.injEq,
                List.cons.injEq] at hn
              obtain ⟨⟨rfl, hmore⟩, -, -⟩ := hn
              have := top_loop_no_more E P fuel _ _ _ _ _ _ hh
              exact ⟨rfl, this.1, this.2⟩
            have hs1 : statement = n ∧ s = s1 ∧
                (P.current s1).kind = SyntaxKind.EndOfFileToken := by
              by_cases hc : is_stray_closer (P.current s1).kind
              · rw [top_loop_skip E P fuel _ _ _ statement s1 hk hs hc] at hl
                obtain ⟨-, hss, -⟩ := key _ hl
                rw [hss] at f1
                simp only [List.length_append, List.length_singleton] at f1
                omega
              · rw [top_loop_step E P fuel _ _ _ statement s1 hk hs hc] at hl
                exact key _ hl
            obtain ⟨rfl, rfl, hk1⟩ := hs1
            rw [if_pos hk1] at f1 f2
            cases fuel with
            | zero => simp [parse_statement] at hs
            | succ fuel =>
              rw [parse_statement_expression E P fuel _ (by rw [hcur]; exact hstart)] at hs
              cases hx : parse_expression E P fuel default_precedence ⟨0, []⟩ with
              | none => rw [hx] at hs; cases hs
              | some y =>
                obtain ⟨expression, s0⟩ := y
                rw [hx] at hs
                simp only [Option.some.injEq, Prod.mk.injEq] at hs
                obtain ⟨rfl, hs0⟩ := hs
                obtain ⟨-, hm⟩ := match_token_of_no_diagnostic P SyntaxKind.SemicolonToken s0
                  (by rw [hs0]; omega)
                rw [hm] at hs0
                refine ⟨by rw [← hcur]; exact hk, fuel, ?_⟩
                have hpos : s0.position = e.length := by
                  have := congrArg State.position hs0
                  simp only at this
                  omega
                have hdia : s0.diagnostics = [] := by
                  have := congrArg (fun x => x.diagnostics.length) hs0
                  simp only at this
                  exact List.eq_nil_of_length_eq_zero (by omega)
                have : s0 = ⟨e.length, []⟩ := by
                  cases s0
                  simp only at hpos hdia
                  rw [hpos, hdia]
                rw [← this]
                exact hx

theorem token_at_append_left (show_return : Bool) (pre L : List SyntaxToken) (i : Nat)
    (h : i < pre.length) :
    (⟨pre ++ L, show_return⟩ : Parser).token_at i = pre.getD i SyntaxToken.undefined := by
  apply token_at_of_getElem?
  rw [List.getElem?_append_left h, List.getD_eq_getElem?_getD]
  rw [List.getElem?_eq_getElem h]
  rfl

theorem token_at_append_right (show_return : Bool) (pre L : List SyntaxToken) (hL : L ≠ [])
    (i : Nat) :
    (⟨pre ++ L, show_return⟩ : Parser).token_at (i + pre.length) =
      (⟨L, show_return⟩ : Parser).token_at i := by
  have hpos : 0 < L.length := List.length_pos.mpr hL
  unfold Parser.token_at Parser.peek
  simp only [Nat.add_zero, List.length_append, ge_iff_le]
  by_cases h : L.length ≤ i
  · rw [if_pos (by omega), if_pos h, List.getD_append_right _ _ _ _ (by omega)]
    congr 1
    omega
  · rw [if_neg (by omega), if_neg h, List.getD_append_right _ _ _ _ (by omega)]
    congr 1
    omega

theorem list_eq_take_append_pair (l : List SyntaxToken) (q : Nat) (h : q + 2 = l.length) :
    ∃ kw last, l = l.take q ++ [kw, last] ∧ kw = l.getD q SyntaxToken.undefined := by
  have h0 : q < l.length := by omega
  have h1 : q + 1 < l.length := by omega
  refine ⟨l[q], l[q + 1], ?_, ?_⟩
  · have hd : l.drop q = [l[q], l[q + 1]] := by
      rw [List.drop_eq_getElem_cons h0, List.drop_eq_getElem_cons h1,
        List.drop_of_length_le (by omega)]
    conv_lhs => rw [← List.take_append_drop q l, hd]
  · rw [List.getD_eq_getElem?_getD, List.getElem?_eq_getElem h0]
    rfl

/-- C10, as amended: for two well-formed expression statements `e1` and `e2`
(token sequences without their `;`), where `e1` does not end in a declaration
without initialiser (a type keyword and one more token) and the first token
of `e2` is not one the parser joins to the statement before it (a binary
operator, `[`, `(`, `=`) or skips (`)`, `]`, `}`, `,`), parsing `e1 e2 ; EOF`
returns the top-level sequence whose children are the tree of `e1`, up to
source spans, and the tree of `e2`, consumes every token, and records exactly
one diagnostic: the first token of `e2` found where a `;` was expected. -/
theorem missing_semicolon_tolerance (E : Collaborators) (show_return : Bool)
    (e1 e2 : List SyntaxToken) (semi eof t : SyntaxToken) (rest : List SyntaxToken)
    (n1 n2 : SyntaxNode)
    (hsemi : semi.kind = SyntaxKind.SemicolonToken)
    (heof : eof.kind = SyntaxKind.EndOfFileToken)
    (h1 : is_expression_statement E show_return e1 semi eof n1)
    (h2 : is_expression_statement E show_return e2 semi eof n2)
    (he2 : e2 = t :: rest)
    (ht : ¬ joins_previous_statement E t.kind)
    (hdecl : ∀ pre kw last, e1 = pre ++ [kw, last] → ¬ is_type_keyword kw.kind) :
    ∃ fuel n1' pos,
      parse E ⟨e1 ++ e2 ++ [semi, eof], show_return⟩ fuel ⟨0, []⟩ =
        some (SyntaxNode.Sequence [n1', n2] pos show_return,
          ⟨e1.length + e2.length + 2, [⟨t.kind, SyntaxKind.SemicolonToken, t.pos⟩]⟩) ∧
      n1'.shape = n1.shape := by
  obtain ⟨t1, rest1, he1, hstart1, hne1, f1, hx1⟩ :=
    expression_statement_parse E show_return e1 semi eof n1 h1
  obtain ⟨t2, rest2, he2', hstart2, hne2, f2, hx2⟩ :=
    expression_statement_parse E show_return e2 semi eof n2 h2
  obtain rfl : t = t2 := by rw [he2] at he2'; exact (List.cons.inj he2').1
  clear he2'
  simp only [joins_previous_statement, is_stray_closer, not_or, ne_eq, not_not] at ht
  obtain ⟨hbin, hsq, hlp, heq, hrp, hrs, hrc, hcm⟩ := ht
  -- the three buffers
  have hassoc : e1 ++ e2 ++ [semi, eof] = e1 ++ (e2 ++ [semi, eof]) := List.append_assoc _ _ _
  rw [hassoc]
  generalize hP1 : (⟨e1 ++ [semi, eof], show_return⟩ : Parser) = P1 at hx1
  generalize hP3 : (⟨e2 ++ [semi, eof], show_return⟩ : Parser) = P3 at hx2
  generalize hP2 : (⟨e1 ++ (e2 ++ [semi, eof]), show_return⟩ : Parser) = P2
  have hne : e2 ++ [semi, eof] ≠ [] := by rw [he2]; simp
  have hshift : ∀ i, P2.token_at (i + e1.length) = P3.token_at i := by
    intro i; rw [← hP2, ← hP3]
    exact token_at_append_right show_return e1 _ hne i
  have tok3 : ∀ i x, (e2 ++ [semi, eof])[i]? = some x → P2.token_at (i + e1.length) = x := by
    intro i x hi
    rw [hshift, ← hP3]
    exact token_at_of_getElem? _ i x hi
  have tok_t : P2.token_at e1.length = t := by
    have := tok3 0 t (by rw [he2]; simp)
    rwa [Nat.zero_add] at this
  have tok_semi : P2.token_at (e1.length + e2.length) = semi := by
    have := tok3 e2.length semi
      (by rw [List.getElem?_append_right (le_refl _), Nat.sub_self]; rfl)
    rwa [Nat.add_comm] at this
  have tok_eof : P2.token_at (e1.length + e2.length + 1) = eof := by
    have := tok3 (e2.length + 1) eof
      (by rw [List.getElem?_append_right (Nat.le_succ _), Nat.succ_sub (le_refl _),
        Nat.sub_self]; rfl)
    rwa [show e2.length + 1 + e1.length = e1.length + e2.length + 1 by omega] at this
  have tok_first : P2.token_at 0 = t1 := by
    rw [← hP2]
    apply token_at_of_getElem?
    rw [he1]; simp
  -- the continuation of `e1`
  have hC : Continues E P1 P2 e1.length := by
    refine ⟨?_, ?_, ?_, ?_, ?_, ?_, ?_⟩
    · intro i hi
      rw [← hP1, ← hP2, token_at_append_left _ _ _ _ hi, token_at_append_left _ _ _ _ hi]
    · rw [tok_t]; exact hbin
    · rw [tok_t]; exact hsq
    · rw [tok_t]; exact hlp
    · rw [tok_t]; exact hcm
    · rw [tok_t]; exact heq
    · intro q hq
      obtain ⟨kw, last, hl, hkw⟩ := list_eq_take_append_pair e1 q hq
      have := hdecl _ _ _ hl
      rw [← hP1, token_at_append_left _ _ _ _ (by omega), ← hkw]
      exact this
  obtain ⟨n1', hx1', hshape⟩ :=
    (expression_level_simulation E P1 P2 e1.length hC f1).1 _ _ _ _ hx1 (le_refl _) rfl
  have hx2' := (expression_level_shift E P3 P2 e1.length
    [⟨t.kind, SyntaxKind.SemicolonToken, t.pos⟩] hshift f2).1 _ _ _ hx2
  simp only [State.shift, shift_result, Nat.zero_add, List.append_nil] at hx2'
  -- the run on the joined buffer
  have hA := parse_expression_fuel_mono E P2 f1 (max f1 f2 + 1)
    (by have := le_max_left f1 f2; omega) _ _ _ hx1'
  have hB := parse_expression_fuel_mono E P2 f2 (max f1 f2) (le_max_right f1 f2) _ _ _ hx2'
  generalize max f1 f2 = m at hA hB
  have c0 : P2.current ⟨0, []⟩ = t1 := by rw [current_eq_token_at]; exact tok_first
  have c1 : ∀ d, P2.current ⟨e1.length, d⟩ = t := by
    intro d; rw [current_eq_token_at]; exact tok_t
  have c2 : ∀ d, P2.current ⟨e2.length + e1.length, d⟩ = semi := by
    intro d; rw [current_eq_token_at, Nat.add_comm]; exact tok_semi
  have c3 : ∀ d, P2.current ⟨e2.length + e1.length + 1, d⟩ = eof := by
    intro d
    rw [current_eq_token_at]
    simp only
    rw [show e2.length + e1.length + 1 = e1.length + e2.length + 1 by omega]
    exact tok_eof
  have hsemi_t : t.kind ≠ SyntaxKind.SemicolonToken := fun h =>
    hstart2 (by unfold is_statement_start; simp [h])
  -- the first statement
  have s1 : parse_statement E P2 (m + 2) ⟨0, []⟩ =
      some (n1', ⟨e1.length, [⟨t.kind, SyntaxKind.SemicolonToken, t.pos⟩]⟩) := by
    rw [parse_statement_expression E P2 (m + 1) _ (by rw [c0]; exact hstart1), hA]
    simp only [Parser.match_token, c1, if_neg hsemi_t, report_unexpected_token,
      List.nil_append]
  -- the second statement
  have s2 : parse_statement E P2 (m + 1) ⟨e1.length, [⟨t.kind, SyntaxKind.SemicolonToken, t.pos⟩]⟩ =
      some (n2, ⟨e2.length + e1.length + 1, [⟨t.kind, SyntaxKind.SemicolonToken, t.pos⟩]⟩) := by
    rw [parse_statement_expression E P2 m _ (by rw [c1]; exact hstart2), hB]
    simp only [Parser.match_token, c2, hsemi, if_true, Parser.next_token]
  refine ⟨m + 4, n1', P2.span_to_current (P2.current ⟨0, []⟩).pos
    ⟨e2.length + e1.length + 1, [⟨t.kind, SyntaxKind.SemicolonToken, t.pos⟩]⟩, ?_, hshape⟩
  unfold parse
  rw [parse_program]
  simp only [Bool.false_eq_true, if_false]
  rw [top_loop_step E P2 (m + 2) _ _ _ _ _ (by rw [c0]; exact hne1) s1
      (by rw [c1]; unfold is_stray_closer; simp [hrp, hrs, hrc, hcm]),
    top_loop_step E P2 (m + 1) _ _ _ _ _ (by rw [c1]; exact hne2) s2
      (by rw [c3]; unfold is_stray_closer; simp [heof]),
    top_loop_end E P2 m _ _ _ (by rw [c3]; exact heof)]
  have hsr : P2.show_return = show_return := by rw [← hP2]
  simp only [Parser.match_token, c3, heof, if_true, Parser.next_token, List.nil_append,
    List.cons_append, hsr]
  rw [show e2.length + e1.length + 1 + 1 = e1.length + e2.length + 2 by omega]

/-- The run of `parse` on a buffer whose first statement is an expression
statement followed by `;` and the end of file: with enough fuel it returns the
sequence of that one expression. -/
theorem parse_one_expression_statement (E : Collaborators) (P : Parser) (m : Nat)
    (n : SyntaxNode) (s : State)
    (hstart : ¬ is_statement_start (P.current ⟨0, []⟩).kind)
    (hne : (P.current ⟨0, []⟩).kind ≠ SyntaxKind.EndOfFileToken)
    (hx : parse_expression E P m default_precedence ⟨0, []⟩ = some (n, s))
    (hsemi : (P.current s).kind = SyntaxKind.SemicolonToken)
    (heof : (P.current ⟨s.position + 1, s.diagnostics⟩).kind = SyntaxKind.EndOfFileToken)
    (fuel : Nat) (hfuel : m + 3 ≤ fuel) :
    parse E P fuel ⟨0, []⟩ =
      some (SyntaxNode.Sequence [n]
          (P.span_to_current (P.current ⟨0, []⟩).pos ⟨s.position + 1, s.diagnostics⟩)
          P.show_return, ⟨s.position + 1 + 1, s.diagnostics⟩) := by
  obtain ⟨k, rfl⟩ : ∃ k, fuel = k + 3 := ⟨fuel - 3, by omega⟩
  have hx' := parse_expression_fuel_mono E P m k (by omega) _ _ _ hx
  have hs : parse_statement E P (k + 1) ⟨0, []⟩ =
      some (n, ⟨s.position + 1, s.diagnostics⟩) := by
    rw [parse_statement_expression E P k _ hstart, hx']
    simp only [Parser.match_token, hsemi, if_true, Parser.next_token]
  unfold parse
  rw [parse_program]
  simp only [Bool.false_eq_true, if_false]
  rw [top_loop_step E P (k + 1) _ _ _ _ _ hne hs (by unfold is_stray_closer; simp [heof]),
    top_loop_end E P k _ _ _ heof]
  simp only [Parser.match_token, heof, if_true, Parser.next_token, List.nil_append]

/-- The run of `parse` on a buffer whose first expression statement lacks its
`;` and whose second one is followed by `;` and the end of file: with enough
fuel it returns the sequence of the two expressions. -/
theorem parse_two_expression_statements (E : Collaborators) (P : Parser) (m : Nat)
    (n1 n2 : SyntaxNode) (s1 s2 : State)
    (hstart1 : ¬ is_statement_start (P.current ⟨0, []⟩).kind)
    (hne1 : (P.current ⟨0, []⟩).kind ≠ SyntaxKind.EndOfFileToken)
    (hA : parse_expression E P m default_precedence ⟨0, []⟩ = some (n1, s1))
    (hstart2 : ¬ is_statement_start (P.current s1).kind)
    (hne2 : (P.current s1).kind ≠ SyntaxKind.EndOfFileToken)
    (hclose : ¬ is_stray_closer (P.current s1).kind)
    (hB : parse_expression E P m default_precedence
      (report_unexpected_token (P.current s1).kind SyntaxKind.SemicolonToken
        (P.current s1).pos s1) = some (n2, s2))
    (hsemi : (P.current s2).kind = SyntaxKind.SemicolonToken)
    (heof : (P.current ⟨s2.position + 1, s2.diagnostics⟩).kind = SyntaxKind.EndOfFileToken)
    (fuel : Nat) (hfuel : m + 4 ≤ fuel) :
    parse E P fuel ⟨0, []⟩ =
      some (SyntaxNode.Sequence [n1, n2]
          (P.span_to_current (P.current ⟨0, []⟩).pos ⟨s2.position + 1, s2.diagnostics⟩)
          P.show_return, ⟨s2.position + 1 + 1, s2.diagnostics⟩) := by
  obtain ⟨k, rfl⟩ : ∃ k, fuel = k + 4 := ⟨fuel - 4, by omega⟩
  have hA' := parse_expression_fuel_mono E P m (k + 1) (by omega) _ _ _ hA
  have hB' := parse_expression_fuel_mono E P m k (by omega) _ _ _ hB
  have hsemi1 : (P.current s1).kind ≠ SyntaxKind.SemicolonToken := fun h =>
    hstart2 (by unfold is_statement_start; simp [h])
  have hcur : P.current (report_unexpected_token (P.current s1).kind SyntaxKind.SemicolonToken
      (P.current s1).pos s1) = P.current s1 := rfl
  have hs1 : parse_statement E P (k + 2) ⟨0, []⟩ =
      some (n1, report_unexpected_token (P.current s1).kind SyntaxKind.SemicolonToken
        (P.current s1).pos s1) := by
    rw [parse_statement_expression E P (k + 1) _ hstart1, hA']
    simp only [Parser.match_token, if_neg hsemi1]
  have hs2 : parse_statement E P (k + 1)
      (report_unexpected_token (P.current s1).kind SyntaxKind.SemicolonToken
        (P.current s1).pos s1) = some (n2, ⟨s2.position + 1, s2.diagnostics⟩) := by
    rw [parse_statement_expression E P k _ (by rw [hcur]; exact hstart2), hB']
    simp only [Parser.match_token, hsemi, if_true, Parser.next_token]
  unfold parse
  rw [parse_program]
  simp only [Bool.false_eq_true, if_false]
  rw [top_loop_step E P (k + 2) _ _ _ _ _ hne1 hs1 (by rw [hcur]; exact hclose),
    top_loop_step E P (k + 1) _ _ _ _ _ (by rw [hcur]; exact hne2) hs2
      (by unfold is_stray_closer; simp [heof]),
    top_loop_end E P k _ _ _ heof]
  simp only [Parser.match_token, heof, if_true, Parser.next_token, List.nil_append,
    List.cons_append]

/-- Counterexample to C10 as stated, on three texts whose two parts are
well-formed expression statements. `1  -2 ;`: the parse returns the one child
`Binary(-, Literal(1), Literal(2))` and no diagnostic. `x  y ;`: it returns
two children and the diagnostic, but the first child spans columns 0 to 4,
where the tree of `x ;` alone spans columns 0 to 6. `integer x  y = 1 ;`:
it returns one child, the declaration of `x` with `y = 1` as its initialiser,
and the one diagnostic expects `=`, not `;`. Each result is the same for
every fuel that suffices. -/
theorem missing_semicolon_counterexamples :
    (is_expression_statement example_collaborators false one_tokens
        (example_token SyntaxKind.SemicolonToken 6 ";")
        (example_token SyntaxKind.EndOfFileToken 7 "")
        (SyntaxNode.Literal (some (Value.Integer 1)) ⟨1, 0, 0, 1⟩) ∧
      is_expression_statement example_collaborators false minus_two_tokens
        (example_token SyntaxKind.SemicolonToken 6 ";")
        (example_token SyntaxKind.EndOfFileToken 7 "")
        (SyntaxNode.Unary (example_token SyntaxKind.MinusToken 3 "-")
          (SyntaxNode.Literal (some (Value.Integer 2)) ⟨1, 4, 4, 5⟩) ⟨1, 3, 3, 5⟩) ∧
      ∀ fuel, parse example_collaborators minus_buffer fuel ⟨0, []⟩ =
        if fuel < 8 then none
        else some (SyntaxNode.Sequence
            [SyntaxNode.Binary
              (SyntaxNode.Literal (some (Value.Integer 1)) ⟨1, 0, 0, 1⟩)
              (example_token SyntaxKind.MinusToken 3 "-")
              (SyntaxNode.Literal (some (Value.Integer 2)) ⟨1, 4, 4, 5⟩)
              ⟨1, 0, 0, 5⟩]
            ⟨1, 0, 0, 7⟩ false, ⟨5, []⟩)) ∧
    (is_expression_statement example_collaborators false first_name_tokens
        (example_token SyntaxKind.SemicolonToken 5 ";")
        (example_token SyntaxKind.EndOfFileToken 6 "")
        (SyntaxNode.VarAccess (example_token SyntaxKind.IdentifierToken 0 "x") ⟨1, 0, 0, 6⟩) ∧
      is_expression_statement example_collaborators false second_name_tokens
        (example_token SyntaxKind.SemicolonToken 5 ";")
        (example_token SyntaxKind.EndOfFileToken 6 "")
        (SyntaxNode.VarAccess (example_token SyntaxKind.IdentifierToken 3 "y") ⟨1, 3, 3, 6⟩) ∧
      ∀ fuel, parse example_collaborators names_buffer fuel ⟨0, []⟩ =
        if fuel < 7 then none
        else some (SyntaxNode.Sequence
            [SyntaxNode.VarAccess (example_token SyntaxKind.IdentifierToken 0 "x") ⟨1, 0, 0, 4⟩,
              SyntaxNode.VarAccess (example_token SyntaxKind.IdentifierToken 3 "y") ⟨1, 3, 3, 6⟩]
            ⟨1, 0, 0, 6⟩ false,
          ⟨4, [⟨SyntaxKind.IdentifierToken, SyntaxKind.SemicolonToken, ⟨1, 3, 3, 4⟩⟩]⟩)) ∧
    (is_expression_statement example_collaborators false declaration_tokens
        (example_token SyntaxKind.SemicolonToken 16 ";")
        (example_token SyntaxKind.EndOfFileToken 17 "")
        (SyntaxNode.VarDeclare (example_token SyntaxKind.IntegerKeyword 0 "integer")
          (example_token SyntaxKind.IdentifierToken 8 "x") ⟨1, 0, 0, 17⟩) ∧
      is_expression_statement example_collaborators false initialiser_tokens
        (example_token SyntaxKind.SemicolonToken 16 ";")
        (example_token SyntaxKind.EndOfFileToken 17 "")
        (SyntaxNode.VarAssign (example_token SyntaxKind.IdentifierToken 11 "y")
          (SyntaxNode.Literal (some (Value.Integer 1)) ⟨1, 15, 15, 16⟩) ⟨1, 11, 11, 17⟩) ∧
      ∀ fuel, parse example_collaborators declaration_buffer fuel ⟨0, []⟩ =
        if fuel < 8 then none
        else some (SyntaxNode.Sequence
            [SyntaxNode.Sequence
              [SyntaxNode.VarDeclare (example_token SyntaxKind.IntegerKeyword 0 "integer")
                (example_token SyntaxKind.IdentifierToken 8 "x") ⟨1, 0, 0, 12⟩,
                SyntaxNode.VarAssign (example_token SyntaxKind.IdentifierToken 8 "x")
                  (SyntaxNode.VarAssign (example_token SyntaxKind.IdentifierToken 11 "y")
                    (SyntaxNode.Literal (some (Value.Integer 1)) ⟨1, 15, 15, 16⟩)
                    ⟨1, 11, 11, 17⟩)
                  ⟨1, 0, 0, 17⟩]
              ⟨1, 0, 0, 17⟩ false]
            ⟨1, 0, 0, 17⟩ false,
          ⟨7, [⟨SyntaxKind.IdentifierToken, SyntaxKind.EqualsToken, ⟨1, 11, 11, 12⟩⟩]⟩)) := by
  refine ⟨⟨⟨⟨_, _, rfl, by unfold is_statement_start; decide⟩, 6, ⟨1, 0, 0, 7⟩, false, rfl⟩,
      ⟨⟨_, _, rfl, by unfold is_statement_start; decide⟩, 7, ⟨1, 3, 3, 7⟩, false, rfl⟩, ?_⟩,
    ⟨⟨⟨_, _, rfl, by unfold is_statement_start; decide⟩, 6, ⟨1, 0, 0, 6⟩, false, rfl⟩,
      ⟨⟨_, _, rfl, by unfold is_statement_start; decide⟩, 6, ⟨1, 3, 3, 6⟩, false, rfl⟩, ?_⟩,
    ⟨⟨⟨_, _, rfl, by unfold is_statement_start; decide⟩, 4, ⟨1, 0, 0, 17⟩, false, rfl⟩,
      ⟨⟨_, _, rfl, by unfold is_statement_start; decide⟩, 7, ⟨1, 11, 11, 17⟩, false, rfl⟩, ?_⟩⟩
  · intro fuel
    by_cases h : fuel < 8
    · rw [if_pos h]
      interval_cases fuel <;> rfl
    · rw [if_neg h]
      exact (parse_one_expression_statement example_collaborators minus_buffer 5 _ ⟨3, []⟩
        (by unfold is_statement_start; decide) (by decide) rfl rfl rfl fuel (by omega)).trans rfl
  · intro fuel
    by_cases h : fuel < 7
    · rw [if_pos h]
      interval_cases fuel <;> rfl
    · rw [if_neg h]
      exact (parse_two_expression_statements example_collaborators names_buffer 3 _ _
        ⟨1, []⟩ ⟨2, [⟨SyntaxKind.IdentifierToken, SyntaxKind.SemicolonToken, ⟨1, 3, 3, 4⟩⟩]⟩
        (by unfold is_statement_start; decide) (by decide) rfl
        (by unfold is_statement_start; decide) (by decide)
        (by unfold is_stray_closer; decide) rfl rfl rfl fuel (by omega)).trans rfl
  · intro fuel
    by_cases h : fuel < 8
    · rw [if_pos h]
      interval_cases fuel <;> rfl
    · rw [if_neg h]
      exact (parse_one_expression_statement example_collaborators declaration_buffer 5 _
        ⟨5, [⟨SyntaxKind.IdentifierToken, SyntaxKind.EqualsToken, ⟨1, 11, 11, 12⟩⟩]⟩
        (by unfold is_statement_start; decide) (by decide) rfl rfl rfl fuel (by omega)).trans rfl

/-- Witness of C10's amended theorem: the text `1 + 2  x = 3 ;` parses to the
two children `Binary(+, Literal(1), Literal(2))` and
`VarAssign(x, Literal(3))`, with the one diagnostic that an identifier was
found where a `;` was expected. -/
theorem missing_semicolon_tolerance_witness :
    ∃ fuel n1 pos,
      parse example_collaborators
          ⟨sum_tokens ++ assignment_tokens ++
            [example_token SyntaxKind.SemicolonToken 13 ";",
              example_token SyntaxKind.EndOfFileToken 14 ""], false⟩ fuel ⟨0, []⟩ =
        some (SyntaxNode.Sequence
            [n1, SyntaxNode.VarAssign (example_token SyntaxKind.IdentifierToken 7 "x")
              (SyntaxNode.Literal (some (Value.Integer 3)) ⟨1, 11, 11, 12⟩) ⟨1, 7, 7, 14⟩]
            pos false,
          ⟨sum_tokens.length + assignment_tokens.length + 2,
            [⟨SyntaxKind.IdentifierToken, SyntaxKind.SemicolonToken, ⟨1, 7, 7, 8⟩⟩]⟩) ∧
      n1.shape =
        (SyntaxNode.Binary
          (SyntaxNode.Literal (some (Value.Integer 1)) ⟨1, 0, 0, 1⟩)
          (example_token SyntaxKind.PlusToken 2 "+")
          (SyntaxNode.Literal (some (Value.Integer 2)) ⟨1, 4, 4, 5⟩)
          ⟨1, 0, 0, 5⟩).shape :=
  missing_semicolon_tolerance example_collaborators false sum_tokens assignment_tokens
    (example_token SyntaxKind.SemicolonToken 13 ";")
    (example_token SyntaxKind.EndOfFileToken 14 "")
    (example_token SyntaxKind.IdentifierToken 7 "x")
    [example_token SyntaxKind.EqualsToken 9 "=", example_token SyntaxKind.IntegerToken 11 "3"]
    _ _ rfl rfl
    ⟨⟨_, _, rfl, by unfold is_statement_start; decide⟩, 8, ⟨1, 0, 0, 14⟩, false, rfl⟩
    ⟨⟨_, _, rfl, by unfold is_statement_start; decide⟩, 7, ⟨1, 7, 7, 14⟩, false, rfl⟩
    rfl
    (by unfold joins_previous_statement is_stray_closer; decide)
    (by
      intro pre kw last h
      obtain rfl : kw = example_token SyntaxKind.PlusToken 2 "+" := by
        rcases pre with _ | ⟨a, _ | ⟨b, pre⟩⟩
        · cases h
        · exact ((List.cons.inj (List.cons.inj h).2).1).symm
        · have := congrArg List.length h
          simp [sum_tokens] at this
      unfold is_type_keyword
      decide)

/-! ## Fuel at the statement level -/

theorem parse_expression_fuel_succ_eq (E : Collaborators) (P : Parser) (fuel : Nat)
    (prec : Int) (st : State) (h : parse_expression E P fuel prec st ≠ none) :
    parse_expression E P (fuel + 1) prec st = parse_expression E P fuel prec st := by
  cases hx : parse_expression E P fuel prec st with
  | none => exact absurd hx h
  | some x => exact (expression_level_fuel_succ E P fuel).1 _ _ _ hx

theorem parse_arg_names_loop_fuel_succ_eq (P : Parser) (fuel : Nat) :
    ∀ (names : List SyntaxToken) (st : State), parse_arg_names_loop P fuel names st ≠ none →
      parse_arg_names_loop P (fuel + 1) names st = parse_arg_names_loop P fuel names st := by
  induction fuel with
  | zero => intro names st h; exact absurd rfl h
  | succ fuel ih =>
    intro names st h
    rw [parse_arg_names_loop]
    conv_rhs => rw [parse_arg_names_loop]
    simp only [parse_arg_names_loop] at h
    split
    · rw [if_pos ‹_›] at h
      exact ih _ _ h
    · rfl

theorem sub_loop_fuel_succ (E : Collaborators) (P : Parser) (fuel : Nat)
    (ih_sub : ∀ start seq st, parse_program_sub_loop E P fuel start seq st ≠ none →
      parse_program_sub_loop E P (fuel + 1) start seq st =
        parse_program_sub_loop E P fuel start seq st)
    (ih_stmt : ∀ st, parse_statement E P fuel st ≠ none →
      parse_statement E P (fuel + 1) st = parse_statement E P fuel st) :
    ∀ start seq st, parse_program_sub_loop E P (fuel + 1) start seq st ≠ none →
      parse_program_sub_loop E P (fuel + 1 + 1) start seq st =
        parse_program_sub_loop E P (fuel + 1) start seq st := by
  intro start seq st h
  rw [parse_program_sub_loop]
  conv_rhs => rw [parse_program_sub_loop]
  simp only [parse_program_sub_loop] at h
  repeat' split at h
  all_goals (try (exact absurd rfl h))
  all_goals (try simp only [*, ne_eq, reduceCtorEq, not_false_eq_true, and_self, and_true, if_true,
    if_false, not_true_eq_false, ge_iff_le])

theorem top_loop_fuel_succ (E : Collaborators) (P : Parser) (fuel : Nat)
    (ih_top : ∀ start seq st, parse_program_top_loop E P fuel start seq st ≠ none →
      parse_program_top_loop E P (fuel + 1) start seq st =
        parse_program_top_loop E P fuel start seq st)
    (ih_stmt : ∀ st, parse_statement E P fuel st ≠ none →
      parse_statement E P (fuel + 1) st = parse_statement E P fuel st) :
    ∀ start seq st, parse_program_top_loop E P (fuel + 1) start seq st ≠ none →
      parse_program_top_loop E P (fuel + 1 + 1) start seq st =
        parse_program_top_loop E P (fuel + 1) start seq st := by
  intro start seq st h
  rw [parse_program_top_loop]
  conv_rhs => rw [parse_program_top_loop]
  simp only [parse_program_top_loop] at h
  repeat' split at h
  all_goals (try (exact absurd rfl h))
  all_goals (try simp only [*, ne_eq, reduceCtorEq, not_false_eq_true, and_self, and_true, if_true,
    if_false, not_true_eq_false, ge_iff_le])
  all_goals (simp only [*] at h; exact ih_top _ _ _ h)

theorem elif_loop_fuel_succ (E : Collaborators) (P : Parser) (fuel : Nat)
    (ih_stmt : ∀ st, parse_statement E P fuel st ≠ none →
      parse_statement E P (fuel + 1) st = parse_statement E P fuel st)
    (ih_elif : ∀ cs bs st, parse_elif_loop E P fuel cs bs st ≠ none →
      parse_elif_loop E P (fuel + 1) cs bs st = parse_elif_loop E P fuel cs bs st) :
    ∀ cs bs st, parse_elif_loop E P (fuel + 1) cs bs st ≠ none →
      parse_elif_loop E P (fuel + 1 + 1) cs bs st = parse_elif_loop E P (fuel + 1) cs bs st := by
  have ih_expr := parse_expression_fuel_succ_eq E P fuel
  intro cs bs st h
  rw [parse_elif_loop]
  conv_rhs => rw [parse_elif_loop]
  simp only [parse_elif_loop] at h
  repeat' split at h
  all_goals (try (exact absurd rfl h))
  all_goals (try simp only [*, ne_eq, reduceCtorEq, not_false_eq_true, and_self, and_true, if_true,
    if_false, not_true_eq_false, ge_iff_le])

set_option maxHeartbeats 1000000 in

theorem statement_fuel_succ (E : Collaborators) (P : Parser) (fuel : Nat)
    (ih_prog : ∀ sub st, parse_program E P fuel sub st ≠ none →
      parse_program E P (fuel + 1) sub st = parse_program E P fuel sub st)
    (ih_stmt : ∀ st, parse_statement E P fuel st ≠ none →
      parse_statement E P (fuel + 1) st = parse_statement E P fuel st)
    (ih_elif : ∀ cs bs st, parse_elif_loop E P fuel cs bs st ≠ none →
      parse_elif_loop E P (fuel + 1) cs bs st = parse_elif_loop E P fuel cs bs st) :
    ∀ st, parse_statement E P (fuel + 1) st ≠ none →
      parse_statement E P (fuel + 1 + 1) st = parse_statement E P (fuel + 1) st := by
  have ih_expr := parse_expression_fuel_succ_eq E P fuel
  have ih_names := parse_arg_names_loop_fuel_succ_eq P fuel
  intro st h
  rw [parse_statement]
  conv_rhs => rw [parse_statement]
  simp only [parse_statement] at h
  by_cases hr : (P.current (P.match_token SyntaxKind.LParenToken
      (P.match_token SyntaxKind.IdentifierToken (P.next_token st).2).2).2).kind =
        SyntaxKind.RParenToken
  · simp only [hr, ne_eq, not_true_eq_false, if_false] at h ⊢
    repeat' split at h
    all_goals (try (exact absurd rfl h))
    all_goals (try simp only [*, ne_eq, reduceCtorEq, not_false_eq_true, and_self, and_true,
      if_true, if_false, not_true_eq_false, ge_iff_le])
  · simp only [hr, ne_eq, not_false_eq_true, if_true] at h ⊢
    repeat' split at h
    all_goals (try (exact absurd rfl h))
    all_goals (try simp only [*, ne_eq, reduceCtorEq, not_false_eq_true, and_self, and_true,
      if_true, if_false, not_true_eq_false, ge_iff_le])

theorem statement_level_fuel_succ (E : Collaborators) (P : Parser) (fuel : Nat) :
    (∀ sub st, parse_program E P fuel sub st ≠ none →
      parse_program E P (fuel + 1) sub st = parse_program E P fuel sub st) ∧
    (∀ start seq st, parse_program_sub_loop E P fuel start seq st ≠ none →
      parse_program_sub_loop E P (fuel + 1) start seq st =
        parse_program_sub_loop E P fuel start seq st) ∧
    (∀ start seq st, parse_program_top_loop E P fuel start seq st ≠ none →
      parse_program_top_loop E P (fuel + 1) start seq st =
        parse_program_top_loop E P fuel start seq st) ∧
    (∀ st, parse_statement E P fuel st ≠ none →
      parse_statement E P (fuel + 1) st = parse_statement E P fuel st) ∧
    (∀ cs bs st, parse_elif_loop E P fuel cs bs st ≠ none →
      parse_elif_loop E P (fuel + 1) cs bs st = parse_elif_loop E P fuel cs bs st) := by
  induction fuel with
  | zero =>
    refine ⟨?_, ?_, ?_, ?_, ?_⟩ <;> intros <;> exact absurd rfl ‹_›
  | succ fuel ih =>
    obtain ⟨ih_prog, ih_sub, ih_top, ih_stmt, ih_elif⟩ := ih
    refine ⟨?_, sub_loop_fuel_succ E P fuel ih_sub ih_stmt,
      top_loop_fuel_succ E P fuel ih_top ih_stmt,
      statement_fuel_succ E P fuel ih_prog ih_stmt ih_elif,
      elif_loop_fuel_succ E P fuel ih_stmt ih_elif⟩
    intro sub st h
    rw [parse_program]
    conv_rhs => rw [parse_program]
    rw [parse_program] at h
    cases sub
    · exact ih_top _ _ _ h
    · exact ih_sub _ _ _ h

theorem parse_statement_fuel_mono (E : Collaborators) (P : Parser) (fuel fuel' : Nat)
    (hle : fuel ≤ fuel') (st : State) (x : SyntaxNode × State)
    (h : parse_statement E P fuel st = some x) : parse_statement E P fuel' st = some x := by
  induction hle with
  | refl => exact h
  | step _ ih =>
    rw [(statement_level_fuel_succ E P _).2.2.2.1 st (by rw [ih]; exact Option.some_ne_none _)]
    exact ih

theorem parse_program_fuel_mono (E : Collaborators) (P : Parser) (fuel fuel' : Nat)
    (hle : fuel ≤ fuel') (sub : Bool) (st : State) (x : SyntaxNode × State)
    (h : parse_program E P fuel sub st = some x) : parse_program E P fuel' sub st = some x := by
  induction hle with
  | refl => exact h
  | step _ ih =>
    rw [(statement_level_fuel_succ E P _).1 sub st (by rw [ih]; exact Option.some_ne_none _)]
    exact ih

theorem parse_fuel_mono (E : Collaborators) (P : Parser) (fuel fuel' : Nat)
    (hle : fuel ≤ fuel') (st : State) (x : SyntaxNode × State)
    (h : parse E P fuel st = some x) : parse E P fuel' st = some x := by
  unfold parse at h ⊢
  cases hp : parse_program E P fuel false st with
  | none => rw [hp] at h; cases h
  | some y =>
    rw [parse_program_fuel_mono E P fuel fuel' hle false st y hp]
    rw [hp] at h
    exact h

/-! ## C11: a stray closer inside a block -/

/-- C11, as the code has it: in the loop of a block, when the token after a
statement is a stray `)`, `]` or `,`, the parser reports the missing `;` and
skips the closer, and then, the case having no `break`, runs on into the case
of the end of file: it matches `}` and returns the block with the statements
read so far. It does not go on to the statements that follow; when the next
token is not `}` the match records a second diagnostic. -/
theorem sub_program_stray_closer_ends_block (E : Collaborators) (P : Parser) (fuel : Nat)
    (start : Position) (program_seq : List SyntaxNode) (st : State) (statement : SyntaxNode)
    (s1 : State)
    (hopen : (P.current st).kind ≠ SyntaxKind.RCurlyToken)
    (hs : parse_statement E P fuel st = some (statement, s1))
    (hc : (P.current s1).kind = SyntaxKind.RParenToken ∨
      (P.current s1).kind = SyntaxKind.RSquareToken ∨
      (P.current s1).kind = SyntaxKind.CommaToken) :
    parse_program_sub_loop E P (fuel + 1) start program_seq st =
      some (SyntaxNode.Sequence (program_seq ++ [statement])
          (P.span_to_current start
            (P.match_token SyntaxKind.RCurlyToken
              ⟨s1.position + 1, s1.diagnostics ++
                [⟨(P.current s1).kind, SyntaxKind.SemicolonToken, (P.current s1).pos⟩]⟩).2)
          P.show_return,
        (P.match_token SyntaxKind.RCurlyToken
          ⟨s1.position + 1, s1.diagnostics ++
            [⟨(P.current s1).kind, SyntaxKind.SemicolonToken, (P.current s1).pos⟩]⟩).2) := by
  rw [parse_program_sub_loop]
  simp only [hopen, ne_eq, not_false_eq_true, if_true, hs]
  rcases hc with hc | hc | hc <;> simp only [hc] <;> rfl

/-- Witness of C11's theorem: in `{ a; ) b; }` the block ends after `)` with
the one child `a` and two diagnostics; the whole parse then reads `b;` at top
level and reports the `}` as a third. -/
theorem sub_program_stray_closer_ends_block_witness :
    parse_program_sub_loop example_collaborators stray_in_block_buffer 5 ⟨1, 2, 2, 3⟩ []
        ⟨1, []⟩ =
      some (SyntaxNode.Sequence
          [SyntaxNode.VarAccess (example_token SyntaxKind.IdentifierToken 2 "a") ⟨1, 2, 2, 4⟩]
          ⟨1, 2, 2, 8⟩ false,
        ⟨4, [⟨SyntaxKind.RParenToken, SyntaxKind.SemicolonToken, ⟨1, 5, 5, 6⟩⟩,
          ⟨SyntaxKind.IdentifierToken, SyntaxKind.RCurlyToken, ⟨1, 7, 7, 8⟩⟩]⟩) ∧
    parse example_collaborators stray_in_block_buffer 9 ⟨0, []⟩ =
      some (SyntaxNode.Sequence
          [SyntaxNode.Sequence
              [SyntaxNode.VarAccess (example_token SyntaxKind.IdentifierToken 2 "a")
                ⟨1, 2, 2, 4⟩]
              ⟨1, 2, 2, 8⟩ false,
            SyntaxNode.VarAccess (example_token SyntaxKind.IdentifierToken 7 "b") ⟨1, 7, 7, 9⟩]
          ⟨1, 0, 0, 11⟩ false,
        ⟨8, [⟨SyntaxKind.RParenToken, SyntaxKind.SemicolonToken, ⟨1, 5, 5, 6⟩⟩,
          ⟨SyntaxKind.IdentifierToken, SyntaxKind.RCurlyToken, ⟨1, 7, 7, 8⟩⟩,
          ⟨SyntaxKind.RCurlyToken, SyntaxKind.SemicolonToken, ⟨1, 10, 10, 11⟩⟩]⟩) :=
  ⟨(sub_program_stray_closer_ends_block example_collaborators stray_in_block_buffer 4
    ⟨1, 2, 2, 3⟩ [] ⟨1, []⟩ _ ⟨3, []⟩ (by decide) rfl (Or.inl rfl)).trans rfl, rfl⟩

/-! ## C12: a stray closer at top level -/

theorem top_level_desynchronization (E : Collaborators) (P : Parser) (fuel : Nat)
    (n1 n2 : SyntaxNode) (q r : Nat)
    (hfirst : (P.token_at 0).kind ≠ SyntaxKind.EndOfFileToken)
    (h1 : parse_statement E P fuel ⟨0, []⟩ = some (n1, ⟨q, []⟩))
    (hc : is_stray_closer (P.token_at q).kind)
    (hsecond : (P.token_at (q + 1)).kind ≠ SyntaxKind.EndOfFileToken)
    (h2 : parse_statement E P fuel
        ⟨q + 1, [⟨(P.token_at q).kind, SyntaxKind.SemicolonToken, (P.token_at q).pos⟩]⟩ =
      some (n2, ⟨r, [⟨(P.token_at q).kind, SyntaxKind.SemicolonToken, (P.token_at q).pos⟩]⟩))
    (heof : (P.token_at r).kind = SyntaxKind.EndOfFileToken)
    (fuel' : Nat) (hfuel : fuel + 4 ≤ fuel') :
    parse E P fuel' ⟨0, []⟩ =
      some (SyntaxNode.Sequence [n1, n2]
          (P.span_to_current (P.token_at 0).pos ⟨r, []⟩) P.show_return,
        ⟨r + 1, [⟨(P.token_at q).kind, SyntaxKind.SemicolonToken, (P.token_at q).pos⟩]⟩) := by
  obtain ⟨k, rfl⟩ : ∃ k, fuel' = k + 1 + 1 + 1 + 1 := ⟨fuel' - 4, by omega⟩
  have c : ∀ p d, P.current ⟨p, d⟩ = P.token_at p := fun p d => current_eq_token_at P ⟨p, d⟩
  have h1' := parse_statement_fuel_mono E P fuel (k + 1 + 1) (by omega) _ _ h1
  have h2' := parse_statement_fuel_mono E P fuel (k + 1) (by omega) _ _ h2
  unfold parse
  rw [parse_program]
  simp only [Bool.false_eq_true, if_false]
  rw [top_loop_skip E P (k + 1 + 1) _ _ _ _ _ (by rw [c]; exact hfirst) h1'
      (by rw [c]; exact hc)]
  simp only [c, List.nil_append]
  rw [top_loop_step E P (k + 1) _ _ _ _ _ (by rw [c]; exact hsecond) h2'
      (by rw [c, heof]; unfold is_stray_closer; decide),
    top_loop_end E P k _ _ _ (by rw [c]; exact heof)]
  simp only [Parser.match_token, c, heof, if_true, Parser.next_token, List.nil_append,
    List.cons_append, Parser.span_to_current]

/-- Witness of C12's theorem: `a; ) b;` parses to the two children `a` and `b`,
with the one diagnostic that `)` was found where a `;` was expected. -/
theorem top_level_desynchronization_witness :
    parse example_collaborators stray_at_top_buffer 8 ⟨0, []⟩ =
      some (SyntaxNode.Sequence
          [SyntaxNode.VarAccess (example_token SyntaxKind.IdentifierToken 0 "a") ⟨1, 0, 0, 2⟩,
            SyntaxNode.VarAccess (example_token SyntaxKind.IdentifierToken 5 "b") ⟨1, 5, 5, 7⟩]
          ⟨1, 0, 0, 7⟩ false,
        ⟨6, [⟨SyntaxKind.RParenToken, SyntaxKind.SemicolonToken, ⟨1, 3, 3, 4⟩⟩]⟩) :=
  top_level_desynchronization example_collaborators stray_at_top_buffer 4 _ _ 2 5
    (by decide) rfl (by unfold is_stray_closer; decide) (by decide) rfl rfl 8 (le_refl _)

/-! ## C13: the span of an index node -/

/-- C13, as the code has it: the `Index` node that the loop of `parse_molecule`
builds for a suffix `[index]` spans from the start of the `[` to the end of
the token after the `]`, whatever the span of its target `left`, which was
read before the `[`: the node's span does not cover its target child. -/
theorem index_span_starts_at_bracket (E : Collaborators) (P : Parser) (fuel : Nat)
    (left : SyntaxNode) (st : State) (right : SyntaxNode) (s1 : State)
    (hopen : (P.current st).kind = SyntaxKind.LSquareToken)
    (hx : parse_expression E P fuel default_precedence ⟨st.position + 1, st.diagnostics⟩ =
      some (right, s1))
    (hnext : (P.current (P.match_token SyntaxKind.RSquareToken s1).2).kind ≠
      SyntaxKind.LSquareToken) :
    parse_index_loop E P (fuel + 1 + 1) left st =
      some (SyntaxNode.Index left right
          ⟨(P.current st).pos.ln, (P.current st).pos.col, (P.current st).pos.start,
            (P.current (P.match_token SyntaxKind.RSquareToken s1).2).pos.end_⟩,
        (P.match_token SyntaxKind.RSquareToken s1).2) := by
  have hx' := parse_expression_fuel_mono E P fuel (fuel + 1) (Nat.le_succ _) _ _ _ hx
  rw [parse_index_loop]
  simp only [hopen, if_true, Parser.next_token, hx']
  rw [parse_index_loop]
  simp only [if_neg hnext]
  rfl

/-- Witness of C13's theorem: in `a[0];` the `Index` node starts at column 1,
the `[`, and its target `a` starts at column 0. -/
theorem index_span_starts_at_bracket_witness :
    parse_index_loop example_collaborators index_buffer 5
        (SyntaxNode.VarAccess (example_token SyntaxKind.IdentifierToken 0 "a") ⟨1, 0, 0, 2⟩)
        ⟨1, []⟩ =
      some (SyntaxNode.Index
          (SyntaxNode.VarAccess (example_token SyntaxKind.IdentifierToken 0 "a") ⟨1, 0, 0, 2⟩)
          (SyntaxNode.Literal (some (Value.Integer 0)) ⟨1, 2, 2, 3⟩) ⟨1, 1, 1, 5⟩, ⟨4, []⟩) ∧
    parse_molecule example_collaborators index_buffer 6 ⟨0, []⟩ =
      some (SyntaxNode.Index
          (SyntaxNode.VarAccess (example_token SyntaxKind.IdentifierToken 0 "a") ⟨1, 0, 0, 2⟩)
          (SyntaxNode.Literal (some (Value.Integer 0)) ⟨1, 2, 2, 3⟩) ⟨1, 1, 1, 5⟩, ⟨4, []⟩) :=
  ⟨(index_span_starts_at_bracket example_collaborators index_buffer 3 _ ⟨1, []⟩ _ ⟨3, []⟩
    rfl rfl (by decide)).trans rfl, rfl⟩

/-! ## C14: declarations -/

/-- C14: when the tokens at the cursor are a type keyword `T` and an identifier
`x`, `parse_expression` returns, if a `=` follows and the expression after it
parses to `e`, the two-element sequence `[VarDeclare(T, x), VarAssign(x, e)]`,
both children naming the token `x`, in the state the initialiser's parse ends
in: the declaration records no diagnostic of its own. If a `;` follows `x`,
it returns the bare `VarDeclare(T, x)` and leaves the cursor on the `;`. The
table is assumed to give no unary precedence to the type keyword. -/
theorem parse_expression_declaration (E : Collaborators) (P : Parser) (fuel : Nat)
    (precedence : Int) (st : State)
    (hT : is_type_keyword (P.current st).kind)
    (hu : E.get_unary_precedence (P.current st).kind = 0)
    (hx : (P.current ⟨st.position + 1, st.diagnostics⟩).kind = SyntaxKind.IdentifierToken) :
    ((P.current ⟨st.position + 1 + 1, st.diagnostics⟩).kind = SyntaxKind.EqualsToken →
      ∀ e st', parse_expression E P fuel precedence ⟨st.position + 1 + 1 + 1, st.diagnostics⟩ =
          some (e, st') →
        parse_expression E P (fuel + 1) precedence st =
          some (SyntaxNode.Sequence
            [SyntaxNode.VarDeclare (P.current st) (P.current ⟨st.position + 1, st.diagnostics⟩)
                (P.span_to_current (P.current st).pos ⟨st.position + 1 + 1, st.diagnostics⟩),
              SyntaxNode.VarAssign (P.current ⟨st.position + 1, st.diagnostics⟩) e
                (P.span_to_current (P.current st).pos st')]
            (P.span_to_current (P.current st).pos st') E.sequence_default_flag, st')) ∧
    ((P.current ⟨st.position + 1 + 1, st.diagnostics⟩).kind = SyntaxKind.SemicolonToken →
      parse_expression E P (fuel + 1) precedence st =
        some (SyntaxNode.VarDeclare (P.current st) (P.current ⟨st.position + 1, st.diagnostics⟩)
            (P.span_to_current (P.current st).pos ⟨st.position + 1 + 1, st.diagnostics⟩),
          ⟨st.position + 1 + 1, st.diagnostics⟩)) := by
  have hnu : ¬ (E.get_unary_precedence (P.current st).kind ≠ 0 ∧
      E.get_unary_precedence (P.current st).kind ≥ precedence) := fun h => h.1 hu
  constructor
  · intro heq e st' he
    rw [parse_expression]
    simp only [if_neg hnu]
    have hns : (P.current ⟨st.position + 1 + 1, st.diagnostics⟩).kind ≠
        SyntaxKind.SemicolonToken := by rw [heq]; decide
    rcases hT with h | h | h | h | h | h <;>
      simp only [h, Parser.next_token, Parser.match_token, hx, if_true, heq, hns, if_false, he,
        reduceCtorEq]
  · intro hsemi
    rw [parse_expression]
    simp only [if_neg hnu]
    rcases hT with h | h | h | h | h | h <;>
      simp only [h, Parser.next_token, Parser.match_token, hx, if_true, hsemi]

/-- Witness of C14's theorem: `integer x = 1;` and `integer x;`. -/
theorem parse_expression_declaration_witness :
    parse_expression example_collaborators initialised_buffer 4 0 ⟨0, []⟩ =
        some (SyntaxNode.Sequence
          [SyntaxNode.VarDeclare (example_token SyntaxKind.IntegerKeyword 0 "integer")
              (example_token SyntaxKind.IdentifierToken 8 "x") ⟨1, 0, 0, 11⟩,
            SyntaxNode.VarAssign (example_token SyntaxKind.IdentifierToken 8 "x")
              (SyntaxNode.Literal (some (Value.Integer 1)) ⟨1, 12, 12, 13⟩) ⟨1, 0, 0, 14⟩]
          ⟨1, 0, 0, 14⟩ false, ⟨4, []⟩) ∧
      parse_expression example_collaborators uninitialised_buffer 1 0 ⟨0, []⟩ =
        some (SyntaxNode.VarDeclare (example_token SyntaxKind.IntegerKeyword 0 "integer")
            (example_token SyntaxKind.IdentifierToken 8 "x") ⟨1, 0, 0, 10⟩, ⟨2, []⟩) :=
  ⟨((parse_expression_declaration example_collaborators initialised_buffer 3 0 ⟨0, []⟩
      (Or.inl rfl) rfl rfl).1 rfl _ _ rfl).trans rfl,
    ((parse_expression_declaration example_collaborators uninitialised_buffer 0 0 ⟨0, []⟩
      (Or.inl rfl) rfl rfl).2 rfl).trans rfl⟩

/-! ## C15: a block that is not closed -/

/-- C15, as the code has it for a block with no statement: when `{` is followed
at once by the end of file, the loop of the block still parses a statement
there, so the block has one child, a variable access to a placeholder
identifier, and three diagnostics are recorded: an identifier, a `;` and a
`}` expected where the end of file was found. The table is assumed to give
the end-of-file token no precedence. -/
theorem unclosed_empty_block (E : Collaborators) (P : Parser) (fuel : Nat) (st : State)
    (hopen : (P.current st).kind = SyntaxKind.LCurlyToken)
    (heof : (P.current ⟨st.position + 1, st.diagnostics⟩).kind = SyntaxKind.EndOfFileToken)
    (hu : E.get_unary_precedence SyntaxKind.EndOfFileToken = 0)
    (hb : E.get_binary_precedence SyntaxKind.EndOfFileToken = 0) :
    parse_statement E P (fuel + 7) st =
      some (SyntaxNode.Sequence
          [SyntaxNode.VarAccess
            ⟨SyntaxKind.IdentifierToken, (P.current ⟨st.position + 1, st.diagnostics⟩).pos, ""⟩
            (P.span_to_current (P.current ⟨st.position + 1, st.diagnostics⟩).pos
              ⟨st.position + 1, st.diagnostics⟩)]
          (P.span_to_current (P.current ⟨st.position + 1, st.diagnostics⟩).pos
            ⟨st.position + 1, st.diagnostics⟩) P.show_return,
        ⟨st.position + 1, st.diagnostics ++
          [⟨SyntaxKind.EndOfFileToken, SyntaxKind.IdentifierToken,
              (P.current ⟨st.position + 1, st.diagnostics⟩).pos⟩,
            ⟨SyntaxKind.EndOfFileToken, SyntaxKind.SemicolonToken,
              (P.current ⟨st.position + 1, st.diagnostics⟩).pos⟩,
            ⟨SyntaxKind.EndOfFileToken, SyntaxKind.RCurlyToken,
              (P.current ⟨st.position + 1, st.diagnostics⟩).pos⟩]⟩) := by
  have c : ∀ d, P.current ⟨st.position + 1, d⟩ = P.current ⟨st.position + 1, st.diagnostics⟩ :=
    fun d => rfl
  rw [parse_statement]
  simp only [hopen, Parser.next_token]
  rw [parse_program]
  simp only [if_true]
  rw [parse_program_sub_loop]
  simp only [heof, ne_eq, reduceCtorEq, not_false_eq_true, if_true]
  rw [parse_statement]
  simp only [heof]
  rw [parse_expression]
  simp only [heof, hu, ne_eq, not_true_eq_false, false_and, if_false]
  rw [parse_molecule, parse_atom]
  simp only [heof, Parser.match_token, reduceCtorEq, if_false, report_unexpected_token, c]
  rw [parse_binary_loop]
  simp only [c, heof, hb, true_or, if_true, reduceCtorEq, if_false, List.append_assoc,
    List.singleton_append, List.nil_append, Parser.span_to_current]
  rfl

/-- Witness of C15's theorem: the text `{`. -/
theorem unclosed_empty_block_witness :
    parse_statement example_collaborators unclosed_empty_buffer 7 ⟨0, []⟩ =
      some (SyntaxNode.Sequence
          [SyntaxNode.VarAccess ⟨SyntaxKind.IdentifierToken, ⟨1, 1, 1, 1⟩, ""⟩ ⟨1, 1, 1, 1⟩]
          ⟨1, 1, 1, 1⟩ false,
        ⟨1, [⟨SyntaxKind.EndOfFileToken, SyntaxKind.IdentifierToken, ⟨1, 1, 1, 1⟩⟩,
          ⟨SyntaxKind.EndOfFileToken, SyntaxKind.SemicolonToken, ⟨1, 1, 1, 1⟩⟩,
          ⟨SyntaxKind.EndOfFileToken, SyntaxKind.RCurlyToken, ⟨1, 1, 1, 1⟩⟩]⟩) :=
  unclosed_empty_block example_collaborators unclosed_empty_buffer 0 ⟨0, []⟩ rfl rfl rfl rfl

theorem statement_run_start {E : Collaborators} {P : Parser} {st : State}
    {nodes : List SyntaxNode} {st' : State} (h : StatementRun E P st nodes st') :
    ¬ ends_block_statement (P.current st).kind := by
  cases h with
  | last _ _ _ _ hs => exact hs
  | next _ _ _ _ _ _ hs => exact hs

theorem statement_run_diagnostics {E : Collaborators} {P : Parser} {st : State}
    {nodes : List SyntaxNode} {st' : State} (h : StatementRun E P st nodes st') :
    st'.diagnostics = st.diagnostics := by
  induction h with
  | last _ _ _ _ _ _ hd => exact hd
  | next _ _ _ _ _ _ _ _ hd _ ih => rw [ih]; exact hd

theorem sub_loop_statement_run {E : Collaborators} {P : Parser} {st : State}
    {nodes : List SyntaxNode} {st' : State} (h : StatementRun E P st nodes st')
    (heof : (P.current st').kind = SyntaxKind.EndOfFileToken) :
    ∃ bound, ∀ fuel, bound ≤ fuel → ∀ start seq,
      parse_program_sub_loop E P fuel start seq st =
        some (SyntaxNode.Sequence (seq ++ nodes)
            (P.span_to_current start (P.match_token SyntaxKind.RCurlyToken st').2) P.show_return,
          (P.match_token SyntaxKind.RCurlyToken st').2) := by
  induction h with
  | last st f node st' hstart hs _ =>
    refine ⟨f + 1, fun fuel hf start seq => ?_⟩
    obtain ⟨k, rfl⟩ : ∃ k, fuel = k + 1 := ⟨fuel - 1, by omega⟩
    have hs' := parse_statement_fuel_mono E P f k (by omega) _ _ hs
    have hopen : (P.current st).kind ≠ SyntaxKind.RCurlyToken := fun hk =>
      hstart (Or.inl hk)
    rw [parse_program_sub_loop]
    simp only [hopen, ne_eq, not_false_eq_true, if_true, hs', heof]
  | next st f node s1 rest st' hstart hs _ hrest ih =>
    obtain ⟨bound, hb⟩ := ih heof
    refine ⟨max f bound + 1, fun fuel hf start seq => ?_⟩
    obtain ⟨k, rfl⟩ : ∃ k, fuel = k + 1 := ⟨fuel - 1, by omega⟩
    have hs' := parse_statement_fuel_mono E P f k
      (by have := le_max_left f bound; omega) _ _ hs
    have hopen : (P.current st).kind ≠ SyntaxKind.RCurlyToken := fun hk =>
      hstart (Or.inl hk)
    have hnext := statement_run_start hrest
    simp only [ends_block_statement, not_or] at hnext
    obtain ⟨-, h1, h2, h3, h4⟩ := hnext
    rw [parse_program_sub_loop]
    simp only [hopen, ne_eq, not_false_eq_true, if_true, hs']
    rw [hb k (by have := le_max_right f bound; omega) start (seq ++ [node])]
    simp only [List.append_assoc, List.singleton_append]

theorem unclosed_block_statements (E : Collaborators) (P : Parser) (st : State)
    (nodes : List SyntaxNode) (st' : State)
    (hopen : (P.current st).kind = SyntaxKind.LCurlyToken)
    (hrun : StatementRun E P ⟨st.position + 1, st.diagnostics⟩ nodes st')
    (heof : (P.current st').kind = SyntaxKind.EndOfFileToken) :
    ∃ bound, ∀ fuel, bound ≤ fuel →
      parse_statement E P fuel st =
        some (SyntaxNode.Sequence nodes
            (P.span_to_current (P.current ⟨st.position + 1, st.diagnostics⟩).pos st')
            P.show_return,
          ⟨st'.position, st.diagnostics ++
            [⟨SyntaxKind.EndOfFileToken, SyntaxKind.RCurlyToken, (P.current st').pos⟩]⟩) := by
  obtain ⟨bound, hb⟩ := sub_loop_statement_run hrun heof
  have hd := statement_run_diagnostics hrun
  simp only at hd
  refine ⟨bound + 2, fun fuel hf => ?_⟩
  obtain ⟨k, rfl⟩ : ∃ k, fuel = k + 1 + 1 := ⟨fuel - 2, by omega⟩
  rw [parse_statement]
  simp only [hopen, Parser.next_token]
  rw [parse_program]
  simp only [if_true]
  rw [hb k (by omega)]
  have hne : (P.current st').kind ≠ SyntaxKind.RCurlyToken := by rw [heof]; decide
  simp only [Parser.match_token, if_neg hne, report_unexpected_token, heof, hd,
    List.nil_append, Parser.span_to_current]
  rfl

/-- The block `{ a; b;` has the two children `a` and `b` and one diagnostic. -/
theorem unclosed_block_statements_example :
    ∃ bound, ∀ fuel, bound ≤ fuel →
      parse_statement example_collaborators unclosed_buffer fuel ⟨0, []⟩ =
        some (SyntaxNode.Sequence
            [SyntaxNode.VarAccess (example_token SyntaxKind.IdentifierToken 2 "a") ⟨1, 2, 2, 4⟩,
              SyntaxNode.VarAccess (example_token SyntaxKind.IdentifierToken 5 "b") ⟨1, 5, 5, 7⟩]
            ⟨1, 2, 2, 7⟩ false,
          ⟨5, [⟨SyntaxKind.EndOfFileToken, SyntaxKind.RCurlyToken, ⟨1, 7, 7, 7⟩⟩]⟩) :=
  unclosed_block_statements example_collaborators unclosed_buffer ⟨0, []⟩ _ ⟨5, []⟩ rfl
    (StatementRun.next ⟨1, []⟩ 4 _ ⟨3, []⟩ _ _ (by unfold ends_block_statement; decide) rfl rfl
      (StatementRun.last ⟨3, []⟩ 4 _ ⟨5, []⟩ (by unfold ends_block_statement; decide) rfl rfl))
    rfl

/-! ## The sequences of `parse_program` -/

theorem sub_loop_flag (E : Collaborators) (P : Parser) (fuel : Nat) :
    ∀ (start : Position) (seq : List SyntaxNode) (st : State) (node : SyntaxNode) (st' : State),
    parse_program_sub_loop E P fuel start seq st = some (node, st') →
    node.sequence_flag = some P.show_return := by
  induction fuel with
  | zero => intro start seq st node st' h; simp [parse_program_sub_loop] at h
  | succ fuel ih =>
    intro start seq st node st' h
    simp only [parse_program_sub_loop] at h
    repeat' split at h
    all_goals (try cases h)
    all_goals (try rfl)
    all_goals (exact ih _ _ _ _ _ ‹_›)

theorem top_loop_flag (E : Collaborators) (P : Parser) (fuel : Nat) :
    ∀ (start : Position) (seq : List SyntaxNode) (st : State) (node : SyntaxNode) (st' : State),
    parse_program_top_loop E P fuel start seq st = some (node, st') →
    node.sequence_flag = some P.show_return := by
  induction fuel with
  | zero => intro start seq st node st' h; simp [parse_program_top_loop] at h
  | succ fuel ih =>
    intro start seq st node st' h
    simp only [parse_program_top_loop] at h
    repeat' split at h
    all_goals (try cases h)
    all_goals (try rfl)
    all_goals (exact ih _ _ _ _ _ ‹_›)

/-! ## C16: the parallel lists of an `if` node -/

theorem parse_elif_loop_chain (E : Collaborators) (P : Parser) (fuel : Nat) :
    ∀ (conditions bodies : List SyntaxNode) (st : State) (conditions' bodies' : List SyntaxNode)
      (st' : State),
    parse_elif_loop E P fuel conditions bodies st = some (conditions', bodies', st') →
    ∃ branches, ElifChain E P st branches st' ∧
      conditions' = conditions ++ branches.map Prod.fst ∧
      bodies' = bodies ++ branches.map Prod.snd := by
  induction fuel with
  | zero => intro cs bs st cs' bs' st' h; simp [parse_elif_loop] at h
  | succ fuel ih =>
    intro cs bs st cs' bs' st' h
    rw [parse_elif_loop] at h
    by_cases hk : (P.current st).kind = SyntaxKind.ElifKeyword
    · simp only [hk, if_true] at h
      cases hx : parse_expression E P fuel default_precedence
          (P.match_token SyntaxKind.LParenToken (P.next_token st).2).2 with
      | none => rw [hx] at h; cases h
      | some x =>
        obtain ⟨condition, s1⟩ := x
        rw [hx] at h
        simp only at h
        cases hb : parse_statement E P fuel (P.match_token SyntaxKind.RParenToken s1).2 with
        | none => rw [hb] at h; cases h
        | some y =>
          obtain ⟨body, s2⟩ := y
          rw [hb] at h
          simp only at h
          obtain ⟨branches, hchain, hc, hbd⟩ := ih _ _ _ _ _ _ h
          refine ⟨(condition, body) :: branches,
            ElifChain.branch st fuel condition s1 body s2 branches st' hk hx hb hchain, ?_, ?_⟩
          · rw [hc, List.append_assoc]; rfl
          · rw [hbd, List.append_assoc]; rfl
    · simp only [if_neg hk, Option.some.injEq, Prod.mk.injEq] at h
      obtain ⟨rfl, rfl, rfl⟩ := h
      exact ⟨[], ElifChain.done st hk, by simp, by simp⟩

theorem expression_level_not_if (E : Collaborators) (P : Parser) (fuel : Nat) :
    (∀ prec st node st', parse_expression E P fuel prec st = some (node, st') →
      node.is_if = false) ∧
    (∀ prec left st node st', parse_binary_loop E P fuel prec left st = some (node, st') →
      left.is_if = false → node.is_if = false) ∧
    (∀ st node st', parse_molecule E P fuel st = some (node, st') → node.is_if = false) ∧
    (∀ left st node st', parse_index_loop E P fuel left st = some (node, st') →
      left.is_if = false → node.is_if = false) ∧
    (∀ st node st', parse_atom E P fuel st = some (node, st') → node.is_if = false) := by
  induction fuel with
  | zero =>
    simp [parse_expression, parse_binary_loop, parse_molecule, parse_index_loop, parse_atom]
  | succ fuel ih =>
    obtain ⟨ih_expr, ih_bin, ih_mol, ih_idx, ih_atom⟩ := ih
    refine ⟨?_, ?_, ?_, ?_, ?_⟩
    · intro prec st node st' h
      simp only [parse_expression] at h
      repeat' split at h
      all_goals (try cases h)
      all_goals (try rfl)
      all_goals (try (exact ih_bin _ _ _ _ _ ‹parse_binary_loop E P fuel _ _ _ = some _› (by rfl)))
      all_goals (exact ih_bin _ _ _ _ _ ‹parse_binary_loop E P fuel _ _ _ = some _› (ih_mol _ _ _ ‹parse_molecule E P fuel _ = some _›))
    · intro prec left st node st' h hl
      simp only [parse_binary_loop] at h
      repeat' split at h
      all_goals (try cases h)
      all_goals (try exact hl)
      all_goals (exact ih_bin _ _ _ _ _ ‹parse_binary_loop E P fuel _ _ _ = some _› (by rfl))
    · intro st node st' h
      simp only [parse_molecule] at h
      repeat' split at h
      all_goals (try cases h)
      all_goals (first
        | exact ih_atom _ _ _ ‹parse_atom E P fuel _ = some _›
        | exact ih_idx _ _ _ _ ‹parse_index_loop E P fuel _ _ = some _› (ih_atom _ _ _ ‹parse_atom E P fuel _ = some _›))
    · intro left st node st' h hl
      simp only [parse_index_loop] at h
      repeat' split at h
      all_goals (try cases h)
      all_goals (try exact hl)
      all_goals (exact ih_idx _ _ _ _ ‹parse_index_loop E P fuel _ _ = some _› (by rfl))
    · intro st node st' h
      simp only [parse_atom] at h
      repeat' split at h
      all_goals (try cases h)
      all_goals (first | rfl | exact ih_expr _ _ _ _ ‹parse_expression E P fuel _ _ = some _›)

theorem if_node_parallel_arrays (E : Collaborators) (P : Parser) (fuel : Nat) (st : State)
    (conditions bodies : List SyntaxNode) (else_body : Option SyntaxNode) (pos : Position)
    (st' : State)
    (h : parse_statement E P fuel st =
      some (SyntaxNode.If conditions bodies else_body pos, st')) :
    ∃ f condition s0 body s1 branches s2,
      (P.current st).kind = SyntaxKind.IfKeyword ∧
      parse_expression E P f default_precedence
        (P.match_token SyntaxKind.LParenToken (P.next_token st).2).2 = some (condition, s0) ∧
      parse_statement E P f (P.match_token SyntaxKind.RParenToken s0).2 = some (body, s1) ∧
      ElifChain E P s1 branches s2 ∧
      conditions = condition :: branches.map Prod.fst ∧
      bodies = body :: branches.map Prod.snd ∧
      conditions.length = branches.length + 1 ∧
      bodies.length = branches.length + 1 ∧
      (else_body.isSome = true ↔ (P.current s2).kind = SyntaxKind.ElseKeyword) := by
  cases fuel with
  | zero => simp [parse_statement] at h
  | succ fuel =>
    rw [parse_statement] at h
    split at h
    · -- a block
      cases fuel with
      | zero => simp [parse_program] at h
      | succ fuel =>
        rw [parse_program] at h
        have := sub_loop_flag E P fuel _ _ _ _ _ h
        cases this
    · -- the `if` case
      rename_i hk
      simp only at h
      cases hx : parse_expression E P fuel default_precedence
          (P.match_token SyntaxKind.LParenToken (P.next_token st).2).2 with
      | none => rw [hx] at h; cases h
      | some x =>
        obtain ⟨condition, s0⟩ := x
        rw [hx] at h
        simp only at h
        cases hb : parse_statement E P fuel (P.match_token SyntaxKind.RParenToken s0).2 with
        | none => rw [hb] at h; cases h
        | some y =>
          obtain ⟨body, s1⟩ := y
          rw [hb] at h
          simp only at h
          cases hl : parse_elif_loop E P fuel [condition] [body] s1 with
          | none => rw [hl] at h; cases h
          | some z =>
            obtain ⟨cs, bs, s2⟩ := z
            rw [hl] at h
            simp only at h
            obtain ⟨branches, hchain, hcs, hbs⟩ := parse_elif_loop_chain E P fuel _ _ _ _ _ _ hl
            have key : cs = conditions ∧ bs = bodies ∧
                (else_body.isSome = true ↔ (P.current s2).kind = SyntaxKind.ElseKeyword) := by
              by_cases he : (P.current s2).kind = SyntaxKind.ElseKeyword
              · rw [if_pos he] at h
                cases hs : parse_statement E P fuel (P.next_token s2).2 with
                | none => rw [hs] at h; cases h
                | some w =>
                  rw [hs] at h
                  simp only [Option.some.injEq, Prod.mk.injEq, SyntaxNode.If.injEq] at h
                  obtain ⟨⟨rfl, rfl, rfl, -⟩, -⟩ := h
                  exact ⟨rfl, rfl, by simp [he]⟩
              · rw [if_neg he] at h
                simp only [Option.some.injEq, Prod.mk.injEq, SyntaxNode.If.injEq] at h
                obtain ⟨⟨rfl, rfl, rfl, -⟩, -⟩ := h
                exact ⟨rfl, rfl, by simp [he]⟩
            obtain ⟨rfl, rfl, helse⟩ := key
            refine ⟨fuel, condition, s0, body, s1, branches, s2, hk, hx, hb, hchain, ?_, ?_, ?_,
              ?_, helse⟩
            · rw [hcs]; rfl
            · rw [hbs]; rfl
            · rw [hcs]; simp
            · rw [hbs]; simp
    all_goals (try simp only at h)
    all_goals (try (repeat' split at h))
    all_goals (try cases h)
    all_goals (try (
      have hnot := (expression_level_not_if E P fuel).1 _ _ _ _
        ‹parse_expression E P fuel _ _ = some _›
      cases hnot))

/-- Witness of C16's theorem: `if (a) b; elif (c) d; else e;`. -/
theorem if_node_parallel_arrays_witness :
    ∃ f condition s0 body s1 branches s2,
      (elif_buffer.current ⟨0, []⟩).kind = SyntaxKind.IfKeyword ∧
      parse_expression example_collaborators elif_buffer f default_precedence
        (elif_buffer.match_token SyntaxKind.LParenToken (elif_buffer.next_token ⟨0, []⟩).2).2 =
          some (condition, s0) ∧
      parse_statement example_collaborators elif_buffer f
        (elif_buffer.match_token SyntaxKind.RParenToken s0).2 = some (body, s1) ∧
      ElifChain example_collaborators elif_buffer s1 branches s2 ∧
      [SyntaxNode.VarAccess (example_token SyntaxKind.IdentifierToken 4 "a") ⟨1, 4, 4, 6⟩,
        SyntaxNode.VarAccess (example_token SyntaxKind.IdentifierToken 16 "c") ⟨1, 16, 16, 18⟩] =
          condition :: branches.map Prod.fst ∧
      [SyntaxNode.VarAccess (example_token SyntaxKind.IdentifierToken 7 "b") ⟨1, 7, 7, 9⟩,
        SyntaxNode.VarAccess (example_token SyntaxKind.IdentifierToken 19 "d") ⟨1, 19, 19, 21⟩] =
          body :: branches.map Prod.snd ∧
      [SyntaxNode.VarAccess (example_token SyntaxKind.IdentifierToken 4 "a") ⟨1, 4, 4, 6⟩,
        SyntaxNode.VarAccess (example_token SyntaxKind.IdentifierToken 16 "c")
          ⟨1, 16, 16, 18⟩].length = branches.length + 1 ∧
      [SyntaxNode.VarAccess (example_token SyntaxKind.IdentifierToken 7 "b") ⟨1, 7, 7, 9⟩,
        SyntaxNode.VarAccess (example_token SyntaxKind.IdentifierToken 19 "d")
          ⟨1, 19, 19, 21⟩].length = branches.length + 1 ∧
      ((some (SyntaxNode.VarAccess (example_token SyntaxKind.IdentifierToken 27 "e")
          ⟨1, 27, 27, 29⟩)).isSome = true ↔
        (elif_buffer.current s2).kind = SyntaxKind.ElseKeyword) :=
  if_node_parallel_arrays example_collaborators elif_buffer 6 ⟨0, []⟩ _ _ _ ⟨1, 0, 0, 29⟩
    ⟨15, []⟩ rfl

/-! ## C17: index suffixes -/

theorem parse_atom_fuel_mono (E : Collaborators) (P : Parser) (fuel fuel' : Nat)
    (hle : fuel ≤ fuel') (st : State) (x : SyntaxNode × State)
    (h : parse_atom E P fuel st = some x) : parse_atom E P fuel' st = some x := by
  induction hle with
  | refl => exact h
  | step _ ih => exact (expression_level_fuel_succ E P _).2.2.2.2.2 _ _ ih

theorem index_suffixes_diagnostics {E : Collaborators} {P : Parser} {st : State}
    {suffixes : List (SyntaxNode × Position)} {st' : State}
    (h : IndexSuffixes E P st suffixes st') : st'.diagnostics = st.diagnostics := by
  induction h with
  | done st => rfl
  | suffix st fuel index s1 rest st' _ _ hd _ _ ih => rw [ih]; exact hd

theorem parse_index_loop_suffixes {E : Collaborators} {P : Parser} {st : State}
    {suffixes : List (SyntaxNode × Position)} {st' : State}
    (h : IndexSuffixes E P st suffixes st')
    (hend : (P.current st').kind ≠ SyntaxKind.LSquareToken) :
    ∃ bound, ∀ fuel, bound ≤ fuel → ∀ left,
      parse_index_loop E P fuel left st = some (index_nest left suffixes, st') := by
  induction h with
  | done st =>
    refine ⟨1, fun fuel hf left => ?_⟩
    obtain ⟨k, rfl⟩ : ∃ k, fuel = k + 1 := ⟨fuel - 1, by omega⟩
    rw [parse_index_loop]
    simp only [if_neg hend]
    rfl
  | suffix st f index s1 rest st' hopen hx _ hclose _ ih =>
    obtain ⟨bound, hb⟩ := ih hend
    refine ⟨max f bound + 1, fun fuel hf left => ?_⟩
    obtain ⟨k, rfl⟩ : ∃ k, fuel = k + 1 := ⟨fuel - 1, by omega⟩
    have hx' := parse_expression_fuel_mono E P f k
      (by have := le_max_left f bound; omega) _ _ _ hx
    rw [parse_index_loop]
    simp only [hopen, if_true, Parser.next_token, hx', Parser.match_token, hclose]
    rw [hb k (by have := le_max_right f bound; omega)]
    rfl

theorem parse_molecule_index_suffixes (E : Collaborators) (P : Parser) (fuel : Nat) (st : State)
    (atom : SyntaxNode) (s0 : State) (suffixes : List (SyntaxNode × Position)) (st' : State)
    (hatom : parse_atom E P fuel st = some (atom, s0))
    (hsuffixes : IndexSuffixes E P s0 suffixes st')
    (hend : (P.current st').kind ≠ SyntaxKind.LSquareToken) :
    st'.diagnostics = s0.diagnostics ∧
      ∃ bound, ∀ fuel', bound ≤ fuel' →
        parse_molecule E P fuel' st = some (index_nest atom suffixes, st') := by
  obtain ⟨bound, hb⟩ := parse_index_loop_suffixes hsuffixes hend
  refine ⟨index_suffixes_diagnostics hsuffixes, max fuel bound + 1, fun fuel' hf => ?_⟩
  obtain ⟨k, rfl⟩ : ∃ k, fuel' = k + 1 := ⟨fuel' - 1, by omega⟩
  have ha := parse_atom_fuel_mono E P fuel k (by have := le_max_left fuel bound; omega) _ _ hatom
  have hl := hb k (by have := le_max_right fuel bound; omega) atom
  rw [parse_molecule]
  simp only [ha]
  cases hsuffixes with
  | done =>
    split
    · rename_i hk; exact absurd hk hend
    · rfl
  | suffix st1 f index s1 rest st2 hopen hx hd hclose hrest =>
    simp only [hopen]
    exact hl

end Kalman

namespace Kalman

/-- Witness of C17's theorem: `a[0][1];` parses to
`Index(Index(a, 0), 1)`. -/
theorem parse_molecule_index_suffixes_witness :
    (⟨7, []⟩ : State).diagnostics = (⟨1, []⟩ : State).diagnostics ∧
      ∃ bound, ∀ fuel', bound ≤ fuel' →
        parse_molecule example_collaborators two_index_buffer fuel' ⟨0, []⟩ =
          some (SyntaxNode.Index
            (SyntaxNode.Index
              (SyntaxNode.VarAccess (example_token SyntaxKind.IdentifierToken 0 "a")
                ⟨1, 0, 0, 2⟩)
              (SyntaxNode.Literal (some (Value.Integer 0)) ⟨1, 2, 2, 3⟩) ⟨1, 1, 1, 5⟩)
            (SyntaxNode.Literal (some (Value.Integer 1)) ⟨1, 5, 5, 6⟩) ⟨1, 4, 4, 8⟩,
            ⟨7, []⟩) :=
  parse_molecule_index_suffixes example_collaborators two_index_buffer 1 ⟨0, []⟩
    (SyntaxNode.VarAccess (example_token SyntaxKind.IdentifierToken 0 "a") ⟨1, 0, 0, 2⟩)
    ⟨1, []⟩
    [(SyntaxNode.Literal (some (Value.Integer 0)) ⟨1, 2, 2, 3⟩, ⟨1, 1, 1, 5⟩),
      (SyntaxNode.Literal (some (Value.Integer 1)) ⟨1, 5, 5, 6⟩, ⟨1, 4, 4, 8⟩)]
    ⟨7, []⟩ rfl
    (IndexSuffixes.suffix ⟨1, []⟩ 3 _ ⟨3, []⟩ _ _ rfl rfl rfl rfl
      (IndexSuffixes.suffix ⟨4, []⟩ 3 _ ⟨6, []⟩ _ _ rfl rfl rfl rfl
        (IndexSuffixes.done ⟨7, []⟩)))
    (by decide)

/-! ## C18: numeric literals -/

theorem parse_atom_numeric_literal (E : Collaborators) (P : Parser) (fuel : Nat) (st : State) :
    ((P.current st).kind = SyntaxKind.IntegerToken →
      parse_atom E P (fuel + 1) st =
        some (match E.read_long_long (P.current st).text with
          | some x => SyntaxNode.Literal (some (Value.Integer x)) (P.current st).pos
          | none => SyntaxNode.Literal none E.null_position,
          ⟨st.position + 1, st.diagnostics⟩)) ∧
    ((P.current st).kind = SyntaxKind.DoubleToken →
      parse_atom E P (fuel + 1) st =
        some (match E.read_long_double (P.current st).text with
          | some x => SyntaxNode.Literal (some (Value.Double x)) (P.current st).pos
          | none => SyntaxNode.Literal none E.null_position,
          ⟨st.position + 1, st.diagnostics⟩)) := by
  constructor
  · intro h
    rw [parse_atom]
    simp only [h, Parser.next_token]
    cases E.read_long_long (P.current st).text <;> rfl
  · intro h
    rw [parse_atom]
    simp only [h, Parser.next_token]
    cases E.read_long_double (P.current st).text <;> rfl

/-- Witness of C18's theorem: `9223372036854775808` does not convert to a
`long long` and yields the literal of the null value; `1` converts. -/
theorem parse_atom_numeric_literal_witness :
    parse_atom bounded_collaborators overflow_buffer 1 ⟨0, []⟩ =
        some (SyntaxNode.Literal none ⟨0, 0, 0, 0⟩, ⟨1, []⟩) ∧
      parse_atom bounded_collaborators precedence_buffer 1 ⟨0, []⟩ =
        some (SyntaxNode.Literal (some (Value.Integer 1)) ⟨1, 0, 0, 1⟩, ⟨1, []⟩) :=
  ⟨((parse_atom_numeric_literal bounded_collaborators overflow_buffer 0 ⟨0, []⟩).1 rfl).trans rfl,
    ((parse_atom_numeric_literal bounded_collaborators precedence_buffer 0 ⟨0, []⟩).1 rfl).trans
      rfl⟩

/-! ## C19: the token of a failed match -/

theorem match_token_placeholder_not_zero_width :
    (stray_else_buffer.current ⟨0, []⟩).kind ≠ SyntaxKind.SemicolonToken ∧
      (stray_else_buffer.match_token SyntaxKind.SemicolonToken ⟨0, []⟩).1.pos.start = 0 ∧
      (stray_else_buffer.match_token SyntaxKind.SemicolonToken ⟨0, []⟩).1.pos.end_ = 4 := by
  refine ⟨by decide, rfl, rfl⟩

theorem match_token_placeholder_span (P : Parser) (k : SyntaxKind) (st : State)
    (h : (P.current st).kind ≠ k) :
    (P.match_token k st).1 = ⟨k, (P.current st).pos, ""⟩ ∧
      ((P.match_token k st).1.pos.end_ = (P.match_token k st).1.pos.start ↔
        (P.current st).pos.end_ = (P.current st).pos.start) := by
  have : (P.match_token k st).1 = ⟨k, (P.current st).pos, ""⟩ := by
    simp only [Parser.match_token, if_neg h]
    rfl
  rw [this]
  exact ⟨rfl, Iff.rfl⟩

/-- Witness of C19's amended theorem: the failed match on the text `else`. -/
theorem match_token_placeholder_span_witness :
    (stray_else_buffer.match_token SyntaxKind.SemicolonToken ⟨0, []⟩).1 =
        ⟨SyntaxKind.SemicolonToken, ⟨1, 0, 0, 4⟩, ""⟩ ∧
      ((stray_else_buffer.match_token SyntaxKind.SemicolonToken ⟨0, []⟩).1.pos.end_ =
          (stray_else_buffer.match_token SyntaxKind.SemicolonToken ⟨0, []⟩).1.pos.start ↔
        (stray_else_buffer.current ⟨0, []⟩).pos.end_ =
          (stray_else_buffer.current ⟨0, []⟩).pos.start) :=
  match_token_placeholder_span stray_else_buffer SyntaxKind.SemicolonToken ⟨0, []⟩ (by decide)

/-! ## C20: the flag of a sequence -/

theorem sequence_flags_coincide :
    parse example_collaborators tagged_buffer 9 ⟨0, []⟩ =
      some (SyntaxNode.Sequence
        [SyntaxNode.Sequence [SyntaxNode.Sequence [] ⟨1, 2, 2, 7⟩ true] ⟨1, 2, 2, 9⟩ true]
        ⟨1, 0, 0, 9⟩ true, ⟨6, []⟩) := rfl

theorem sequence_flags (E : Collaborators) (P : Parser) (fuel : Nat) (st : State)
    (node : SyntaxNode) (st' : State) :
    (∀ sub_program, parse_program E P fuel sub_program st = some (node, st') →
      node.sequence_flag = some P.show_return) ∧
    ((P.current st).kind = SyntaxKind.LSquareToken →
      parse_atom E P fuel st = some (node, st') → node.sequence_flag = some true) := by
  constructor
  · intro sub h
    cases fuel with
    | zero => simp [parse_program] at h
    | succ fuel =>
      rw [parse_program] at h
      cases sub
      · exact top_loop_flag E P fuel _ _ _ _ _ h
      · exact sub_loop_flag E P fuel _ _ _ _ _ h
  · intro hk h
    cases fuel with
    | zero => simp [parse_atom] at h
    | succ fuel =>
      simp only [parse_atom, hk] at h
      repeat' split at h
      all_goals (try cases h)
      all_goals rfl

/-- Witness of C20's amended theorem: with `show_return` set, the block of
`{ [ ] ; }` and its list literal. -/
theorem sequence_flags_witness :
    (parse_program example_collaborators tagged_buffer 7 true ⟨1, []⟩ =
        some (SyntaxNode.Sequence [SyntaxNode.Sequence [] ⟨1, 2, 2, 7⟩ true] ⟨1, 2, 2, 9⟩ true,
          ⟨5, []⟩) ∧
      (SyntaxNode.Sequence [SyntaxNode.Sequence [] ⟨1, 2, 2, 7⟩ true]
        ⟨1, 2, 2, 9⟩ true).sequence_flag = some tagged_buffer.show_return) ∧
    (parse_atom example_collaborators tagged_buffer 1 ⟨1, []⟩ =
        some (SyntaxNode.Sequence [] ⟨1, 2, 2, 7⟩ true, ⟨3, []⟩) ∧
      (SyntaxNode.Sequence [] ⟨1, 2, 2, 7⟩ true).sequence_flag = some true) :=
  ⟨⟨rfl, (sequence_flags example_collaborators tagged_buffer 7 ⟨1, []⟩ _ ⟨5, []⟩).1 true rfl⟩,
    ⟨rfl, (sequence_flags example_collaborators tagged_buffer 1 ⟨1, []⟩ _ ⟨3, []⟩).2 rfl rfl⟩⟩

/-! ## C21: the token buffer of the constructor -/

theorem read_tokens_eq (lexed : List SyntaxToken)
    (h : ∃ token, token ∈ lexed ∧ token.kind = SyntaxKind.EndOfFileToken) :
    ∀ tokens, Parser.read_tokens lexed tokens =
      some (tokens ++ filtered_through_end_of_file lexed) := by
  induction lexed with
  | nil => obtain ⟨t, ht, -⟩ := h; cases ht
  | cons token lexed ih =>
    intro tokens
    rw [Parser.read_tokens]
    by_cases hk : token.kind = SyntaxKind.EndOfFileToken
    · simp [hk, filtered_through_end_of_file, through_end_of_file, is_dropped_kind]
    · have h' : ∃ t, t ∈ lexed ∧ t.kind = SyntaxKind.EndOfFileToken := by
        obtain ⟨t, ht, hte⟩ := h
        rcases List.mem_cons.mp ht with rfl | ht
        · exact absurd hte hk
        · exact ⟨t, ht, hte⟩
      simp only [hk, ne_eq, not_false_eq_true, if_true]
      rw [ih h']
      by_cases hd : is_dropped_kind token.kind
      · have : filtered_through_end_of_file (token :: lexed) =
            filtered_through_end_of_file lexed := by
          simp [filtered_through_end_of_file, through_end_of_file, hk, hd]
        rw [this]
        rcases hd with hd | hd | hd <;> simp only [hd]
      · have : filtered_through_end_of_file (token :: lexed) =
            token :: filtered_through_end_of_file lexed := by
          simp [filtered_through_end_of_file, through_end_of_file, hk, hd]
        rw [this]
        simp only [is_dropped_kind, not_or] at hd
        obtain ⟨h1, h2, h3⟩ := hd
        split <;> first
          | contradiction
          | simp

theorem filtered_through_end_of_file_last (lexed : List SyntaxToken)
    (h : ∃ token, token ∈ lexed ∧ token.kind = SyntaxKind.EndOfFileToken) :
    ∃ init last, filtered_through_end_of_file lexed = init ++ [last] ∧
      last.kind = SyntaxKind.EndOfFileToken ∧
      ∀ token, token ∈ init → token.kind ≠ SyntaxKind.EndOfFileToken := by
  induction lexed with
  | nil => obtain ⟨t, ht, -⟩ := h; cases ht
  | cons token lexed ih =>
    by_cases hk : token.kind = SyntaxKind.EndOfFileToken
    · refine ⟨[], token, ?_, hk, fun _ h => by cases h⟩
      simp [filtered_through_end_of_file, through_end_of_file, hk, is_dropped_kind]
    · have h' : ∃ t, t ∈ lexed ∧ t.kind = SyntaxKind.EndOfFileToken := by
        obtain ⟨t, ht, hte⟩ := h
        rcases List.mem_cons.mp ht with rfl | ht
        · exact absurd hte hk
        · exact ⟨t, ht, hte⟩
      obtain ⟨init, last, he, hl, hi⟩ := ih h'
      by_cases hd : is_dropped_kind token.kind
      · refine ⟨init, last, ?_, hl, hi⟩
        rw [← he]
        simp [filtered_through_end_of_file, through_end_of_file, hk, hd]
      · refine ⟨token :: init, last, ?_, hl, ?_⟩
        · rw [List.cons_append, ← he]
          simp [filtered_through_end_of_file, through_end_of_file, hk, hd]
        · intro t ht
          rcases List.mem_cons.mp ht with rfl | ht
          · exact hk
          · exact hi t ht

/-- C21: when the lexer's output holds an end-of-file token, the constructor
builds the filtered buffer, the tokens up to and including
the first end-of-file token with every `BadToken`, `WhitespaceToken` and
`CommentToken` removed and the others in their order; the buffer is not empty,
its last token is an end-of-file token and no token before the last is. -/
theorem create_filters_tokens (lexed : List SyntaxToken) (show_return : Bool)
    (h : ∃ token, token ∈ lexed ∧ token.kind = SyntaxKind.EndOfFileToken) :
    Parser.create lexed show_return =
        some ⟨filtered_through_end_of_file lexed, show_return⟩ ∧
      filtered_through_end_of_file lexed ≠ [] ∧
      ∃ init last, filtered_through_end_of_file lexed = init ++ [last] ∧
        last.kind = SyntaxKind.EndOfFileToken ∧
        ∀ token, token ∈ init → token.kind ≠ SyntaxKind.EndOfFileToken := by
  obtain ⟨init, last, he, hl, hi⟩ := filtered_through_end_of_file_last lexed h
  refine ⟨?_, ?_, init, last, he, hl, hi⟩
  · unfold Parser.create
    rw [read_tokens_eq lexed h []]
    rfl
  · rw [he]; simp

/-- Witness of C21's theorem: the lexer output of `a /*c*/ ;` gives the buffer
of the identifier, the `;` and the end of file. -/
theorem create_filters_tokens_witness :
    Parser.create lexed_example false =
        some ⟨[example_token SyntaxKind.IdentifierToken 0 "a",
          example_token SyntaxKind.SemicolonToken 8 ";",
          example_token SyntaxKind.EndOfFileToken 9 ""], false⟩ ∧
      filtered_through_end_of_file lexed_example ≠ [] ∧
      ∃ init last, filtered_through_end_of_file lexed_example = init ++ [last] ∧
        last.kind = SyntaxKind.EndOfFileToken ∧
        ∀ token, token ∈ init → token.kind ≠ SyntaxKind.EndOfFileToken :=
  create_filters_tokens lexed_example false
    ⟨example_token SyntaxKind.EndOfFileToken 9 "", by simp [lexed_example], rfl⟩

/-! ## C22: the clamped cursor -/

theorem next_tokens_position (P : Parser) (n : Nat) :
    ∀ st, (P.next_tokens n st).position = st.position + n := by
  induction n with
  | zero => intro st; rfl
  | succ n ih =>
    intro st
    rw [Parser.next_tokens, ih]
    simp only [next_token_snd]
    omega

theorem peek_in_range (P : Parser) (st : State) (offset : Nat)
    (h : st.position + offset < P.tokens.length) :
    P.tokens[st.position + offset]? = some (P.peek st offset) := by
  unfold Parser.peek
  simp only [ge_iff_le, if_neg (Nat.not_le.mpr h)]
  rw [List.getD_eq_getElem?_getD, List.getElem?_eq_getElem h]
  rfl

theorem peek_clamped (P : Parser) (st : State) (offset : Nat) (hne : P.tokens ≠ [])
    (h : P.tokens.length ≤ st.position + offset) :
    P.tokens[P.tokens.length - 1]? = some (P.peek st offset) := by
  have hpos : 0 < P.tokens.length := List.length_pos.mpr hne
  unfold Parser.peek
  simp only [ge_iff_le, if_pos h]
  rw [List.getD_eq_getElem?_getD, List.getElem?_eq_getElem (by omega)]
  rfl

/-- C22: on a buffer that is not empty, `peek(offset)` returns the token at
index `_position + offset` when that index is below the buffer's size and the
last token otherwise, so it never reads out of bounds; and when the last
token is the end-of-file token and the cursor is on it or past it, `current`
and `look_ahead` return an end-of-file token after any number `n` of further
calls of `next_token`. -/
theorem peek_clamps (P : Parser) (st : State) (offset : Nat) (hne : P.tokens ≠ []) :
    (st.position + offset < P.tokens.length →
      P.tokens[st.position + offset]? = some (P.peek st offset)) ∧
    (P.tokens.length ≤ st.position + offset →
      P.tokens[P.tokens.length - 1]? = some (P.peek st offset)) ∧
    ((∀ last, P.tokens[P.tokens.length - 1]? = some last →
        last.kind = SyntaxKind.EndOfFileToken) →
      P.tokens.length ≤ st.position + 1 →
      ∀ n, (P.current (P.next_tokens n st)).kind = SyntaxKind.EndOfFileToken ∧
        (P.look_ahead (P.next_tokens n st)).kind = SyntaxKind.EndOfFileToken) := by
  refine ⟨peek_in_range P st offset, peek_clamped P st offset hne, ?_⟩
  intro hlast hpos n
  have hlen : 0 < P.tokens.length := List.length_pos.mpr hne
  have hp := next_tokens_position P n st
  constructor
  · by_cases hc : (P.next_tokens n st).position + 0 < P.tokens.length
    · have := peek_in_range P (P.next_tokens n st) 0 hc
      rw [show (P.next_tokens n st).position + 0 = P.tokens.length - 1 by omega] at this
      exact hlast _ this
    · exact hlast _ (peek_clamped P (P.next_tokens n st) 0 hne (by omega))
  · exact hlast _ (peek_clamped P (P.next_tokens n st) 1 hne (by omega))

/-- Witness of C22's theorem, on the buffer of the text `else`, whose two
tokens are `else` and the end of file: a read in range, a clamped read, and
the reads after further calls of `next_token` from the last token. -/
theorem peek_clamps_witness :
    stray_else_buffer.tokens[0 + 1]? = some (stray_else_buffer.peek ⟨0, []⟩ 1) ∧
      stray_else_buffer.tokens[stray_else_buffer.tokens.length - 1]? =
        some (stray_else_buffer.peek ⟨5, []⟩ 3) ∧
      ∀ n, (stray_else_buffer.current (stray_else_buffer.next_tokens n ⟨1, []⟩)).kind =
          SyntaxKind.EndOfFileToken ∧
        (stray_else_buffer.look_ahead (stray_else_buffer.next_tokens n ⟨1, []⟩)).kind =
          SyntaxKind.EndOfFileToken :=
  ⟨(peek_clamps stray_else_buffer ⟨0, []⟩ 1 (by simp [stray_else_buffer])).1 (by decide),
    (peek_clamps stray_else_buffer ⟨5, []⟩ 3 (by simp [stray_else_buffer])).2.1 (by decide),
    (peek_clamps stray_else_buffer ⟨1, []⟩ 0 (by simp [stray_else_buffer])).2.2
      (by intro last h; simp [stray_else_buffer] at h; rw [← h]; rfl) (by decide)⟩

/-! ## C23: progress of the statement parser -/

theorem diagnostic_mark_append (i : Nat) (x : Diagnostic) (d e : List Diagnostic) :
    diagnostic_mark i x (d ++ e) = diagnostic_mark i x d + append_gain i x d e := by
  unfold append_gain
  have : diagnostic_mark i x d ≤ diagnostic_mark i x (d ++ e) := by
    unfold diagnostic_mark
    by_cases h : d[i]? = some x
    · have hi : i < d.length := by
        by_contra hn
        rw [List.getElem?_eq_none (Nat.le_of_not_lt hn)] at h
        cases h
      rw [if_pos h, List.getElem?_append_left hi, if_pos h]
    · rw [if_neg h]
      exact Nat.zero_le _
  omega

theorem match_token_diagnostics (P : Parser) (k : SyntaxKind) (st : State) :
    (P.match_token k st).2.diagnostics =
      st.diagnostics ++
        (if (P.current st).kind = k then []
          else [⟨(P.current st).kind, k, (P.current st).pos⟩]) := by
  unfold Parser.match_token
  split <;> simp [report_unexpected_token]

theorem match_token_mark (P : Parser) (k : SyntaxKind) (st : State) (i : Nat) (x : Diagnostic) :
    diagnostic_mark i x (P.match_token k st).2.diagnostics =
      diagnostic_mark i x st.diagnostics +
        append_gain i x st.diagnostics
          (if (P.current st).kind = k then []
            else [⟨(P.current st).kind, k, (P.current st).pos⟩]) := by
  rw [match_token_diagnostics, diagnostic_mark_append]

theorem append_of_marks (d d' : List Diagnostic)
    (h : ∀ i x, diagnostic_mark i x d ≤ diagnostic_mark i x d') :
    ∃ appended, d' = d ++ appended := by
  have hp : d <+: d' := by
    rw [List.isPrefix_iff]
    intro i hi
    have := h i d[i]
    unfold diagnostic_mark at this
    rw [if_pos (List.getElem?_eq_getElem hi)] at this
    by_contra hn
    rw [if_neg hn] at this
    omega
  obtain ⟨e, he⟩ := hp
  exact ⟨e, he.symm⟩

/-- The expression parser keeps the mark of every diagnostic recorded before a call. -/
theorem expression_level_marks (E : Collaborators) (P : Parser) (i : Nat) (x : Diagnostic)
    (fuel : Nat) :
    (∀ prec st r st', parse_expression E P fuel prec st = some (r, st') →
      diagnostic_mark i x st.diagnostics ≤ diagnostic_mark i x st'.diagnostics) ∧
    (∀ prec left st r st', parse_binary_loop E P fuel prec left st = some (r, st') →
      diagnostic_mark i x st.diagnostics ≤ diagnostic_mark i x st'.diagnostics) ∧
    (∀ st r st', parse_molecule E P fuel st = some (r, st') →
      diagnostic_mark i x st.diagnostics ≤ diagnostic_mark i x st'.diagnostics) ∧
    (∀ left st r st', parse_index_loop E P fuel left st = some (r, st') →
      diagnostic_mark i x st.diagnostics ≤ diagnostic_mark i x st'.diagnostics) ∧
    (∀ l st r st', parse_comma_loop E P fuel l st = some (r, st') →
      diagnostic_mark i x st.diagnostics ≤ diagnostic_mark i x st'.diagnostics) ∧
    (∀ st r st', parse_atom E P fuel st = some (r, st') →
      diagnostic_mark i x st.diagnostics ≤ diagnostic_mark i x st'.diagnostics) := by
  induction fuel with
  | zero =>
    simp [parse_expression, parse_binary_loop, parse_molecule, parse_index_loop,
      parse_comma_loop, parse_atom]
  | succ fuel ih =>
    obtain ⟨ih_expr, ih_bin, ih_mol, ih_idx, ih_comma, ih_atom⟩ := ih
    have e_expr : ∀ prec st r st', (parse_expression E P fuel prec st = some (r, st')) =
        (some (r, st') = parse_expression E P fuel prec st ∧
          diagnostic_mark i x st.diagnostics ≤ diagnostic_mark i x st'.diagnostics) :=
      fun _ _ _ _ => propext ⟨fun h => ⟨h.symm, ih_expr _ _ _ _ h⟩, fun h => h.1.symm⟩
    have e_bin : ∀ prec left st r st', (parse_binary_loop E P fuel prec left st = some (r, st')) =
        (some (r, st') = parse_binary_loop E P fuel prec left st ∧
          diagnostic_mark i x st.diagnostics ≤ diagnostic_mark i x st'.diagnostics) :=
      fun _ _ _ _ _ => propext ⟨fun h => ⟨h.symm, ih_bin _ _ _ _ _ h⟩, fun h => h.1.symm⟩
    have e_mol : ∀ st r st', (parse_molecule E P fuel st = some (r, st')) =
        (some (r, st') = parse_molecule E P fuel st ∧
          diagnostic_mark i x st.diagnostics ≤ diagnostic_mark i x st'.diagnostics) :=
      fun _ _ _ => propext ⟨fun h => ⟨h.symm, ih_mol _ _ _ h⟩, fun h => h.1.symm⟩
    have e_idx : ∀ left st r st', (parse_index_loop E P fuel left st = some (r, st')) =
        (some (r, st') = parse_index_loop E P fuel left st ∧
          diagnostic_mark i x st.diagnostics ≤ diagnostic_mark i x st'.diagnostics) :=
      fun _ _ _ _ => propext ⟨fun h => ⟨h.symm, ih_idx _ _ _ _ h⟩, fun h => h.1.symm⟩
    have e_comma : ∀ l st r st', (parse_comma_loop E P fuel l st = some (r, st')) =
        (some (r, st') = parse_comma_loop E P fuel l st ∧
          diagnostic_mark i x st.diagnostics ≤ diagnostic_mark i x st'.diagnostics) :=
      fun _ _ _ _ => propext ⟨fun h => ⟨h.symm, ih_comma _ _ _ _ h⟩, fun h => h.1.symm⟩
    have e_atom : ∀ st r st', (parse_atom E P fuel st = some (r, st')) =
        (some (r, st') = parse_atom E P fuel st ∧
          diagnostic_mark i x st.diagnostics ≤ diagnostic_mark i x st'.diagnostics) :=
      fun _ _ _ => propext ⟨fun h => ⟨h.symm, ih_atom _ _ _ h⟩, fun h => h.1.symm⟩
    clear ih_expr ih_bin ih_mol ih_idx ih_comma ih_atom
    refine ⟨?_, ?_, ?_, ?_, ?_, ?_⟩
    · intro prec st r st' h
      simp only [parse_expression] at h
      repeat' split at h
      all_goals (try simp only [Option.some.injEq, Prod.mk.injEq, reduceCtorEq] at h)
      all_goals (try (obtain ⟨-, rfl⟩ := h))
      all_goals (try simp only [e_expr, e_bin, e_mol, e_idx, e_comma, e_atom, next_token_snd,
        match_token_mark] at *)
      all_goals omega
    · intro prec left st r st' h
      simp only [parse_binary_loop] at h
      repeat' split at h
      all_goals (try simp only [Option.some.injEq, Prod.mk.injEq, reduceCtorEq] at h)
      all_goals (try (obtain ⟨-, rfl⟩ := h))
      all_goals (try simp only [e_expr, e_bin, e_mol, e_idx, e_comma, e_atom, next_token_snd,
        match_token_mark] at *)
      all_goals omega
    · intro st r st' h
      simp only [parse_molecule] at h
      repeat' split at h
      all_goals (try simp only [Option.some.injEq, Prod.mk.injEq, reduceCtorEq] at h)
      all_goals (try (obtain ⟨-, rfl⟩ := h))
      all_goals (try simp only [e_expr, e_bin, e_mol, e_idx, e_comma, e_atom, next_token_snd,
        match_token_mark] at *)
      all_goals omega
    · intro left st r st' h
      simp only [parse_index_loop] at h
      repeat' split at h
      all_goals (try simp only [Option.some.injEq, Prod.mk.injEq, reduceCtorEq] at h)
      all_goals (try (obtain ⟨-, rfl⟩ := h))
      all_goals (try simp only [e_expr, e_bin, e_mol, e_idx, e_comma, e_atom, next_token_snd,
        match_token_mark] at *)
      all_goals omega
    · intro l st r st' h
      simp only [parse_comma_loop] at h
      repeat' split at h
      all_goals (try simp only [Option.some.injEq, Prod.mk.injEq, reduceCtorEq] at h)
      all_goals (try (obtain ⟨-, rfl⟩ := h))
      all_goals (try simp only [e_expr, e_bin, e_mol, e_idx, e_comma, e_atom, next_token_snd,
        match_token_mark] at *)
      all_goals omega
    · intro st r st' h
      simp only [parse_atom] at h
      repeat' split at h
      all_goals (try simp only [Option.some.injEq, Prod.mk.injEq, reduceCtorEq] at h)
      all_goals (try (obtain ⟨-, rfl⟩ := h))
      all_goals (try simp only [e_expr, e_bin, e_mol, e_idx, e_comma, e_atom, next_token_snd,
        match_token_mark] at *)
      all_goals omega


theorem arg_names_loop_progress (P : Parser) (i : Nat) (x : Diagnostic) (fuel : Nat) :
    ∀ names st r st', parse_arg_names_loop P fuel names st = some (r, st') →
      st.position ≤ st'.position ∧ st.diagnostics.length ≤ st'.diagnostics.length ∧
        diagnostic_mark i x st.diagnostics ≤ diagnostic_mark i x st'.diagnostics := by
  induction fuel with
  | zero => intro names st r st' h; simp [parse_arg_names_loop] at h
  | succ fuel ih =>
    intro names st r st' h
    simp only [parse_arg_names_loop] at h
    split at h
    · have := ih _ _ _ _ h
      simp only [next_token_snd, match_token_position, match_token_diagnostics_length,
        match_token_mark] at this
      omega
    · simp only [Option.some.injEq, Prod.mk.injEq] at h
      obtain ⟨-, rfl⟩ := h
      omega

set_option maxHeartbeats 1000000 in
/-- The statement parser never moves the cursor back, never shrinks the
diagnostic bag and keeps the mark of every diagnostic recorded before a call;
`parse_statement` moves the cursor on or records a diagnostic. -/
theorem statement_level_progress (E : Collaborators) (P : Parser) (i : Nat) (x : Diagnostic)
    (fuel : Nat) :
    (∀ sub st r st', parse_program E P fuel sub st = some (r, st') →
      st.position ≤ st'.position ∧ st.diagnostics.length ≤ st'.diagnostics.length ∧
        diagnostic_mark i x st.diagnostics ≤ diagnostic_mark i x st'.diagnostics) ∧
    (∀ start seq st r st', parse_program_sub_loop E P fuel start seq st = some (r, st') →
      st.position ≤ st'.position ∧ st.diagnostics.length ≤ st'.diagnostics.length ∧
        diagnostic_mark i x st.diagnostics ≤ diagnostic_mark i x st'.diagnostics) ∧
    (∀ start seq st r st', parse_program_top_loop E P fuel start seq st = some (r, st') →
      st.position ≤ st'.position ∧ st.diagnostics.length ≤ st'.diagnostics.length ∧
        diagnostic_mark i x st.diagnostics ≤ diagnostic_mark i x st'.diagnostics) ∧
    (∀ st r st', parse_statement E P fuel st = some (r, st') →
      st.position ≤ st'.position ∧ st.diagnostics.length ≤ st'.diagnostics.length ∧
        diagnostic_mark i x st.diagnostics ≤ diagnostic_mark i x st'.diagnostics ∧
        (st.position < st'.position ∨ st.diagnostics.length < st'.diagnostics.length)) ∧
    (∀ cs bs st cs' bs' st', parse_elif_loop E P fuel cs bs st = some (cs', bs', st') →
      st.position ≤ st'.position ∧ st.diagnostics.length ≤ st'.diagnostics.length ∧
        diagnostic_mark i x st.diagnostics ≤ diagnostic_mark i x st'.diagnostics) := by
  induction fuel with
  | zero =>
    simp [parse_program, parse_program_sub_loop, parse_program_top_loop, parse_statement,
      parse_elif_loop]
  | succ fuel ih =>
    obtain ⟨ih_prog, ih_sub, ih_top, ih_stmt, ih_elif⟩ := ih
    have e_prog : ∀ sub st r st', (parse_program E P fuel sub st = some (r, st')) =
        (some (r, st') = parse_program E P fuel sub st ∧
          st.position ≤ st'.position ∧ st.diagnostics.length ≤ st'.diagnostics.length ∧
          diagnostic_mark i x st.diagnostics ≤ diagnostic_mark i x st'.diagnostics) :=
      fun _ _ _ _ => propext ⟨fun h => ⟨h.symm, ih_prog _ _ _ _ h⟩, fun h => h.1.symm⟩
    have e_sub : ∀ start seq st r st',
        (parse_program_sub_loop E P fuel start seq st = some (r, st')) =
        (some (r, st') = parse_program_sub_loop E P fuel start seq st ∧
          st.position ≤ st'.position ∧ st.diagnostics.length ≤ st'.diagnostics.length ∧
          diagnostic_mark i x st.diagnostics ≤ diagnostic_mark i x st'.diagnostics) :=
      fun _ _ _ _ _ => propext ⟨fun h => ⟨h.symm, ih_sub _ _ _ _ _ h⟩, fun h => h.1.symm⟩
    have e_top : ∀ start seq st r st',
        (parse_program_top_loop E P fuel start seq st = some (r, st')) =
        (some (r, st') = parse_program_top_loop E P fuel start seq st ∧
          st.position ≤ st'.position ∧ st.diagnostics.length ≤ st'.diagnostics.length ∧
          diagnostic_mark i x st.diagnostics ≤ diagnostic_mark i x st'.diagnostics) :=
      fun _ _ _ _ _ => propext ⟨fun h => ⟨h.symm, ih_top _ _ _ _ _ h⟩, fun h => h.1.symm⟩
    have e_stmt : ∀ st r st', (parse_statement E P fuel st = some (r, st')) =
        (some (r, st') = parse_statement E P fuel st ∧
          st.position ≤ st'.position ∧ st.diagnostics.length ≤ st'.diagnostics.length ∧
          diagnostic_mark i x st.diagnostics ≤ diagnostic_mark i x st'.diagnostics ∧
          (st.position < st'.position ∨ st.diagnostics.length < st'.diagnostics.length)) :=
      fun _ _ _ => propext ⟨fun h => ⟨h.symm, ih_stmt _ _ _ h⟩, fun h => h.1.symm⟩
    have e_elif : ∀ cs bs st cs' bs' st',
        (parse_elif_loop E P fuel cs bs st = some (cs', bs', st')) =
        (some (cs', bs', st') = parse_elif_loop E P fuel cs bs st ∧
          st.position ≤ st'.position ∧ st.diagnostics.length ≤ st'.diagnostics.length ∧
          diagnostic_mark i x st.diagnostics ≤ diagnostic_mark i x st'.diagnostics) :=
      fun _ _ _ _ _ _ => propext ⟨fun h => ⟨h.symm, ih_elif _ _ _ _ _ _ h⟩, fun h => h.1.symm⟩
    have e_expr : ∀ prec st r st', (parse_expression E P fuel prec st = some (r, st')) =
        (some (r, st') = parse_expression E P fuel prec st ∧
          (st.position ≤ st'.position ∧ st.diagnostics.length ≤ st'.diagnostics.length ∧
            (st.position < st'.position ∨ st.diagnostics.length < st'.diagnostics.length)) ∧
          diagnostic_mark i x st.diagnostics ≤ diagnostic_mark i x st'.diagnostics) :=
      fun _ _ _ _ => propext ⟨fun h => ⟨h.symm, (expression_level_progress E P fuel).1 _ _ _ _ h,
        (expression_level_marks E P i x fuel).1 _ _ _ _ h⟩, fun h => h.1.symm⟩
    have e_names : ∀ names st r st', (parse_arg_names_loop P fuel names st = some (r, st')) =
        (some (r, st') = parse_arg_names_loop P fuel names st ∧
          st.position ≤ st'.position ∧ st.diagnostics.length ≤ st'.diagnostics.length ∧
          diagnostic_mark i x st.diagnostics ≤ diagnostic_mark i x st'.diagnostics) :=
      fun _ _ _ _ => propext ⟨fun h => ⟨h.symm, arg_names_loop_progress P i x fuel _ _ _ _ h⟩,
        fun h => h.1.symm⟩
    clear ih_prog ih_sub ih_top ih_stmt ih_elif
    refine ⟨?_, ?_, ?_, ?_, ?_⟩
    · intro sub st r st' h
      simp only [parse_program] at h
      repeat' split at h
      all_goals (try simp only [e_prog, e_sub, e_top, e_stmt, e_elif, e_expr, e_names] at *)
      all_goals omega
    · intro start seq st r st' h
      simp only [parse_program_sub_loop] at h
      repeat' split at h
      all_goals (try simp only [Option.some.injEq, Prod.mk.injEq, reduceCtorEq] at h)
      all_goals (try (obtain ⟨-, rfl⟩ := h))
      all_goals (try simp only [e_prog, e_sub, e_top, e_stmt, e_elif, e_expr, e_names,
        next_token_snd, match_token_position, match_token_diagnostics_length, match_token_mark,
        report_unexpected_token, List.length_append, List.length_singleton,
        diagnostic_mark_append] at *)
      all_goals omega
    · intro start seq st r st' h
      simp only [parse_program_top_loop] at h
      repeat' split at h
      all_goals (try simp only [Option.some.injEq, Prod.mk.injEq, reduceCtorEq] at h)
      all_goals (try (obtain ⟨-, rfl⟩ := h))
      all_goals (try simp only [e_prog, e_sub, e_top, e_stmt, e_elif, e_expr, e_names,
        next_token_snd, match_token_position, match_token_diagnostics_length, match_token_mark,
        report_unexpected_token, List.length_append, List.length_singleton,
        diagnostic_mark_append] at *)
      all_goals omega
    · intro st r st' h
      simp only [parse_statement] at h
      by_cases hr : (P.current (P.match_token SyntaxKind.LParenToken
          (P.match_token SyntaxKind.IdentifierToken (P.next_token st).2).2).2).kind =
            SyntaxKind.RParenToken
      · simp only [hr, ne_eq, not_true_eq_false, if_false] at h
        repeat' split at h
        all_goals (try simp only [Option.some.injEq, Prod.mk.injEq, reduceCtorEq] at h)
        all_goals (try (obtain ⟨-, rfl⟩ := h))
        all_goals (try simp only [e_prog, e_sub, e_top, e_stmt, e_elif, e_expr, e_names,
          next_token_snd, match_token_position, match_token_diagnostics_length, match_token_mark,
          report_unexpected_token, List.length_append, List.length_singleton,
          diagnostic_mark_append] at *)
        all_goals omega
      · simp only [hr, ne_eq, not_false_eq_true, if_true] at h
        repeat' split at h
        all_goals (try simp only [Option.some.injEq, Prod.mk.injEq, reduceCtorEq] at h)
        all_goals (try (obtain ⟨-, rfl⟩ := h))
        all_goals (try simp only [e_prog, e_sub, e_top, e_stmt, e_elif, e_expr, e_names,
          next_token_snd, match_token_position, match_token_diagnostics_length, match_token_mark,
          report_unexpected_token, List.length_append, List.length_singleton,
          diagnostic_mark_append] at *)
        all_goals omega
    · intro cs bs st cs' bs' st' h
      simp only [parse_elif_loop] at h
      repeat' split at h
      all_goals (try simp only [Option.some.injEq, Prod.mk.injEq, reduceCtorEq] at h)
      all_goals (try (obtain ⟨-, -, rfl⟩ := h))
      all_goals (try simp only [e_prog, e_sub, e_top, e_stmt, e_elif, e_expr, e_names,
        next_token_snd, match_token_position, match_token_diagnostics_length, match_token_mark,
        report_unexpected_token, List.length_append, List.length_singleton,
        diagnostic_mark_append] at *)
      all_goals omega

/-- C23: when `parse_statement` returns, the cursor has not moved back, the
diagnostic bag is the bag at the call with the records of the call appended,
none removed or changed, and either the cursor has moved on by at least one
token or at least one diagnostic was appended. -/
theorem parse_statement_progress (E : Collaborators) (P : Parser) (fuel : Nat) (st : State)
    (node : SyntaxNode) (st' : State)
    (h : parse_statement E P fuel st = some (node, st')) :
    st.position ≤ st'.position ∧
      ∃ appended, st'.diagnostics = st.diagnostics ++ appended ∧
        (st.position < st'.position ∨ appended ≠ []) := by
  have hp := fun i x => (statement_level_progress E P i x fuel).2.2.2.1 st node st' h
  obtain ⟨appended, ha⟩ := append_of_marks st.diagnostics st'.diagnostics
    (fun i x => (hp i x).2.2.1)
  obtain ⟨h1, -, -, h4⟩ := hp 0 ⟨SyntaxKind.BadToken, SyntaxKind.BadToken, ⟨0, 0, 0, 0⟩⟩
  refine ⟨h1, appended, ha, ?_⟩
  rcases h4 with h4 | h4
  · exact Or.inl h4
  · right
    intro he
    rw [ha, he, List.append_nil] at h4
    exact Nat.lt_irrefl _ h4

/-- Witness of C23's theorem: on the text `else` the statement parser consumes
nothing and appends two diagnostics; on `a; ) b;` it reads `a;` and appends
none. -/
theorem parse_statement_progress_witness :
    (parse_statement example_collaborators stray_else_buffer 4 ⟨0, []⟩ =
        some (SyntaxNode.VarAccess ⟨SyntaxKind.IdentifierToken, ⟨1, 0, 0, 4⟩, ""⟩ ⟨1, 0, 0, 4⟩,
          ⟨0, [⟨SyntaxKind.ElseKeyword, SyntaxKind.IdentifierToken, ⟨1, 0, 0, 4⟩⟩,
            ⟨SyntaxKind.ElseKeyword, SyntaxKind.SemicolonToken, ⟨1, 0, 0, 4⟩⟩]⟩) ∧
      (0 : Nat) ≤ 0 ∧
      ∃ appended,
        [(⟨SyntaxKind.ElseKeyword, SyntaxKind.IdentifierToken, ⟨1, 0, 0, 4⟩⟩ : Diagnostic),
          ⟨SyntaxKind.ElseKeyword, SyntaxKind.SemicolonToken, ⟨1, 0, 0, 4⟩⟩] =
            [] ++ appended ∧
          ((0 : Nat) < 0 ∨ appended ≠ [])) ∧
    (parse_statement example_collaborators stray_at_top_buffer 4 ⟨0, []⟩ =
        some (SyntaxNode.VarAccess (example_token SyntaxKind.IdentifierToken 0 "a")
          ⟨1, 0, 0, 2⟩, ⟨2, []⟩) ∧
      (0 : Nat) ≤ 2 ∧
      ∃ appended, ([] : List Diagnostic) = [] ++ appended ∧
        ((0 : Nat) < 2 ∨ appended ≠ [])) :=
  ⟨⟨rfl, parse_statement_progress example_collaborators stray_else_buffer 4 ⟨0, []⟩
      (SyntaxNode.VarAccess ⟨SyntaxKind.IdentifierToken, ⟨1, 0, 0, 4⟩, ""⟩ ⟨1, 0, 0, 4⟩)
      ⟨0, [⟨SyntaxKind.ElseKeyword, SyntaxKind.IdentifierToken, ⟨1, 0, 0, 4⟩⟩,
        ⟨SyntaxKind.ElseKeyword, SyntaxKind.SemicolonToken, ⟨1, 0, 0, 4⟩⟩]⟩ rfl⟩,
    ⟨rfl, parse_statement_progress example_collaborators stray_at_top_buffer 4 ⟨0, []⟩
      (SyntaxNode.VarAccess (example_token SyntaxKind.IdentifierToken 0 "a") ⟨1, 0, 0, 2⟩)
      ⟨2, []⟩ rfl⟩⟩

/-! ## C2: an index bracket after the expression -/

/-- Counterexample to C2 as stated: in `1 + 2 * 3 [ 0 ] ;` the token after
`1 + 2 * 3` is `[`, which is no operator (the table gives it neither a binary
nor a unary precedence), yet `parse_expression(0)` does not return
`Binary(+, Literal(1), Binary(*, Literal(2), Literal(3)))` with the cursor on
that token: `parse_molecule` takes `[ 0 ]` as an index suffix of `3`, so for
every fuel that suffices the result is
`Binary(+, Literal(1), Binary(*, Literal(2), Index(Literal(3), Literal(0))))`
with the cursor on `;`. -/
theorem parse_expression_precedence_before_bracket :
    example_collaborators.get_binary_precedence SyntaxKind.LSquareToken = 0 ∧
      example_collaborators.get_unary_precedence SyntaxKind.LSquareToken = 0 ∧
      ∀ fuel, parse_expression example_collaborators indexed_operand_buffer fuel 0 ⟨0, []⟩ =
        if fuel < 10 then none
        else some (SyntaxNode.Binary
            (SyntaxNode.Literal (some (Value.Integer 1)) ⟨1, 0, 0, 1⟩)
            (example_token SyntaxKind.PlusToken 2 "+")
            (SyntaxNode.Binary
              (SyntaxNode.Literal (some (Value.Integer 2)) ⟨1, 4, 4, 5⟩)
              (example_token SyntaxKind.StarToken 6 "*")
              (SyntaxNode.Index
                (SyntaxNode.Literal (some (Value.Integer 3)) ⟨1, 8, 8, 9⟩)
                (SyntaxNode.Literal (some (Value.Integer 0)) ⟨1, 12, 12, 13⟩)
                ⟨1, 10, 10, 17⟩)
              ⟨1, 4, 4, 17⟩)
            ⟨1, 0, 0, 17⟩, ⟨8, []⟩) := by
  refine ⟨rfl, rfl, fun fuel => ?_⟩
  by_cases h : fuel < 10
  · rw [if_pos h]
    interval_cases fuel <;> rfl
  · rw [if_neg h]
    exact parse_expression_fuel_mono example_collaborators indexed_operand_buffer 10 fuel
      (by omega) 0 ⟨0, []⟩ _ rfl

end Kalman
